import Mathlib

/-!
QDWSS hex wargame engine: a shallow embedding of `main.js`

The definitions below follow the classes `HexGrid`, `GameEngine`, `UIManager`
(context-menu handlers only) and `AIController` of `src/data/data/main.js`.

Modelling conventions

* Hex coordinates, unit stats, terrain costs and the turn counter are integers
  (`Int`), as in the repository's data; probabilities and random draws are
  rationals (`ℚ`).
* A JavaScript `Map` keyed by the text `q,r` is an insertion-ordered association
  list keyed by the coordinate itself (`HexMap`).
* Unit objects are mutable and shared by reference: the engine carries an object
  store `objects` indexed by reference, and `gameState.units` is a list of
  references.
* `Math.random()` is an explicit argument; for the AI, whose draws depend on
  the run, the host state `Sim` holds the sequence of values it will return.
* A `while` loop that may run forever takes a step budget and answers `none`
  when the budget is exhausted.
* `setTimeout` and the pauses of the asynchronous `runAI` are entries of a timer
  queue in `Sim`; a callback runs to completion when its timer fires.
* Logging and DOM updates are left out.
-/

namespace QDWSS

/-- Axial hex coordinate `{q, r}`. -/
structure Coord where
  q : Int
  r : Int
deriving DecidableEq, Repr

/-- Insertion-ordered association list standing for a JavaScript `Map` whose keys
are the texts `q,r`. -/
abbrev HexMap (α : Type) := List (Coord × α)

/-- `Map.prototype.get`: the value stored under the key, if any. -/
def HexMap.get {α : Type} : HexMap α → Coord → Option α
  | [], _ => none
  | (k, v) :: t, c => if k = c then some v else HexMap.get t c

/-- `Map.prototype.has`. -/
def HexMap.has {α : Type} (m : HexMap α) (c : Coord) : Bool :=
  (HexMap.get m c).isSome

/-- `Map.prototype.set`: an existing key keeps its place and gets the new value,
a new key is appended. -/
def HexMap.set {α : Type} : HexMap α → Coord → α → HexMap α
  | [], c, v => [(c, v)]
  | (k, w) :: t, c, v => if k = c then (k, v) :: t else (k, w) :: HexMap.set t c v

/-- `Map.prototype.keys`, in insertion order. -/
def HexMap.keys {α : Type} (m : HexMap α) : List Coord :=
  m.map Prod.fst

/-- The two factions. -/
inductive Faction where
  | blue
  | red
deriving DecidableEq, Repr

/-- The `stats` record of a unit. -/
structure Stats where
  atk : Int
  def_ : Int
  mov : Int
  sight : Int
  hp : Int
  maxHp : Int
  logistics : Int
  morale : Int
deriving DecidableEq, Repr

/-- The `status` record of a unit. -/
structure Status where
  moved : Bool
  acted : Bool
deriving DecidableEq, Repr

/-- A unit object of `gameState.units` (name and level are cosmetic and left out). -/
structure UnitData where
  id : Nat
  faction : Faction
  q : Int
  r : Int
  stats : Stats
  status : Status
deriving DecidableEq, Repr

/-- An entry of `map.terrainTypes`; a missing or zero `cost` / `defBonus` is `0`
(both are falsy for the `||` defaults of the code). -/
structure TerrainType where
  cost : Int
  defBonus : Int
deriving DecidableEq, Repr

/-- A cell of `map.hexes`; `terrainType` is absent when the terrain key of the
cell is not in `terrainTypes`. -/
structure Cell where
  q : Int
  r : Int
  terrainType : Option TerrainType
deriving DecidableEq, Repr

/-- The fields of `GameEngine` (with its `gameState`) that the simulation reads
or writes. -/
structure GameEngine where
  hexes : HexMap Cell
  objects : Nat → UnitData
  units : List Nat
  turn : Int
  currentPlayer : Faction
  selectedUnit : Option Nat
  isDraggingUnit : Bool
  draggedUnit : Option Nat
  reachableHexes : HexMap Int
  attackableHexes : HexMap Nat

/-- `HexGrid.hexDistance`. -/
def hexDistance (a b : Coord) : Int :=
  let dq := |a.q - b.q|
  let dr := |a.r - b.r|
  let ds := |(-a.q - a.r) - (-b.q - b.r)|
  (dq + dr + ds) / 2

/-- `HexGrid.hexNeighbors`. -/
def hexNeighbors (hex : Coord) : List Coord :=
  let directions : List Coord :=
    [⟨1, 0⟩, ⟨1, -1⟩, ⟨0, -1⟩, ⟨-1, 0⟩, ⟨-1, 1⟩, ⟨0, 1⟩]
  directions.map (fun dir => ⟨hex.q + dir.q, hex.r + dir.r⟩)

/-- The position `{q, r}` of a unit object. -/
def UnitData.coord (u : UnitData) : Coord := ⟨u.q, u.r⟩

/-- `GameEngine.getHexAt`. -/
def getHexAt (g : GameEngine) (q r : Int) : Option Cell :=
  HexMap.get g.hexes ⟨q, r⟩

/-- `GameEngine.getUnitAt`: the first unit of the roster standing on `(q, r)`. -/
def getUnitAt (g : GameEngine) (q r : Int) : Option Nat :=
  g.units.find? (fun u => (g.objects u).q == q && (g.objects u).r == r)

/-- `GameEngine.getUnitsByFaction`. -/
def getUnitsByFaction (g : GameEngine) (faction : Faction) : List Nat :=
  g.units.filter (fun u => (g.objects u).faction == faction)

/-- The expression `hexData.terrainType?.cost || 99`. -/
def terrainCostOf (hexData : Cell) : Int :=
  match hexData.terrainType with
  | none => 99
  | some t => if t.cost = 0 then 99 else t.cost

/-- The local variables of the loop of `calculateReachableHexes`. -/
structure Search where
  frontier : List Coord
  head : Nat
  costSoFar : HexMap Int
  reachableHexes : HexMap Int
deriving DecidableEq, Repr

/-- Body of the `for (const next of neighbors)` loop of
`calculateReachableHexes`. -/
def relaxNeighbor (g : GameEngine) (unit : UnitData) (currentCost : Int)
    (st : Search) (next : Coord) : Search :=
  match getHexAt g next.q next.r with
  | none => st
  | some hexData =>
    let terrainCost := terrainCostOf hexData
    let newCost := currentCost + terrainCost
    if newCost ≤ unit.stats.mov then
      let unitAtNext := getUnitAt g next.q next.r
      if (match unitAtNext with
          | some v => decide ((g.objects v).faction ≠ unit.faction)
          | none => false) then st
      else if (match HexMap.get st.costSoFar next with
               | none => true
               | some old => decide (newCost < old)) then
        let st1 : Search :=
          { st with costSoFar := HexMap.set st.costSoFar next newCost,
                    frontier := st.frontier ++ [next] }
        if unitAtNext.isNone then
          { st1 with reachableHexes := HexMap.set st1.reachableHexes next newCost }
        else st1
      else st
    else st

/-- Body of the `while` loop of `calculateReachableHexes` for the dequeued hex
`current` (`head` already advanced). An undefined `currentCost` makes every
comparison fail. -/
def visitHex (g : GameEngine) (unit : UnitData) (st : Search) (current : Coord) : Search :=
  match HexMap.get st.costSoFar current with
  | none => st
  | some currentCost => (hexNeighbors current).foldl (relaxNeighbor g unit currentCost) st

/-- The `while (head < frontier.length)` loop of `calculateReachableHexes`,
with a budget of iterations. -/
def searchLoop (g : GameEngine) (unit : UnitData) : Nat → Search → Option Search
  | 0, st => if st.head < st.frontier.length then none else some st
  | fuel + 1, st =>
    match st.frontier[st.head]? with
    | none => some st
    | some current =>
      searchLoop g unit fuel (visitHex g unit { st with head := st.head + 1 } current)

/-- The state of the locals of `calculateReachableHexes` on entering the loop. -/
def searchInit (unit : UnitData) : Search :=
  let startHex : Coord := ⟨unit.q, unit.r⟩
  { frontier := [startHex], head := 0,
    costSoFar := HexMap.set [] startHex 0,
    reachableHexes := HexMap.set [] startHex 0 }

/-- `GameEngine.calculateReachableHexes`: the engine with `reachableHexes`
recomputed for the unit, or `none` when the loop does not finish within the
budget. -/
def calculateReachableHexes (g : GameEngine) (unit : Nat) (fuel : Nat) : Option GameEngine :=
  (searchLoop g (g.objects unit) fuel (searchInit (g.objects unit))).map
    (fun st => { g with reachableHexes := st.reachableHexes })

/-- The hex has a cell in `map.hexes`. -/
def onMap (g : GameEngine) (h : Coord) : Prop :=
  (getHexAt g h.q h.r).isSome = true

/-- Movement points spent on entering the hex: the `terrainCost` the search
computes for it (`0` off the map, where the search never goes). -/
def entryCost (g : GameEngine) (h : Coord) : Int :=
  match getHexAt g h.q h.r with
  | some hexData => terrainCostOf hexData
  | none => 0

/-- Some unit of the roster stands on the hex. -/
def occupied (g : GameEngine) (h : Coord) : Prop :=
  ∃ v ∈ g.units, (g.objects v).coord = h

/-- Some unit of the roster that is not of faction `f` stands on the hex. -/
def enemyOccupied (g : GameEngine) (f : Faction) (h : Coord) : Prop :=
  ∃ v ∈ g.units, (g.objects v).coord = h ∧ (g.objects v).faction ≠ f

/-- A hex that a unit of faction `f` may enter: on the map and not occupied by an
enemy. -/
def passable (g : GameEngine) (f : Faction) (h : Coord) : Prop :=
  onMap g h ∧ ¬ enemyOccupied g f h

/-- The list `p` of hexes entered one after the other, starting from hex `a`, is
a legal path for faction `f`: each hex is a neighbour of the one before (the
first of `a`), is on the map and holds no enemy. -/
def legalPath (g : GameEngine) (f : Faction) : Coord → List Coord → Prop
  | _, [] => True
  | a, b :: t => b ∈ hexNeighbors a ∧ passable g f b ∧ legalPath g f b t

/-- Sum of the entry costs of the hexes of a path. -/
def pathCost (g : GameEngine) (p : List Coord) : Int :=
  (p.map (entryCost g)).sum

/-- Every cell of the map has a positive `terrainCost`. -/
def positiveCosts (g : GameEngine) : Prop :=
  ∀ e ∈ g.hexes, 0 < terrainCostOf e.2

/-- No two units of the roster stand on the same hex. -/
def oneUnitPerHex (g : GameEngine) : Prop :=
  (g.units.map (fun v => (g.objects v).coord)).Nodup

instance (g : GameEngine) : Decidable (positiveCosts g) := by
  unfold positiveCosts; infer_instance

instance (g : GameEngine) : Decidable (oneUnitPerHex g) := by
  unfold oneUnitPerHex; infer_instance

/-- Fallback-style plain cell. -/
def plainCell (q r : Int) : Cell := ⟨q, r, some ⟨1, 0⟩⟩

/-- A 3 x 3 plain map. -/
def demoHexes : HexMap Cell :=
  [(⟨0,0⟩, plainCell 0 0), (⟨1,0⟩, plainCell 1 0), (⟨2,0⟩, plainCell 2 0),
   (⟨0,1⟩, plainCell 0 1), (⟨1,1⟩, plainCell 1 1), (⟨2,1⟩, plainCell 2 1),
   (⟨0,2⟩, plainCell 0 2), (⟨1,2⟩, plainCell 1 2), (⟨2,2⟩, plainCell 2 2)]

/-- The unit objects of the demo: a blue squad at `(0, 0)` under reference 0 and
a red platoon at `(1, 1)` under every other reference. -/
def demoUnits : Nat → UnitData
  | 0 => ⟨0, .blue, 0, 0, ⟨5, 3, 2, 3, 10, 10, 100, 80⟩, ⟨false, false⟩⟩
  | _ => ⟨1, .red, 1, 1, ⟨8, 4, 5, 5, 20, 20, 100, 80⟩, ⟨false, false⟩⟩

/-- A small engine state: the 3 x 3 plain map, the two demo units, turn 1, blue
to play. -/
def demoEngine : GameEngine :=
  { hexes := demoHexes, objects := demoUnits, units := [0, 1], turn := 1,
    currentPlayer := .blue, selectedUnit := none, isDraggingUnit := false,
    draggedUnit := none, reachableHexes := [], attackableHexes := [] }

/-- The engine with the unit object `unit` replaced by `u` (a field assignment
on the object). -/
def setObject (g : GameEngine) (unit : Nat) (u : UnitData) : GameEngine :=
  { g with objects := Function.update g.objects unit u }

/-- Body of the inner loop of `calculateAttackableHexes` for one neighbour. -/
def markAttackable (g : GameEngine) (unit : UnitData) (acc : HexMap Nat) (neighbor : Coord) :
    HexMap Nat :=
  match getUnitAt g neighbor.q neighbor.r with
  | some targetUnit =>
    if (g.objects targetUnit).faction ≠ unit.faction then
      HexMap.set acc neighbor targetUnit
    else acc
  | none => acc

/-- `GameEngine.calculateAttackableHexes`. -/
def calculateAttackableHexes (g : GameEngine) (unit : Nat) (fuel : Nat) : Option GameEngine :=
  match calculateReachableHexes { g with attackableHexes := [] } unit fuel with
  | none => none
  | some g1 =>
    let own : Coord := ⟨(g1.objects unit).q, (g1.objects unit).r⟩
    let keys := HexMap.keys g1.reachableHexes
    let moveKeys := if own ∈ keys then keys else keys ++ [own]
    let attackable := moveKeys.foldl
      (fun acc hexKey => (hexNeighbors hexKey).foldl (markAttackable g1 (g1.objects unit)) acc)
      g1.attackableHexes
    some { g1 with attackableHexes := attackable }

/-- `GameEngine.selectUnit` (highlight bookkeeping only; DOM updates left out). -/
def selectUnit (g : GameEngine) (unit : Option Nat) (fuel : Nat) : Option GameEngine :=
  let g1 : GameEngine :=
    { g with selectedUnit := unit, reachableHexes := [], attackableHexes := [] }
  match unit with
  | none => some g1
  | some u =>
    if (g1.objects u).faction = g1.currentPlayer then
      match (if (g1.objects u).status.moved then some g1
             else calculateReachableHexes g1 u fuel) with
      | none => none
      | some g2 =>
        if (g2.objects u).status.acted then some g2
        else calculateAttackableHexes g2 u fuel
    else some g1

/-- `GameEngine.moveUnit`. -/
def moveUnit (g : GameEngine) (unit : Nat) (newCoords : Coord) : GameEngine :=
  setObject g unit { g.objects unit with q := newCoords.q, r := newCoords.r }

/-- The test `this.gameState.selectedUnit?.id === unit.id`. -/
def selectedHasIdOf (g : GameEngine) (unit : Nat) : Bool :=
  match g.selectedUnit with
  | some s => (g.objects s).id == (g.objects unit).id
  | none => false

/-- `GameEngine.removeUnit`. -/
def removeUnit (g : GameEngine) (unit : Nat) (fuel : Nat) : Option GameEngine :=
  let g1 : GameEngine :=
    { g with units := g.units.filter (fun u => (g.objects u).id != (g.objects unit).id) }
  if selectedHasIdOf g1 unit then selectUnit g1 none fuel else some g1

/-- `Math.round`: the nearest integer, halves rounded up. -/
def mathRound (x : ℚ) : Int := ⌊x + 1 / 2⌋

/-- The record returned by `calculateCombat`. -/
structure CombatResult where
  hitChance : ℚ
  expectedDamage : Int
  defenderTerrainBonus : Int

/-- `GameEngine.calculateCombat`; `rand` is the value of `Math.random()`. -/
def calculateCombat (g : GameEngine) (attacker defender : Nat) (rand : ℚ) : CombatResult :=
  let terrainDefBonus : Int :=
    match getHexAt g (g.objects defender).q (g.objects defender).r with
    | some terrain =>
      (match terrain.terrainType with
       | some t => t.defBonus
       | none => 0)
    | none => 0
  let atkStats := (g.objects attacker).stats
  let defStats := (g.objects defender).stats
  let hitChance0 : ℚ := 0.2 + 0.05 * ((atkStats.sight - defStats.sight : Int) : ℚ)
    + 0.03 * ((atkStats.morale - defStats.morale : Int) : ℚ)
  let hitChance : ℚ := max 0.05 (min hitChance0 0.95)
  let atk_factor : Int := 1
  let def_factor : Int := 1
  let baseDamage0 : Int := (atkStats.atk * atk_factor) - (defStats.def_ * def_factor + terrainDefBonus)
  let baseDamage : Int := max 1 baseDamage0
  let randomFactor : ℚ := 0.85 + rand * 0.30
  let expectedDamage := mathRound ((baseDamage : ℚ) * randomFactor)
  { hitChance := hitChance, expectedDamage := expectedDamage,
    defenderTerrainBonus := terrainDefBonus }

/-- `GameEngine.resolveCombat`; `randDamage` and `randHit` are the two values
of `Math.random()` drawn by an accepted attack. -/
def resolveCombat (g : GameEngine) (attacker defender : Nat) (randDamage randHit : ℚ)
    (fuel : Nat) : Option GameEngine :=
  if (g.objects attacker).status.acted then some g
  else if hexDistance (g.objects attacker).coord (g.objects defender).coord > 1 then some g
  else
    let combatResult := calculateCombat g attacker defender randDamage
    let afterHit : Option GameEngine :=
      if randHit ≤ combatResult.hitChance then
        let damage := combatResult.expectedDamage
        let d := g.objects defender
        let g1 := setObject g defender { d with stats := { d.stats with hp := d.stats.hp - damage } }
        if (g1.objects defender).stats.hp ≤ 0 then
          let d1 := g1.objects defender
          let g2 := setObject g1 defender { d1 with stats := { d1.stats with hp := 0 } }
          removeUnit g2 defender fuel
        else some g1
      else some g
    match afterHit with
    | none => none
    | some g3 =>
      let a := g3.objects attacker
      let g4 := setObject g3 attacker { a with status := { moved := true, acted := true } }
      if selectedHasIdOf g4 attacker then selectUnit g4 (some attacker) fuel else some g4

/-- The status reset of `endTurn` applied to the units of the roster in turn. -/
def resetStatuses (g : GameEngine) (us : List Nat) : GameEngine :=
  us.foldl (fun acc u =>
    setObject acc u { acc.objects u with status := { moved := false, acted := false } }) g

/-- `GameEngine.endTurn`. The call `setTimeout(() => this.ai.runAI(), 500)` of
the blue branch is scheduled by the caller (`Sim`). -/
def endTurn (g : GameEngine) (fuel : Nat) : Option GameEngine :=
  if g.isDraggingUnit then some g
  else
    let currentPlayer := g.currentPlayer
    let g1 := resetStatuses g (g.units.filter (fun u => (g.objects u).faction == currentPlayer))
    match selectUnit g1 none fuel with
    | none => none
    | some g2 =>
      if currentPlayer = Faction.blue then
        some { g2 with currentPlayer := Faction.red }
      else
        some { g2 with currentPlayer := Faction.blue, turn := g2.turn + 1 }

/-- `GameEngine.onUnitPointerDown` for a left-button press on the badge of
`unit`. -/
def onUnitPointerDown (g : GameEngine) (unit : Nat) (fuel : Nat) : Option GameEngine :=
  match selectUnit g (some unit) fuel with
  | none => none
  | some g1 =>
    if (g1.objects unit).faction = g1.currentPlayer ∧ (g1.objects unit).status.moved = false then
      calculateReachableHexes { g1 with isDraggingUnit := true, draggedUnit := some unit } unit fuel
    else some g1

/-- The demo engine while the blue unit is being dragged. -/
def draggingEngine : GameEngine :=
  { demoEngine with isDraggingUnit := true, draggedUnit := some 0 }

/-- The demo engine after the blue unit has moved and acted. -/
def blueDoneEngine : GameEngine :=
  setObject demoEngine 0 { demoEngine.objects 0 with status := { moved := true, acted := true } }

/-- The demo engine with the red unit moved next to the blue one, at `(1, 0)`. -/
def adjacentEngine : GameEngine :=
  setObject demoEngine 1 { demoEngine.objects 1 with q := 1, r := 0 }

/-- The demo engine, blue to play, in which both units have moved and acted. -/
def bothDoneEngine : GameEngine :=
  { demoEngine with
    objects := fun u => { demoEngine.objects u with status := { moved := true, acted := true } } }

/-- The action records built by `findBestAction`. -/
inductive Action where
  | attack (unit target : Nat)
  | move (unit : Nat) (targetCoords : Coord)
  | wait (unit : Nat)
deriving DecidableEq, Repr

/-- A callback waiting in the timer queue of the host: the start of `runAI`
(500 ms after a blue end of turn), the rest of the `for` loop of `runAI` after
its 200 ms pause, or the follow-up attack of `executeAction` (250 ms). -/
inductive Task where
  | runAI
  | aiResume (rest playerUnits : List Nat)
  | followUp (action : Action)
deriving DecidableEq, Repr

/-- The engine together with the host it runs in: the values `Math.random()`
will return, how many have been drawn, the clock (ms) and the pending timers
in registration order. -/
structure Sim where
  engine : GameEngine
  rand : Nat → ℚ
  drawn : Nat
  now : Nat
  timers : List (Nat × Task)

/-- `Math.random()`. -/
def Sim.random (s : Sim) : ℚ × Sim :=
  (s.rand s.drawn, { s with drawn := s.drawn + 1 })

/-- `setTimeout(task, delay)`. -/
def Sim.setTimeout (s : Sim) (task : Task) (delay : Nat) : Sim :=
  { s with timers := s.timers ++ [(s.now + delay, task)] }

/-- The loop of `findBestAction` that looks for the nearest target; `none`
stands for `nearestTarget = null`, `minDistance = Infinity`. -/
def nearestTargetOf (g : GameEngine) (unit : Nat) (targets : List Nat) : Option (Nat × Int) :=
  targets.foldl (fun acc target =>
    let d := hexDistance (g.objects unit).coord (g.objects target).coord
    match acc with
    | none => some (target, d)
    | some (_, minDistance) => if d < minDistance then some (target, d) else acc) none

/-- The callback of `reachableHexes.forEach` in `findBestAction`, on the pair
(`bestNextHex`, `bestHexDistance`); its `return` ends the callback for the
current entry only. -/
def considerHex (g : GameEngine) (nearestTarget : Nat) (best : Option Coord × Int)
    (entry : Coord × Int) : Option Coord × Int :=
  let d := hexDistance entry.1 (g.objects nearestTarget).coord
  if d = 1 then (some entry.1, d)
  else if d < best.2 then (some entry.1, d)
  else best

/-- The enemies next to the unit that `findBestAction` collects in
`attackableTargets`. -/
def adjacentTargets (g : GameEngine) (unit : Nat) (targets : List Nat) : List Nat :=
  (hexNeighbors (g.objects unit).coord).filterMap (fun n =>
    match getUnitAt g n.q n.r with
    | some target => if target ∈ targets then some target else none
    | none => none)

/-- `attackableTargets.sort((a, b) => a.stats.hp - b.stats.hp)` (a stable sort). -/
def sortByHp (g : GameEngine) (l : List Nat) : List Nat :=
  l.insertionSort (fun a b => (g.objects a).stats.hp ≤ (g.objects b).stats.hp)

/-- `AIController.findBestAction`: the action chosen (`none` for `null`) and
the host afterwards. -/
def findBestAction (s : Sim) (unit : Nat) (targets : List Nat) (fuel : Nat) :
    Option (Option Action × Sim) :=
  if targets.length = 0 then some (none, s)
  else
    let g := s.engine
    let attackableTargets := adjacentTargets g unit targets
    let strategy1 : Option Action × Sim :=
      match sortByHp g attackableTargets with
      | [] => (none, s)
      | target :: _ =>
        let combatSim := calculateCombat g unit target s.random.1
        if combatSim.expectedDamage > 0 then (some (Action.attack unit target), s.random.2)
        else (none, s.random.2)
    match strategy1 with
    | (some bestAttack, s1) =>
      if s1.random.1 < 0.1 then some (some (Action.wait unit), s1.random.2)
      else some (some bestAttack, s1.random.2)
    | (none, s1) =>
      if (g.objects unit).status.moved then some (none, s1)
      else
        match nearestTargetOf g unit targets with
        | none => some (none, s1)
        | some (nearestTarget, minDistance) =>
          match calculateReachableHexes s1.engine unit fuel with
          | none => none
          | some g1 =>
            let best : Option Coord × Int :=
              if g1.reachableHexes.length > 0 then
                g1.reachableHexes.foldl (considerHex g1 nearestTarget) (none, minDistance)
              else (none, minDistance)
            let s2 : Sim := { s1 with engine := { g1 with reachableHexes := [] } }
            match best.1 with
            | some bestNextHex =>
              if s2.random.1 < 0.1 then some (some (Action.wait unit), s2.random.2)
              else some (some (Action.move unit bestNextHex), s2.random.2)
            | none => some (some (Action.wait unit), s2)

/-- `resolveCombat` as the host runs it: an accepted attack draws two random
values. -/
def hostResolveCombat (s : Sim) (attacker defender : Nat) (fuel : Nat) : Option Sim :=
  let g := s.engine
  match resolveCombat g attacker defender (s.rand s.drawn) (s.rand (s.drawn + 1)) fuel with
  | none => none
  | some g1 =>
    if (g.objects attacker).status.acted ∨
        hexDistance (g.objects attacker).coord (g.objects defender).coord > 1 then
      some { s with engine := g1 }
    else some { s with engine := g1, drawn := s.drawn + 2 }

/-- `AIController.executeAction`. -/
def executeAction (s : Sim) (action : Action) (fuel : Nat) : Option Sim :=
  match action with
  | Action.attack unit target => hostResolveCombat s unit target fuel
  | Action.move unit targetCoords =>
    let g1 := moveUnit s.engine unit targetCoords
    let g2 := setObject g1 unit
      { g1.objects unit with status := { (g1.objects unit).status with moved := true } }
    match findBestAction { s with engine := g2 } unit (getUnitsByFaction g2 Faction.blue) fuel with
    | none => none
    | some (some (Action.attack u t), s1) =>
      some (s1.setTimeout (Task.followUp (Action.attack u t)) 250)
    | some (_, s1) =>
      let u := s1.engine.objects unit
      let g3 := setObject s1.engine unit { u with status := { u.status with acted := true } }
      some { s1 with engine := g3 }
  | Action.wait unit =>
    let u := s.engine.objects unit
    let g1 := setObject s.engine unit { u with status := { moved := true, acted := true } }
    some { s with engine := g1 }

/-- `GameEngine.endTurn` as the host runs it: ending the blue turn also
registers the start of `runAI` 500 ms later. -/
def hostEndTurn (s : Sim) (fuel : Nat) : Option Sim :=
  match endTurn s.engine fuel with
  | none => none
  | some g1 =>
    if s.engine.isDraggingUnit = false ∧ s.engine.currentPlayer = Faction.blue then
      some (Sim.setTimeout { s with engine := g1 } Task.runAI 500)
    else some { s with engine := g1 }

/-- One pass of the `for (const unit of aiUnits)` loop of `runAI`, after its
pause. -/
def aiUnitTurn (s : Sim) (unit : Nat) (playerUnits : List Nat) (fuel : Nat) : Option Sim :=
  if (s.engine.objects unit).status.acted then some s
  else
    match findBestAction s unit playerUnits fuel with
    | none => none
    | some (some action, s1) => executeAction s1 action fuel
    | some (none, s1) =>
      let u := s1.engine.objects unit
      let g1 := setObject s1.engine unit { u with status := { moved := true, acted := true } }
      some { s1 with engine := g1 }

/-- The callback run when a timer fires. `runAI` suspends at each 200 ms pause
of its loop and calls `endTurn` right after the pass for the last unit. -/
def runTask (s : Sim) (task : Task) (fuel : Nat) : Option Sim :=
  match task with
  | Task.runAI =>
    let aiUnits := getUnitsByFaction s.engine Faction.red
    let playerUnits := getUnitsByFaction s.engine Faction.blue
    match aiUnits with
    | [] => hostEndTurn s fuel
    | _ :: _ => some (s.setTimeout (Task.aiResume aiUnits playerUnits) 200)
  | Task.aiResume [] _ => hostEndTurn s fuel
  | Task.aiResume (unit :: rest) playerUnits =>
    match aiUnitTurn s unit playerUnits fuel with
    | none => none
    | some s1 =>
      match rest with
      | [] => hostEndTurn s1 fuel
      | _ :: _ => some (s1.setTimeout (Task.aiResume rest playerUnits) 200)
  | Task.followUp action => executeAction s action fuel

/-- Position in the queue of the timer that fires next: the earliest due time,
the first registered among equals. -/
def nextTimerIdx : List (Nat × Task) → Option Nat
  | [] => none
  | (due, _) :: rest =>
    match nextTimerIdx rest with
    | none => some 0
    | some i =>
      match rest[i]? with
      | some (due2, _) => if due2 < due then some (i + 1) else some 0
      | none => some 0

/-- The host fires the next timer, if any. -/
def Sim.fireNext (s : Sim) (fuel : Nat) : Option Sim :=
  match nextTimerIdx s.timers with
  | none => some s
  | some i =>
    match s.timers[i]? with
    | none => some s
    | some (due, task) =>
      runTask { s with now := max s.now due, timers := s.timers.eraseIdx i } task fuel

/-- The host fires `n` timers one after the other. -/
def Sim.fireTimers (s : Sim) (fuel : Nat) : Nat → Option Sim
  | 0 => some s
  | n + 1 =>
    match s.fireNext fuel with
    | none => none
    | some s1 => s1.fireTimers fuel n

/-- A host for the demo engine in which every `Math.random()` is one half. -/
def demoSim : Sim :=
  { engine := demoEngine, rand := fun _ => 1 / 2, drawn := 0, now := 0, timers := [] }

/-- `GameEngine.onUnitPointerUp`; `target` is the hex under the pointer
(`getHexAtPixel`). -/
def onUnitPointerUp (g : GameEngine) (target : Coord) (fuel : Nat) : Option GameEngine :=
  match g.isDraggingUnit, g.draggedUnit with
  | true, some unit =>
    let dropped : Option GameEngine :=
      if HexMap.has g.reachableHexes target = true ∧ getUnitAt g target.q target.r = none then
        let g1 := moveUnit g unit target
        let u := g1.objects unit
        let g2 := setObject g1 unit { u with status := { u.status with moved := true } }
        selectUnit g2 (some unit) fuel
      else some g
    dropped.map (fun g3 =>
      { g3 with isDraggingUnit := false, draggedUnit := none, reachableHexes := [] })
  | _, _ => some { g with isDraggingUnit := false, draggedUnit := none }

/-- The values `showContextMenu` computes when the menu opens and that its click
handlers keep. -/
structure ContextMenu where
  contextUnit : Nat
  targetUnit : Option Nat
  isMyTurn : Bool
  canAct : Bool
  isInRange : Bool

/-- `UIManager.showContextMenu`: the flags of the menu opened for `contextUnit`
over `targetUnit`. -/
def showContextMenu (g : GameEngine) (contextUnit : Nat) (targetUnit : Option Nat) :
    ContextMenu :=
  let isMyTurn : Bool := decide ((g.objects contextUnit).faction = g.currentPlayer)
  let canAct : Bool := isMyTurn && !(g.objects contextUnit).status.acted
  let isInRange : Bool :=
    match targetUnit with
    | some t =>
      decide ((g.objects t).faction ≠ (g.objects contextUnit).faction) &&
        decide (hexDistance (g.objects contextUnit).coord (g.objects t).coord ≤ 1)
    | none => false
  { contextUnit := contextUnit, targetUnit := targetUnit, isMyTurn := isMyTurn,
    canAct := canAct, isInRange := isInRange }

/-- The click handler of the menu entry `menu-attack`. -/
def menuAttack (g : GameEngine) (m : ContextMenu) (randDamage randHit : ℚ) (fuel : Nat) :
    Option GameEngine :=
  if m.canAct = true ∧ m.isInRange = true then
    match m.targetUnit with
    | some t => resolveCombat g m.contextUnit t randDamage randHit fuel
    | none => some g
  else some g

/-- The click handler of the menu entry `menu-wait`. -/
def menuWait (g : GameEngine) (m : ContextMenu) : GameEngine :=
  if m.isMyTurn = true then
    setObject g m.contextUnit
      { g.objects m.contextUnit with status := { moved := true, acted := true } }
  else g

/-- The keys of a `stats` record. -/
inductive StatName where
  | atk
  | def_
  | mov
  | sight
  | hp
  | maxHp
  | logistics
  | morale
deriving DecidableEq, Repr

/-- The assignment `unit.stats[stat] = numValue`. -/
def Stats.setStat (s : Stats) (stat : StatName) (numValue : Int) : Stats :=
  match stat with
  | StatName.atk => { s with atk := numValue }
  | StatName.def_ => { s with def_ := numValue }
  | StatName.mov => { s with mov := numValue }
  | StatName.sight => { s with sight := numValue }
  | StatName.hp => { s with hp := numValue }
  | StatName.maxHp => { s with maxHp := numValue }
  | StatName.logistics => { s with logistics := numValue }
  | StatName.morale => { s with morale := numValue }

/-- `GameEngine.getUnitById`. -/
def getUnitById (g : GameEngine) (id : Nat) : Option Nat :=
  g.units.find? (fun u => (g.objects u).id == id)

/-- `GameEngine.editUnitStat`. `stat` is `none` for a name that is not a key of
`stats`; `value` is the result of `parseFloat`, `none` for `NaN`. -/
def editUnitStat (g : GameEngine) (unitId : Nat) (stat : Option StatName)
    (value : Option Int) : GameEngine :=
  match getUnitById g unitId with
  | none => g
  | some unit =>
    match value with
    | none => g
    | some numValue =>
      match stat with
      | none => g
      | some st =>
        let u := g.objects unit
        let stats1 := u.stats.setStat st numValue
        let stats2 : Stats :=
          if st = StatName.maxHp then { stats1 with hp := min stats1.hp numValue } else stats1
        let stats3 : Stats :=
          if st = StatName.hp then { stats2 with hp := min numValue stats2.maxHp } else stats2
        setObject g unit { u with stats := stats3 }

/-- A cell whose terrain key is not in `terrainTypes`: it gets the cost 99. -/
def bareCell (q r : Int) : Cell := ⟨q, r, none⟩

/-- A cell of a terrain type with the given cost. -/
def costCell (q r cost : Int) : Cell := ⟨q, r, some ⟨cost, 0⟩⟩

/-- The demo engine with the blue unit's `mov` raised to 99 and the cell `(1, 0)`
left without a terrain type. -/
def sentinelEngine : GameEngine :=
  { demoEngine with
    hexes := HexMap.set demoEngine.hexes ⟨1, 0⟩ (bareCell 1 0),
    objects := fun u =>
      if u = 0 then
        { demoEngine.objects 0 with stats := { (demoEngine.objects 0).stats with mov := 99 } }
      else demoEngine.objects u }

/-- A map of two adjacent cells, both of terrain cost -1, with the blue demo unit
(at `(0, 0)`) alone on it. -/
def negativeEngine : GameEngine :=
  { demoEngine with
    hexes := [(⟨0, 0⟩, costCell 0 0 (-1)), (⟨1, 0⟩, costCell 1 0 (-1))],
    units := [0] }

/-- The demo engine after a pointer press on the blue unit: the drag is under way
and `reachableHexes` holds the set computed for that unit. -/
def dragReadyEngine : GameEngine :=
  { draggingEngine with
    selectedUnit := some 0,
    reachableHexes := [(⟨0, 0⟩, 0), (⟨1, 0⟩, 1), (⟨0, 1⟩, 1), (⟨2, 0⟩, 2), (⟨0, 2⟩, 2)] }

/-- The unit object after an accepted drop on the hex `c`: `moveUnit` followed by
`unit.status.moved = true`. -/
def UnitData.movedTo (u : UnitData) (c : Coord) : UnitData :=
  { u with q := c.q, r := c.r, status := { u.status with moved := true } }

/-- The demo engine with the blue unit's `mov` set to 0. -/
def pinnedEngine : GameEngine :=
  { demoEngine with
    objects := fun u =>
      if u = 0 then
        { demoEngine.objects 0 with stats := { (demoEngine.objects 0).stats with mov := 0 } }
      else demoEngine.objects u }

/-- The demo engine with the blue unit alone in the roster. -/
def soloEngine : GameEngine := { demoEngine with units := [0] }

/-- The `HexGrid` object: `hexSize`, and the value of `Math.sqrt(3)` the code
multiplies with. -/
structure HexGrid where
  hexSize : ℚ
  sqrt3 : ℚ

/-- The field `width` set by the constructor. -/
def HexGrid.width (G : HexGrid) : ℚ := G.hexSize * 2

/-- The field `height` set by the constructor. -/
def HexGrid.height (G : HexGrid) : ℚ := G.sqrt3 * G.hexSize

/-- The field `origin` set by the constructor. -/
def HexGrid.origin (G : HexGrid) : ℚ × ℚ := (G.width / 2, G.height / 2)

/-- `HexGrid.axialToPixel`: the pixel `(x, y)` of the centre of the hex `(q, r)`. -/
def axialToPixel (G : HexGrid) (q r : ℚ) : ℚ × ℚ :=
  let x := G.hexSize * (3 / 2 * q)
  let y := G.hexSize * (G.sqrt3 / 2 * q + G.sqrt3 * r)
  (x + G.origin.1, y + G.origin.2)

/-- A fractional axial coordinate `{q, r}`. -/
structure FracCoord where
  q : ℚ
  r : ℚ
deriving DecidableEq

/-- `HexGrid.axialRound`. -/
def axialRound (frac : FracCoord) : FracCoord :=
  let q : ℚ := mathRound frac.q
  let r : ℚ := mathRound frac.r
  let s : ℚ := mathRound (-frac.q - frac.r)
  let q_diff := |q - frac.q|
  let r_diff := |r - frac.r|
  let s_diff := |s - (-frac.q - frac.r)|
  if q_diff > r_diff ∧ q_diff > s_diff then ⟨-r - s, r⟩
  else if r_diff > s_diff then ⟨q, -q - s⟩
  else ⟨q, r⟩

/-- The grid of the fallback data: `new HexGrid(40)`, with the double nearest to
the square root of 3. -/
def demoGrid : HexGrid := { hexSize := 40, sqrt3 := 1.7320508075688772 }

/-- The turn at the pixel `c` from the pixel `a` to the pixel `b`: the cross
product of `a - c` and `b - c`. With `y` growing downward, as on the screen, it
is positive when the turn is clockwise and negative when it is
counter-clockwise. -/
def screenTurn (c a b : ℚ × ℚ) : ℚ :=
  (a.1 - c.1) * (b.2 - c.2) - (b.1 - c.1) * (a.2 - c.2)

/-- The pixel of the centre of an integer hex. -/
def hexCenter (G : HexGrid) (h : Coord) : ℚ × ℚ := axialToPixel G h.q h.r

/-- The quadratic form of the hex lattice on a coordinate difference: the
squared Euclidean distance between the two pixel positions, up to the factor
`3 * hexSize ^ 2`. -/
def hexNorm (dq dr : ℚ) : ℚ := dq ^ 2 + dq * dr + dr ^ 2

/-- The units of the combat scenario: A (atk 5, def 3, mov 4, sight 3, hp 10,
morale 80) at `(0, 0)` under reference 0, B (def 4, sight 5, hp 20, morale 80)
at `(1, 0)` under every other reference. -/
def scenarioUnits : Nat → UnitData
  | 0 => ⟨0, .blue, 0, 0, ⟨5, 3, 4, 3, 10, 10, 100, 80⟩, ⟨false, false⟩⟩
  | _ => ⟨1, .red, 1, 0, ⟨8, 4, 5, 5, 20, 20, 100, 80⟩, ⟨false, false⟩⟩

/-- The combat scenario on the 3 x 3 plain map (terrain bonus 0). -/
def scenarioEngine : GameEngine := { demoEngine with objects := scenarioUnits }

/-- A corridor of seven plain cells, `(0, 0)` to `(6, 0)`. -/
def corridorHexes : HexMap Cell :=
  [(⟨0, 0⟩, plainCell 0 0), (⟨1, 0⟩, plainCell 1 0), (⟨2, 0⟩, plainCell 2 0),
   (⟨3, 0⟩, plainCell 3 0), (⟨4, 0⟩, plainCell 4 0), (⟨5, 0⟩, plainCell 5 0),
   (⟨6, 0⟩, plainCell 6 0)]

/-- Four units in the corridor: a blue squad with 1 hp at `(1, 0)` (reference
0), a blue squad at `(6, 0)` (reference 1), a red platoon at `(0, 0)` (reference
2) and a red platoon at `(3, 0)` (every other reference). -/
def staleUnits : Nat → UnitData
  | 0 => ⟨0, .blue, 1, 0, ⟨5, 3, 2, 3, 1, 10, 100, 80⟩, ⟨false, false⟩⟩
  | 1 => ⟨1, .blue, 6, 0, ⟨5, 3, 2, 3, 10, 10, 100, 80⟩, ⟨false, false⟩⟩
  | 2 => ⟨2, .red, 0, 0, ⟨8, 4, 5, 5, 20, 20, 100, 80⟩, ⟨false, false⟩⟩
  | _ => ⟨3, .red, 3, 0, ⟨8, 4, 5, 5, 20, 20, 100, 80⟩, ⟨false, false⟩⟩

/-- The engine at the start of a red turn in the corridor. -/
def staleEngine : GameEngine :=
  { demoEngine with hexes := corridorHexes, objects := staleUnits, units := [0, 1, 2, 3], currentPlayer := .red }

/-- The host of `staleEngine`; every `Math.random()` is one quarter. -/
def staleSim : Sim :=
  { engine := staleEngine, rand := fun _ => 1 / 4, drawn := 0, now := 0, timers := [] }

/-- The host of the demo engine in which every `Math.random()` is one quarter. -/
def hitSim : Sim := { demoSim with rand := fun _ => 1 / 4 }

/-- Relaxation of the edge from `x` to its neighbour `y` is settled in the state
`st`: when `x` has a recorded cost and `y` can be entered within the budget,
`y` has a recorded cost that is no larger. -/
def EdgeOK (g : GameEngine) (U : UnitData) (st : Search) (x y : Coord) : Prop :=
  ∀ c, HexMap.get st.costSoFar x = some c → passable g U.faction y →
    c + entryCost g y ≤ U.stats.mov →
    ∃ d, HexMap.get st.costSoFar y = some d ∧ d ≤ c + entryCost g y

/-- Loop invariant of `calculateReachableHexes` for the unit `U`; `ex x y` marks
the edges of the hex being visited that the neighbour loop has not handled yet. -/
structure SearchInv (g : GameEngine) (U : UnitData) (ex : Coord → Coord → Prop)
    (st : Search) : Prop where
  start : HexMap.get st.costSoFar U.coord = some 0
  hle : st.head ≤ st.frontier.length
  sound : ∀ h c, HexMap.get st.costSoFar h = some c →
    ∃ p, legalPath g U.faction U.coord p ∧ p.getLastD U.coord = h ∧ pathCost g p = c ∧
      (p = [] ∨ c ≤ U.stats.mov)
  closed : ∀ x c, HexMap.get st.costSoFar x = some c →
    x ∈ st.frontier.drop st.head ∨ ∀ y ∈ hexNeighbors x, EdgeOK g U st x y ∨ ex x y
  reach : ∀ h, HexMap.get st.reachableHexes h =
    if h = U.coord then some 0
    else if getUnitAt g h.q h.r = none then HexMap.get st.costSoFar h else none

/-- Rank of a recorded cost for the termination measure: an absent cost ranks
above every cost within the budget. -/
def costRank (U : UnitData) : Option Int → Nat
  | none => U.stats.mov.toNat + 1
  | some c => c.toNat

/-- The hexes that can ever get a recorded cost: the start and the cells of the
map. -/
def searchDomain (g : GameEngine) (U : UnitData) : Finset Coord :=
  (U.coord :: HexMap.keys g.hexes).toFinset

/-- Termination measure of the loop of `calculateReachableHexes`: the ranks of
all recorded costs plus the number of hexes still waiting in the frontier. -/
def searchMeasure (g : GameEngine) (U : UnitData) (st : Search) : Nat :=
  Finset.sum (searchDomain g U) (fun h => costRank U (HexMap.get st.costSoFar h)) +
    (st.frontier.length - st.head)

/-- Cost bounds kept by the loop of `calculateReachableHexes` on a map with
positive costs, whatever the roster: recorded costs are not negative, and every
recorded hex other than the start is on the map with a cost between its entry
cost and the movement budget. -/
structure SearchBounds (g : GameEngine) (U : UnitData) (st : Search) : Prop where
  hle : st.head ≤ st.frontier.length
  costs : ∀ h c, HexMap.get st.costSoFar h = some c →
    0 ≤ c ∧ (h = U.coord ∨ (onMap g h ∧ entryCost g h ≤ c ∧ c ≤ U.stats.mov))
  reach : ∀ h c, HexMap.get st.reachableHexes h = some c →
    (h = U.coord ∧ c = 0) ∨ (h ≠ U.coord ∧ onMap g h ∧ entryCost g h ≤ c ∧ c ≤ U.stats.mov)
  start : HexMap.get st.costSoFar U.coord = some 0

/-- The states the loop of `calculateReachableHexes` runs through on
`negativeEngine` from its second iteration on: the last hex of the frontier is
waiting with recorded cost `c`, the other cell has cost `c + 1`. -/
def negativeLoopState (st : Search) : Prop :=
  ∃ (l : List Coord) (c : Int) (r : HexMap Int), c ≤ 0 ∧
    (st = { frontier := l ++ [⟨0, 0⟩], head := l.length,
            costSoFar := [(⟨0, 0⟩, c), (⟨1, 0⟩, c + 1)], reachableHexes := r } ∨
     st = { frontier := l ++ [⟨1, 0⟩], head := l.length,
            costSoFar := [(⟨0, 0⟩, c + 1), (⟨1, 0⟩, c)], reachableHexes := r })

/-- The cell has no usable terrain cost (no terrain type, or a missing or zero
`cost`), so that the search charges the sentinel 99 for it. -/
def sentinelCost (hexData : Cell) : Prop :=
  match hexData.terrainType with
  | none => True
  | some t => t.cost = 0

/-- Every cell of the map has terrain cost 1. -/
def unitCosts (g : GameEngine) : Prop :=
  ∀ e ∈ g.hexes, terrainCostOf e.2 = 1

instance (g : GameEngine) : Decidable (unitCosts g) := by
  unfold unitCosts; infer_instance

/-- The engine state `g'` differs from `g` at most in the selection and in the
two highlight maps. -/
def sameBoard (g g' : GameEngine) : Prop :=
  g'.hexes = g.hexes ∧ g'.objects = g.objects ∧ g'.units = g.units ∧ g'.turn = g.turn ∧
    g'.currentPlayer = g.currentPlayer ∧ g'.isDraggingUnit = g.isDraggingUnit ∧
    g'.draggedUnit = g.draggedUnit

/-! Theorems. -/

theorem HexMap.get_set {α : Type} (m : HexMap α) (k c : Coord) (v : α) :
    HexMap.get (HexMap.set m k v) c = if k = c then some v else HexMap.get m c := by
  induction m with
  | nil => simp [HexMap.set, HexMap.get]
  | cons e t ih =>
    obtain ⟨k', w⟩ := e
    by_cases h : k' = k
    · subst h
      by_cases h2 : k' = c <;> simp [HexMap.set, HexMap.get, h2]
    · by_cases h2 : k' = c
      · subst h2
        have : ¬ k = k' := fun e => h e.symm
        simp [HexMap.set, HexMap.get, h, this]
      · simp [HexMap.set, HexMap.get, h, h2, ih]

theorem HexMap.mem_keys_iff {α : Type} (m : HexMap α) (c : Coord) :
    c ∈ HexMap.keys m ↔ ∃ v, HexMap.get m c = some v := by
  induction m with
  | nil => simp [HexMap.keys, HexMap.get]
  | cons e t ih =>
    obtain ⟨k, w⟩ := e
    by_cases h : k = c
    · subst h; simp [HexMap.keys, HexMap.get]
    · have h' : ¬ c = k := fun e => h e.symm
      simp only [HexMap.keys, List.map_cons, List.mem_cons, h', false_or, HexMap.get, h,
        if_false] at ih ⊢
      exact ih

theorem HexMap.mem_of_get {α : Type} (m : HexMap α) (c : Coord) (v : α)
    (h : HexMap.get m c = some v) : (c, v) ∈ m := by
  induction m with
  | nil => simp [HexMap.get] at h
  | cons e t ih =>
    obtain ⟨k, w⟩ := e
    by_cases hk : k = c
    · subst hk
      simp [HexMap.get] at h
      subst h; simp
    · simp [HexMap.get, hk] at h
      exact List.mem_cons_of_mem _ (ih h)

theorem getUnitAt_some (g : GameEngine) (h : Coord) (v : Nat)
    (hv : getUnitAt g h.q h.r = some v) : v ∈ g.units ∧ (g.objects v).coord = h := by
  unfold getUnitAt at hv
  refine ⟨List.mem_of_find?_eq_some hv, ?_⟩
  have := List.find?_some hv
  simp only [Bool.and_eq_true, beq_iff_eq] at this
  cases h
  simp only [UnitData.coord, Coord.mk.injEq]
  exact this

theorem getUnitAt_none_iff (g : GameEngine) (h : Coord) :
    getUnitAt g h.q h.r = none ↔ ¬ occupied g h := by
  unfold getUnitAt occupied
  rw [List.find?_eq_none]
  cases h
  simp [UnitData.coord]

theorem getUnitAt_enemy_iff (g : GameEngine) (hnd : oneUnitPerHex g) (f : Faction) (h : Coord) :
    (∃ v, getUnitAt g h.q h.r = some v ∧ (g.objects v).faction ≠ f) ↔ enemyOccupied g f h := by
  constructor
  · rintro ⟨v, hv, hf⟩
    obtain ⟨h1, h2⟩ := getUnitAt_some g h v hv
    exact ⟨v, h1, h2, hf⟩
  · rintro ⟨v, hv, hc, hf⟩
    cases hw : getUnitAt g h.q h.r with
    | none =>
      exact absurd ⟨v, hv, hc⟩ ((getUnitAt_none_iff g h).1 hw)
    | some w =>
      obtain ⟨h1, h2⟩ := getUnitAt_some g h w hw
      have : w = v := List.inj_on_of_nodup_map hnd h1 hv (h2.trans hc.symm)
      subst this
      exact ⟨w, rfl, hf⟩

/-- What one pass of the neighbour loop does: nothing, or one relaxation. -/
theorem relaxNeighbor_cases (g : GameEngine) (U : UnitData) (c : Int) (st : Search) (y : Coord) :
    (relaxNeighbor g U c st y = st ∧
      (getHexAt g y.q y.r = none ∨ ¬ c + entryCost g y ≤ U.stats.mov ∨
        (∃ v, getUnitAt g y.q y.r = some v ∧ (g.objects v).faction ≠ U.faction) ∨
        ∃ old, HexMap.get st.costSoFar y = some old ∧ old ≤ c + entryCost g y)) ∨
    (onMap g y ∧ c + entryCost g y ≤ U.stats.mov ∧
      (¬ ∃ v, getUnitAt g y.q y.r = some v ∧ (g.objects v).faction ≠ U.faction) ∧
      (∀ old, HexMap.get st.costSoFar y = some old → c + entryCost g y < old) ∧
      relaxNeighbor g U c st y =
        { frontier := st.frontier ++ [y], head := st.head,
          costSoFar := HexMap.set st.costSoFar y (c + entryCost g y),
          reachableHexes :=
            if getUnitAt g y.q y.r = none then
              HexMap.set st.reachableHexes y (c + entryCost g y)
            else st.reachableHexes }) := by
  unfold relaxNeighbor entryCost onMap
  cases hcell : getHexAt g y.q y.r with
  | none => simp
  | some cell =>
    simp only [Option.isSome_some, true_and]
    by_cases hle : c + terrainCostOf cell ≤ U.stats.mov
    · simp only [hle, if_true]
      cases hu : getUnitAt g y.q y.r with
      | some v =>
        by_cases hf : (g.objects v).faction = U.faction
        · cases hold : HexMap.get st.costSoFar y with
          | none => simp [hf]
          | some old =>
            by_cases hlt : c + terrainCostOf cell < old
            · simp [hf, hlt]
            · simp [hf, hlt]; omega
        · simp [hf]
      | none =>
        cases hold : HexMap.get st.costSoFar y with
        | none => simp
        | some old =>
          by_cases hlt : c + terrainCostOf cell < old
          · simp [hlt]
          · simp [hlt]; omega
    · simp [hle]

theorem legalPath_snoc (g : GameEngine) (f : Faction) (a : Coord) (l : List Coord) (y : Coord) :
    legalPath g f a (l ++ [y]) ↔
      legalPath g f a l ∧ y ∈ hexNeighbors (l.getLastD a) ∧ passable g f y := by
  induction l generalizing a with
  | nil => simp [legalPath]
  | cons b t ih =>
    show (b ∈ hexNeighbors a ∧ passable g f b ∧ legalPath g f b (t ++ [y])) ↔
      ((b ∈ hexNeighbors a ∧ passable g f b ∧ legalPath g f b t) ∧
        y ∈ hexNeighbors ((b :: t).getLastD a) ∧ passable g f y)
    rw [ih, List.getLastD_cons]
    tauto

theorem pathCost_snoc (g : GameEngine) (l : List Coord) (y : Coord) :
    pathCost g (l ++ [y]) = pathCost g l + entryCost g y := by
  simp [pathCost]

theorem getLastD_snoc (a : Coord) (l : List Coord) (y : Coord) :
    (l ++ [y]).getLastD a = y := by
  induction l generalizing a with
  | nil => rfl
  | cons b t ih => simp only [List.cons_append, List.getLastD_cons, ih]

theorem entryCost_pos (g : GameEngine) (hpos : positiveCosts g) (h : Coord) (hon : onMap g h) :
    0 < entryCost g h := by
  unfold onMap at hon
  unfold entryCost
  cases hc : getHexAt g h.q h.r with
  | none => simp [hc] at hon
  | some cell =>
    have := HexMap.mem_of_get g.hexes ⟨h.q, h.r⟩ cell hc
    exact hpos _ this

theorem pathCost_nonneg (g : GameEngine) (hpos : positiveCosts g) (f : Faction) (a : Coord)
    (p : List Coord) (hp : legalPath g f a p) : 0 ≤ pathCost g p := by
  induction p generalizing a with
  | nil => simp [pathCost]
  | cons b t ih =>
    obtain ⟨_, hb, ht⟩ := hp
    have h1 := entryCost_pos g hpos b hb.1
    have h2 := ih b ht
    simp only [pathCost, List.map_cons, List.sum_cons] at h2 ⊢
    omega

theorem hexNeighbors_ne (x y : Coord) (h : y ∈ hexNeighbors x) : y ≠ x := by
  intro e
  subst e
  cases y
  simp [hexNeighbors] at h

theorem relaxNeighbor_inv (g : GameEngine) (U : UnitData) (hpos : positiveCosts g)
    (hnd : oneUnitPerHex g) (cur : Coord) (c : Int) (todo : List Coord) (y : Coord)
    (st : Search) (hy : y ∈ hexNeighbors cur)
    (hc : HexMap.get st.costSoFar cur = some c)
    (hI : SearchInv g U (fun a b => a = cur ∧ b ∈ y :: todo) st) :
    SearchInv g U (fun a b => a = cur ∧ b ∈ todo) (relaxNeighbor g U c st y) ∧
      HexMap.get (relaxNeighbor g U c st y).costSoFar cur = some c := by
  have hyne : y ≠ cur := hexNeighbors_ne cur y hy
  rcases relaxNeighbor_cases g U c st y with ⟨heq, hwhy⟩ | ⟨hon, hbud, hnb, hlt, heq⟩
  · rw [heq]
    refine ⟨⟨hI.start, hI.hle, hI.sound, ?_, hI.reach⟩, hc⟩
    intro x cx hx
    rcases hI.closed x cx hx with hp | he
    · exact Or.inl hp
    · right
      intro z hz
      rcases he z hz with h1 | ⟨h1, h2⟩
      · exact Or.inl h1
      · rcases List.mem_cons.1 h2 with h3 | h3
        · left
          subst h3; subst h1
          intro c0 hc0 hpass hb
          rw [hc] at hc0
          cases hc0
          rcases hwhy with h4 | h4 | h4 | h4
          · have := hpass.1
            unfold onMap at this
            simp [h4] at this
          · exact absurd hb h4
          · exact absurd ((getUnitAt_enemy_iff g hnd U.faction z).1 h4) hpass.2
          · exact h4
        · exact Or.inr ⟨h1, h3⟩
  · obtain ⟨pc, hpc1, hpc2, hpc3, _⟩ := hI.sound cur c hc
    have hc0 : 0 ≤ c := by
      rw [← hpc3]; exact pathCost_nonneg g hpos _ _ _ hpc1
    have hcy : 0 < entryCost g y := entryCost_pos g hpos y hon
    have hys : y ≠ U.coord := by
      intro e
      have := hlt 0 (by rw [e]; exact hI.start)
      omega
    have hpass : passable g U.faction y :=
      ⟨hon, fun he => hnb ((getUnitAt_enemy_iff g hnd U.faction y).2 he)⟩
    have hget : ∀ h, HexMap.get (HexMap.set st.costSoFar y (c + entryCost g y)) h =
        if y = h then some (c + entryCost g y) else HexMap.get st.costSoFar h :=
      fun h => HexMap.get_set _ _ _ _
    rw [heq]
    refine ⟨⟨?_, ?_, ?_, ?_, ?_⟩, ?_⟩
    · simp only [hget, hys, if_false]; exact hI.start
    · simp only [List.length_append, List.length_singleton]
      exact Nat.le_succ_of_le hI.hle
    · intro h ch hh
      simp only [hget] at hh
      by_cases e : y = h
      · subst e
        simp only [if_true, Option.some.injEq] at hh
        subst hh
        refine ⟨pc ++ [y], ?_, getLastD_snoc _ _ _, ?_, Or.inr hbud⟩
        · rw [legalPath_snoc]
          exact ⟨hpc1, by rw [hpc2]; exact hy, hpass⟩
        · rw [pathCost_snoc, hpc3]
      · simp only [e, if_false] at hh
        exact hI.sound h ch hh
    · intro x cx hx
      simp only [hget] at hx
      have hdrop : List.drop st.head (st.frontier ++ [y]) = List.drop st.head st.frontier ++ [y] :=
        List.drop_append_of_le_length hI.hle
      simp only [hdrop, List.mem_append, List.mem_singleton]
      by_cases e : y = x
      · exact Or.inl (Or.inr e.symm)
      · simp only [e, if_false] at hx
        have hmono : ∀ (st2 : Search),
            st2.costSoFar = HexMap.set st.costSoFar y (c + entryCost g y) →
            ∀ z, EdgeOK g U st x z → EdgeOK g U st2 x z := by
          intro st2 hst2
          intro z hz c0 hc0 hp hb
          simp only [hst2, hget, e, if_false] at hc0
          obtain ⟨d, hd1, hd2⟩ := hz c0 hc0 hp hb
          simp only [hst2, hget]
          by_cases e2 : y = z
          · subst e2
            refine ⟨c + entryCost g y, by simp, ?_⟩
            have := hlt d hd1
            omega
          · exact ⟨d, by simp [e2, hd1], hd2⟩
        rcases hI.closed x cx hx with hp | he
        · exact Or.inl (Or.inl hp)
        · right
          intro z hz
          rcases he z hz with h1 | ⟨h1, h2⟩
          · exact Or.inl (hmono _ rfl z h1)
          · rcases List.mem_cons.1 h2 with h3 | h3
            · left
              subst h3; subst h1
              intro c0 hc0 _ _
              simp only [hget, e, if_false] at hc0
              rw [hc] at hc0
              cases hc0
              exact ⟨_, by simp [hget], le_refl _⟩
            · exact Or.inr ⟨h1, h3⟩
    · intro h
      by_cases hu : getUnitAt g y.q y.r = none
      · simp only [hu, if_true, HexMap.get_set, hget]
        by_cases e : y = h
        · subst e
          simp [hys, hu]
        · simp only [e, if_false]
          exact hI.reach h
      · simp only [hu, if_false, hget]
        by_cases e : y = h
        · subst e
          rw [hI.reach y]
          simp [hys, hu]
        · simp only [e, if_false]
          exact hI.reach h
    · simp only [hget, hyne, if_false]
      exact hc

theorem foldl_relax_inv (g : GameEngine) (U : UnitData) (hpos : positiveCosts g)
    (hnd : oneUnitPerHex g) (cur : Coord) (c : Int) (todo : List Coord) :
    ∀ (st : Search), (∀ y ∈ todo, y ∈ hexNeighbors cur) →
      HexMap.get st.costSoFar cur = some c →
      SearchInv g U (fun a b => a = cur ∧ b ∈ todo) st →
      SearchInv g U (fun a b => a = cur ∧ b ∈ ([] : List Coord))
        (todo.foldl (relaxNeighbor g U c) st) := by
  induction todo with
  | nil => intro st _ _ hI; exact hI
  | cons y t ih =>
    intro st hsub hc hI
    obtain ⟨h1, h2⟩ := relaxNeighbor_inv g U hpos hnd cur c t y st
      (hsub y (List.mem_cons_self _ _)) hc hI
    exact ih _ (fun z hz => hsub z (List.mem_cons_of_mem _ hz)) h2 h1

theorem visitHex_inv (g : GameEngine) (U : UnitData) (hpos : positiveCosts g)
    (hnd : oneUnitPerHex g) (st : Search) (cur : Coord)
    (hcur : st.frontier[st.head]? = some cur)
    (hI : SearchInv g U (fun _ _ => False) st) :
    SearchInv g U (fun _ _ => False) (visitHex g U { st with head := st.head + 1 } cur) := by
  have hlt : st.head < st.frontier.length := by
    by_contra hge
    rw [List.getElem?_eq_none (by omega)] at hcur
    cases hcur
  have hdrop : List.drop st.head st.frontier = cur :: List.drop (st.head + 1) st.frontier := by
    rw [List.drop_eq_getElem_cons hlt]
    congr 1
    rw [List.getElem?_eq_getElem hlt] at hcur
    exact Option.some.inj hcur
  unfold visitHex
  cases hc : HexMap.get st.costSoFar cur with
  | none =>
    simp only [hc]
    refine ⟨hI.start, hlt, hI.sound, ?_, hI.reach⟩
    intro x cx hx
    rcases hI.closed x cx hx with hp | he
    · rw [hdrop] at hp
      rcases List.mem_cons.1 hp with h1 | h1
      · subst h1; rw [hc] at hx; cases hx
      · exact Or.inl h1
    · exact Or.inr he
  | some c =>
    simp only [hc]
    have hI1 : SearchInv g U (fun a b => a = cur ∧ b ∈ hexNeighbors cur)
        { st with head := st.head + 1 } := by
      refine ⟨hI.start, hlt, hI.sound, ?_, hI.reach⟩
      intro x cx hx
      rcases hI.closed x cx hx with hp | he
      · rw [hdrop] at hp
        rcases List.mem_cons.1 hp with h1 | h1
        · right
          intro y hy
          exact Or.inr ⟨h1, by rw [h1] at hy; exact hy⟩
        · exact Or.inl h1
      · right
        intro y hy
        rcases he y hy with h1 | h1
        · exact Or.inl h1
        · exact absurd h1 id
    have h2 := foldl_relax_inv g U hpos hnd cur c (hexNeighbors cur)
      { st with head := st.head + 1 } (fun _ h => h) hc hI1
    refine ⟨h2.start, h2.hle, h2.sound, ?_, h2.reach⟩
    intro x cx hx
    rcases h2.closed x cx hx with hp | he
    · exact Or.inl hp
    · right
      intro y hy
      rcases he y hy with h1 | ⟨_, h1⟩
      · exact Or.inl h1
      · simp at h1

theorem searchInit_inv (g : GameEngine) (U : UnitData) :
    SearchInv g U (fun _ _ => False) (searchInit U) := by
  have hs : (⟨U.q, U.r⟩ : Coord) = U.coord := rfl
  refine ⟨?_, ?_, ?_, ?_, ?_⟩
  · simp [searchInit, HexMap.get_set, HexMap.get, hs]
  · simp [searchInit]
  · intro h c hh
    simp only [searchInit, HexMap.get_set, HexMap.get, hs] at hh
    by_cases e : U.coord = h
    · simp only [e, if_true, Option.some.injEq] at hh
      subst hh
      exact ⟨[], trivial, e, rfl, Or.inl rfl⟩
    · simp [e] at hh
  · intro x c hx
    simp only [searchInit, HexMap.get_set, HexMap.get, hs] at hx
    by_cases e : U.coord = x
    · left; simp [searchInit, hs, e]
    · simp [e] at hx
  · intro h
    simp only [searchInit, HexMap.get_set, HexMap.get, hs]
    by_cases e : U.coord = h
    · simp [e]
    · have e2 : ¬ h = U.coord := fun x => e x.symm
      simp [e, e2]

theorem mem_searchDomain_of_onMap (g : GameEngine) (U : UnitData) (y : Coord)
    (hon : onMap g y) : y ∈ searchDomain g U := by
  unfold onMap getHexAt at hon
  unfold searchDomain
  rw [List.mem_toFinset]
  refine List.mem_cons_of_mem _ ?_
  rw [HexMap.mem_keys_iff]
  exact Option.isSome_iff_exists.1 hon

theorem relaxNeighbor_measure (g : GameEngine) (U : UnitData) (c : Int) (hc : 0 ≤ c)
    (hpos : positiveCosts g) (st : Search) (y : Coord) (hle : st.head ≤ st.frontier.length) :
    searchMeasure g U (relaxNeighbor g U c st y) ≤ searchMeasure g U st ∧
      (relaxNeighbor g U c st y).head = st.head ∧
      st.head ≤ (relaxNeighbor g U c st y).frontier.length := by
  rcases relaxNeighbor_cases g U c st y with ⟨heq, _⟩ | ⟨hon, hbud, _, hlt, heq⟩
  · rw [heq]; exact ⟨le_refl _, rfl, hle⟩
  · rw [heq]
    refine ⟨?_, rfl, ?_⟩
    · have hy := mem_searchDomain_of_onMap g U y hon
      have hcy := entryCost_pos g hpos y hon
      unfold searchMeasure
      simp only [List.length_append, List.length_singleton]
      rw [← Finset.add_sum_erase _ _ hy, ← Finset.add_sum_erase _ _ hy]
      have hrest : Finset.sum ((searchDomain g U).erase y)
            (fun h => costRank U (HexMap.get (HexMap.set st.costSoFar y (c + entryCost g y)) h)) =
          Finset.sum ((searchDomain g U).erase y)
            (fun h => costRank U (HexMap.get st.costSoFar h)) := by
        apply Finset.sum_congr rfl
        intro h hh
        have : ¬ y = h := fun e => (Finset.ne_of_mem_erase hh) e.symm
        simp [HexMap.get_set, this]
      rw [hrest]
      have hrank : costRank U (HexMap.get (HexMap.set st.costSoFar y (c + entryCost g y)) y) + 1 ≤
          costRank U (HexMap.get st.costSoFar y) := by
        simp only [HexMap.get_set, if_true]
        cases hold : HexMap.get st.costSoFar y with
        | none =>
          simp only [costRank]
          have := Int.toNat_le_toNat hbud
          omega
        | some old =>
          simp only [costRank]
          have := hlt old hold
          omega
      omega
    · simp only [List.length_append, List.length_singleton]; omega

theorem foldl_relax_measure (g : GameEngine) (U : UnitData) (c : Int) (hc : 0 ≤ c)
    (hpos : positiveCosts g) (todo : List Coord) :
    ∀ (st : Search), st.head ≤ st.frontier.length →
      searchMeasure g U (todo.foldl (relaxNeighbor g U c) st) ≤ searchMeasure g U st := by
  induction todo with
  | nil => intro st _; exact le_refl _
  | cons y t ih =>
    intro st hle
    obtain ⟨h1, h2, h3⟩ := relaxNeighbor_measure g U c hc hpos st y hle
    exact le_trans (ih _ (by rw [h2]; exact h3)) h1

theorem visitHex_measure (g : GameEngine) (U : UnitData) (hpos : positiveCosts g)
    (st : Search) (cur : Coord) (hcur : st.frontier[st.head]? = some cur)
    (hI : SearchInv g U (fun _ _ => False) st) :
    searchMeasure g U (visitHex g U { st with head := st.head + 1 } cur) + 1 ≤
      searchMeasure g U st := by
  have hlt : st.head < st.frontier.length := by
    by_contra hge
    rw [List.getElem?_eq_none (by omega)] at hcur
    cases hcur
  have hstep : searchMeasure g U { st with head := st.head + 1 } + 1 = searchMeasure g U st := by
    unfold searchMeasure
    simp only
    omega
  unfold visitHex
  cases hc : HexMap.get st.costSoFar cur with
  | none => simp only [hc]; omega
  | some c =>
    simp only [hc]
    obtain ⟨pc, hpc1, _, hpc3, _⟩ := hI.sound cur c hc
    have hc0 : 0 ≤ c := by
      rw [← hpc3]; exact pathCost_nonneg g hpos _ _ _ hpc1
    have := foldl_relax_measure g U c hc0 hpos (hexNeighbors cur)
      { st with head := st.head + 1 } hlt
    omega

theorem searchLoop_finishes (g : GameEngine) (U : UnitData) (hpos : positiveCosts g)
    (hnd : oneUnitPerHex g) :
    ∀ (n : Nat) (st : Search), SearchInv g U (fun _ _ => False) st →
      searchMeasure g U st ≤ n →
      ∃ res, searchLoop g U n st = some res ∧ SearchInv g U (fun _ _ => False) res ∧
        res.frontier.length ≤ res.head := by
  intro n
  induction n with
  | zero =>
    intro st hI hm
    have : ¬ st.head < st.frontier.length := by
      unfold searchMeasure at hm
      omega
    exact ⟨st, by simp [searchLoop, this], hI, by omega⟩
  | succ n ih =>
    intro st hI hm
    cases hcur : st.frontier[st.head]? with
    | none =>
      refine ⟨st, by simp [searchLoop, hcur], hI, ?_⟩
      by_contra hge
      rw [List.getElem?_eq_getElem (by omega)] at hcur
      cases hcur
    | some cur =>
      have h1 := visitHex_inv g U hpos hnd st cur hcur hI
      have h2 := visitHex_measure g U hpos st cur hcur hI
      obtain ⟨res, hr1, hr2, hr3⟩ := ih _ h1 (by omega)
      exact ⟨res, by simp only [searchLoop, hcur]; exact hr1, hr2, hr3⟩

theorem searchLoop_mono (g : GameEngine) (U : UnitData) :
    ∀ (n : Nat) (st res : Search), searchLoop g U n st = some res →
      ∀ m, n ≤ m → searchLoop g U m st = some res := by
  intro n
  induction n with
  | zero =>
    intro st res h m _
    have hge : ¬ st.head < st.frontier.length := by
      intro hlt
      simp [searchLoop, hlt] at h
    have hres : st = res := by
      simpa [searchLoop, hge] using h
    subst hres
    cases m with
    | zero => simp [searchLoop, hge]
    | succ m =>
      have : st.frontier[st.head]? = none := List.getElem?_eq_none (by omega)
      simp [searchLoop, this]
  | succ n ih =>
    intro st res h m hm
    obtain ⟨m, rfl⟩ : ∃ k, m = k + 1 := ⟨m - 1, by omega⟩
    cases hcur : st.frontier[st.head]? with
    | none =>
      simp only [searchLoop, hcur] at h ⊢
      exact h
    | some cur =>
      simp only [searchLoop, hcur] at h ⊢
      exact ih _ _ h m (by omega)

theorem legalPath_last_passable (g : GameEngine) (f : Faction) (a : Coord) (p : List Coord)
    (hp : legalPath g f a p) (hne : p ≠ []) : passable g f (p.getLastD a) := by
  induction p using List.reverseRecOn with
  | nil => exact absurd rfl hne
  | append_singleton l y _ =>
    rw [getLastD_snoc]
    exact ((legalPath_snoc g f a l y).1 hp).2.2

theorem search_complete (g : GameEngine) (U : UnitData) (hpos : positiveCosts g)
    (res : Search) (hI : SearchInv g U (fun _ _ => False) res)
    (hdone : res.frontier.length ≤ res.head) (p : List Coord) :
    legalPath g U.faction U.coord p → pathCost g p ≤ U.stats.mov →
      ∃ d, HexMap.get res.costSoFar (p.getLastD U.coord) = some d ∧ d ≤ pathCost g p := by
  induction p using List.reverseRecOn with
  | nil =>
    intro _ _
    exact ⟨0, hI.start, by simp [pathCost]⟩
  | append_singleton l y ih =>
    intro hp hb
    obtain ⟨hl, hy, hpass⟩ := (legalPath_snoc g U.faction U.coord l y).1 hp
    rw [pathCost_snoc] at hb ⊢
    rw [getLastD_snoc]
    have hcy := entryCost_pos g hpos y hpass.1
    obtain ⟨d, hd1, hd2⟩ := ih hl (by omega)
    rcases hI.closed _ d hd1 with hpend | hedge
    · rw [List.drop_eq_nil_of_le hdone] at hpend
      simp at hpend
    · rcases hedge y hy with h1 | h1
      · obtain ⟨d', h3, h4⟩ := h1 d hd1 hpass (by omega)
        exact ⟨d', h3, by omega⟩
      · exact absurd h1 id

theorem search_result (g : GameEngine) (U : UnitData) (hpos : positiveCosts g)
    (hnd : oneUnitPerHex g) (fuel : Nat) (hfuel : searchMeasure g U (searchInit U) ≤ fuel) :
    ∃ res, searchLoop g U fuel (searchInit U) = some res ∧
      SearchInv g U (fun _ _ => False) res ∧ res.frontier.length ≤ res.head :=
  searchLoop_finishes g U hpos hnd fuel (searchInit U) (searchInit_inv g U) hfuel

/-- C1: on a map whose cells all have a positive terrain cost and with at most
one unit per hex, `calculateReachableHexes` finishes for every large enough
budget, and the keys of `reachableHexes` are exactly the unit's own hex together
with every hex on the map that no unit occupies and that ends a path of
successively adjacent hexes entered from the unit's hex, each on the map and
free of enemies (friendly units may be passed), whose summed entry costs are at
most `mov`. -/
theorem calculateReachableHexes_keys (g : GameEngine) (u : Nat)
    (hpos : positiveCosts g) (hnd : oneUnitPerHex g) :
    ∃ fuel0, ∀ fuel, fuel0 ≤ fuel →
      ∃ g', calculateReachableHexes g u fuel = some g' ∧
        ∀ h, h ∈ HexMap.keys g'.reachableHexes ↔
          (h = (g.objects u).coord ∨
            (onMap g h ∧ ¬ occupied g h ∧
              ∃ p, legalPath g (g.objects u).faction (g.objects u).coord p ∧
                p.getLastD (g.objects u).coord = h ∧
                pathCost g p ≤ (g.objects u).stats.mov)) := by
  refine ⟨searchMeasure g (g.objects u) (searchInit (g.objects u)), ?_⟩
  intro fuel hfuel
  obtain ⟨res, hr, hI, hdone⟩ := search_result g (g.objects u) hpos hnd fuel hfuel
  refine ⟨{ g with reachableHexes := res.reachableHexes }, by simp [calculateReachableHexes, hr], ?_⟩
  intro h
  rw [HexMap.mem_keys_iff]
  simp only [hI.reach h]
  by_cases hs : h = (g.objects u).coord
  · simp [hs]
  · simp only [hs, if_false, false_or]
    constructor
    · rintro ⟨v, hv⟩
      by_cases hu : getUnitAt g h.q h.r = none
      · simp only [hu, if_true] at hv
        obtain ⟨p, hp1, hp2, hp3, hp4⟩ := hI.sound h v hv
        have hne : p ≠ [] := by
          intro e; subst e; exact hs hp2.symm
        have hpass := legalPath_last_passable g _ _ p hp1 hne
        rw [hp2] at hpass
        refine ⟨hpass.1, (getUnitAt_none_iff g h).1 hu, p, hp1, hp2, ?_⟩
        rcases hp4 with h4 | h4
        · exact absurd h4 hne
        · rw [hp3]; exact h4
      · simp [hu] at hv
    · rintro ⟨_, hocc, p, hp1, hp2, hp3⟩
      have hu := (getUnitAt_none_iff g h).2 hocc
      simp only [hu, if_true]
      obtain ⟨d, hd, _⟩ := search_complete g (g.objects u) hpos res hI hdone p hp1 hp3
      rw [hp2] at hd
      exact ⟨d, hd⟩

/-- C2: on a map whose cells all have a positive terrain cost (and a roster
with at most one unit per hex), the cost recorded in `reachableHexes` for a hex
is the cost of some legal path from the unit's hex to it and is no larger than
the cost of any legal path to it: the first-in first-out frontier with
relaxation leaves only minimal costs. -/
theorem calculateReachableHexes_cost_minimal (g : GameEngine) (u : Nat)
    (hpos : positiveCosts g) (hnd : oneUnitPerHex g) :
    ∃ fuel0, ∀ fuel, fuel0 ≤ fuel →
      ∃ g', calculateReachableHexes g u fuel = some g' ∧
        ∀ h c, HexMap.get g'.reachableHexes h = some c →
          (∃ p, legalPath g (g.objects u).faction (g.objects u).coord p ∧
            p.getLastD (g.objects u).coord = h ∧ pathCost g p = c) ∧
          ∀ p, legalPath g (g.objects u).faction (g.objects u).coord p →
            p.getLastD (g.objects u).coord = h → c ≤ pathCost g p := by
  refine ⟨searchMeasure g (g.objects u) (searchInit (g.objects u)), ?_⟩
  intro fuel hfuel
  obtain ⟨res, hr, hI, hdone⟩ := search_result g (g.objects u) hpos hnd fuel hfuel
  refine ⟨{ g with reachableHexes := res.reachableHexes }, by simp [calculateReachableHexes, hr], ?_⟩
  intro h c hc
  simp only [hI.reach h] at hc
  by_cases hs : h = (g.objects u).coord
  · simp only [hs, if_true, Option.some.injEq] at hc
    subst hc
    refine ⟨⟨[], trivial, hs.symm, rfl⟩, ?_⟩
    intro p hp _
    exact pathCost_nonneg g hpos _ _ p hp
  · simp only [hs, if_false] at hc
    by_cases hu : getUnitAt g h.q h.r = none
    · simp only [hu, if_true] at hc
      obtain ⟨p, hp1, hp2, hp3, hp4⟩ := hI.sound h c hc
      refine ⟨⟨p, hp1, hp2, hp3⟩, ?_⟩
      intro p' hp'1 hp'2
      have hcm : c ≤ (g.objects u).stats.mov := by
        rcases hp4 with h4 | h4
        · subst h4; exact absurd hp2.symm hs
        · exact h4
      by_cases hb : pathCost g p' ≤ (g.objects u).stats.mov
      · obtain ⟨d, hd1, hd2⟩ := search_complete g (g.objects u) hpos res hI hdone p' hp'1 hb
        rw [hp'2, hc] at hd1
        cases hd1
        exact hd2
      · omega
    · simp [hu] at hc

theorem relaxNeighbor_unoccupied (g : GameEngine) (U : UnitData) (c : Int) (st : Search)
    (y : Coord)
    (hP : ∀ h v, HexMap.get st.reachableHexes h = some v →
      h = U.coord ∨ getUnitAt g h.q h.r = none) :
    ∀ h v, HexMap.get (relaxNeighbor g U c st y).reachableHexes h = some v →
      h = U.coord ∨ getUnitAt g h.q h.r = none := by
  rcases relaxNeighbor_cases g U c st y with ⟨heq, _⟩ | ⟨_, _, _, _, heq⟩
  · rw [heq]; exact hP
  · rw [heq]
    intro h v hv
    by_cases hu : getUnitAt g y.q y.r = none
    · simp only [hu, if_true, HexMap.get_set] at hv
      by_cases e : y = h
      · subst e; exact Or.inr hu
      · simp only [e, if_false] at hv
        exact hP h v hv
    · simp only [hu, if_false] at hv
      exact hP h v hv

theorem foldl_relax_unoccupied (g : GameEngine) (U : UnitData) (c : Int) (todo : List Coord) :
    ∀ (st : Search),
      (∀ h v, HexMap.get st.reachableHexes h = some v →
        h = U.coord ∨ getUnitAt g h.q h.r = none) →
      ∀ h v, HexMap.get (todo.foldl (relaxNeighbor g U c) st).reachableHexes h = some v →
        h = U.coord ∨ getUnitAt g h.q h.r = none := by
  induction todo with
  | nil => intro st hP; exact hP
  | cons y t ih =>
    intro st hP
    exact ih _ (relaxNeighbor_unoccupied g U c st y hP)

theorem searchLoop_unoccupied (g : GameEngine) (U : UnitData) :
    ∀ (n : Nat) (st res : Search),
      (∀ h v, HexMap.get st.reachableHexes h = some v →
        h = U.coord ∨ getUnitAt g h.q h.r = none) →
      searchLoop g U n st = some res →
      ∀ h v, HexMap.get res.reachableHexes h = some v →
        h = U.coord ∨ getUnitAt g h.q h.r = none := by
  intro n
  induction n with
  | zero =>
    intro st res hP hr
    by_cases hlt : st.head < st.frontier.length
    · simp [searchLoop, hlt] at hr
    · simp only [searchLoop, hlt, if_false, Option.some.injEq] at hr
      subst hr; exact hP
  | succ n ih =>
    intro st res hP hr
    cases hcur : st.frontier[st.head]? with
    | none =>
      simp only [searchLoop, hcur, Option.some.injEq] at hr
      subst hr; exact hP
    | some cur =>
      simp only [searchLoop, hcur] at hr
      refine ih _ res ?_ hr
      unfold visitHex
      cases hc : HexMap.get st.costSoFar cur with
      | none => exact hP
      | some c => exact foldl_relax_unoccupied g U c _ _ hP

/-- C3: for every map, roster and unit, whenever `calculateReachableHexes`
finishes, no key of `reachableHexes` other than the unit's own hex is occupied
by a unit of the roster, friendly or enemy. -/
theorem calculateReachableHexes_unoccupied (g : GameEngine) (u : Nat) (fuel : Nat)
    (g' : GameEngine) (hrun : calculateReachableHexes g u fuel = some g') :
    ∀ h ∈ HexMap.keys g'.reachableHexes, h ≠ (g.objects u).coord →
      ¬ occupied g h ∧ ¬ enemyOccupied g (g.objects u).faction h := by
  unfold calculateReachableHexes at hrun
  cases hr : searchLoop g (g.objects u) fuel (searchInit (g.objects u)) with
  | none => simp [hr] at hrun
  | some res =>
    simp only [hr, Option.map_some', Option.some.injEq] at hrun
    subst hrun
    intro h hh hne
    obtain ⟨v, hv⟩ := (HexMap.mem_keys_iff _ _).1 hh
    have hinit : ∀ h v, HexMap.get (searchInit (g.objects u)).reachableHexes h = some v →
        h = (g.objects u).coord ∨ getUnitAt g h.q h.r = none := by
      intro h v hv
      simp only [searchInit, HexMap.get_set, HexMap.get] at hv
      by_cases e : (⟨(g.objects u).q, (g.objects u).r⟩ : Coord) = h
      · exact Or.inl e.symm
      · simp [e] at hv
    rcases searchLoop_unoccupied g (g.objects u) fuel _ res hinit hr h v hv with h1 | h1
    · exact absurd h1 hne
    · have hno := (getUnitAt_none_iff g h).1 h1
      exact ⟨hno, fun ⟨w, hw1, hw2, _⟩ => hno ⟨w, hw1, hw2⟩⟩

theorem selectUnit_none (g : GameEngine) (fuel : Nat) :
    selectUnit g none fuel =
      some { g with selectedUnit := none, reachableHexes := [], attackableHexes := [] } := rfl

theorem selectUnit_done (g : GameEngine) (u : Nat) (fuel : Nat)
    (hm : (g.objects u).status.moved = true) (ha : (g.objects u).status.acted = true) :
    selectUnit g (some u) fuel =
      some { g with selectedUnit := some u, reachableHexes := [], attackableHexes := [] } := by
  unfold selectUnit
  by_cases hf : (g.objects u).faction = g.currentPlayer <;> simp [hf, hm, ha]

theorem removeUnit_eq (g : GameEngine) (unit : Nat) (fuel : Nat) :
    ∃ g', removeUnit g unit fuel = some g' ∧ g'.objects = g.objects ∧
      g'.units = g.units.filter (fun u => (g.objects u).id != (g.objects unit).id) ∧
      g'.turn = g.turn ∧ g'.currentPlayer = g.currentPlayer := by
  unfold removeUnit
  dsimp only
  split
  · exact ⟨_, selectUnit_none _ _, rfl, rfl, rfl, rfl⟩
  · exact ⟨_, rfl, rfl, rfl, rfl, rfl⟩

/-- C4: for all stats and terrain bonus and every value of `Math.random()`
from 0 on (random factor from 0.85 on), `calculateCombat` returns a `hitChance`
between 0.05 and 0.95 and an integer `expectedDamage` of at least 1. -/
theorem calculateCombat_bounds (g : GameEngine) (attacker defender : Nat) (rand : ℚ)
    (h0 : 0 ≤ rand) :
    0.05 ≤ (calculateCombat g attacker defender rand).hitChance ∧
      (calculateCombat g attacker defender rand).hitChance ≤ 0.95 ∧
      1 ≤ (calculateCombat g attacker defender rand).expectedDamage := by
  refine ⟨?_, ?_, ?_⟩
  · exact le_max_left _ _
  · exact max_le (by norm_num) (min_le_right _ _)
  · simp only [calculateCombat, mathRound]
    rw [Int.le_floor]
    generalize hb : (max (1 : Int) _) = b
    have hb1 : (1 : ℚ) ≤ (b : ℚ) := by
      have : (1 : Int) ≤ b := by rw [← hb]; exact le_max_left _ _
      exact_mod_cast this
    have hrf : (0.85 : ℚ) ≤ 0.85 + rand * 0.30 := by
      have : 0 ≤ rand * 0.30 := mul_nonneg h0 (by norm_num)
      linarith
    have : (0.85 : ℚ) ≤ (b : ℚ) * (0.85 + rand * 0.30) := by
      have h2 : (0 : ℚ) ≤ 0.85 + rand * 0.30 := by linarith [show (0 : ℚ) ≤ 0.85 by norm_num]
      nlinarith
    push_cast
    norm_num at this ⊢
    linarith

/-- C5: when the attacker has already acted or the defender is more than one
hex away, `resolveCombat` returns the engine unchanged: hp, status and position
of every unit and the roster are what they were. -/
theorem resolveCombat_rejected (g : GameEngine) (attacker defender : Nat)
    (randDamage randHit : ℚ) (fuel : Nat)
    (h : (g.objects attacker).status.acted = true ∨
      hexDistance (g.objects attacker).coord (g.objects defender).coord > 1) :
    resolveCombat g attacker defender randDamage randHit fuel = some g := by
  unfold resolveCombat
  rcases h with h | h
  · simp [h]
  · by_cases ha : (g.objects attacker).status.acted = true
    · simp [ha]
    · simp [ha, h]



theorem setObject_objects_same (g : GameEngine) (u : Nat) (v : UnitData) :
    (setObject g u v).objects u = v := by
  simp [setObject]

theorem setObject_objects_ne (g : GameEngine) (u w : Nat) (v : UnitData) (h : w ≠ u) :
    (setObject g u v).objects w = g.objects w := by
  simp [setObject, Function.update_noteq h]

theorem attack_tail (g3 : GameEngine) (attacker : Nat) (fuel : Nat) :
    ∃ g' : GameEngine,
      (if selectedHasIdOf (setObject g3 attacker
            { g3.objects attacker with status := { moved := true, acted := true } }) attacker
        then selectUnit (setObject g3 attacker
            { g3.objects attacker with status := { moved := true, acted := true } })
            (some attacker) fuel
        else some (setObject g3 attacker
            { g3.objects attacker with status := { moved := true, acted := true } })) = some g' ∧
      g'.objects = Function.update g3.objects attacker
        { g3.objects attacker with status := { moved := true, acted := true } } ∧
      g'.units = g3.units ∧ g'.turn = g3.turn ∧ g'.currentPlayer = g3.currentPlayer := by
  split
  · rw [selectUnit_done _ _ _ (by simp [setObject]) (by simp [setObject])]
    exact ⟨_, rfl, rfl, rfl, rfl, rfl⟩
  · exact ⟨_, rfl, rfl, rfl, rfl, rfl⟩

/-- What an accepted attack does to the unit objects and to the roster. -/
theorem resolveCombat_accepted (g : GameEngine) (attacker defender : Nat)
    (randDamage randHit : ℚ) (fuel : Nat)
    (hacc : (g.objects attacker).status.acted = false)
    (hdist : hexDistance (g.objects attacker).coord (g.objects defender).coord ≤ 1) :
    ∃ (g3 g' : GameEngine), resolveCombat g attacker defender randDamage randHit fuel = some g' ∧
      g'.objects = Function.update g3.objects attacker
        { g3.objects attacker with status := { moved := true, acted := true } } ∧
      g'.units = g3.units ∧
      g'.turn = g.turn ∧ g'.currentPlayer = g.currentPlayer ∧
      (randHit ≤ (calculateCombat g attacker defender randDamage).hitChance →
        (g.objects defender).stats.hp -
            (calculateCombat g attacker defender randDamage).expectedDamage ≤ 0 →
        g3.objects = Function.update g.objects defender
          { g.objects defender with stats := { (g.objects defender).stats with hp := 0 } } ∧
        g3.units = g.units.filter (fun u => (g.objects u).id != (g.objects defender).id)) ∧
      (randHit ≤ (calculateCombat g attacker defender randDamage).hitChance →
        ¬ (g.objects defender).stats.hp -
            (calculateCombat g attacker defender randDamage).expectedDamage ≤ 0 →
        g3.objects = Function.update g.objects defender
          { g.objects defender with stats := { (g.objects defender).stats with
              hp := (g.objects defender).stats.hp -
                (calculateCombat g attacker defender randDamage).expectedDamage } } ∧
        g3.units = g.units) ∧
      (¬ randHit ≤ (calculateCombat g attacker defender randDamage).hitChance →
        g3.objects = g.objects ∧ g3.units = g.units) := by
  have hd : ¬ hexDistance (g.objects attacker).coord (g.objects defender).coord > 1 :=
    not_lt.2 hdist
  unfold resolveCombat
  simp only [hacc, hd, if_false, Bool.false_eq_true]
  by_cases hhit : randHit ≤ (calculateCombat g attacker defender randDamage).hitChance
  · by_cases hdead : (g.objects defender).stats.hp -
        (calculateCombat g attacker defender randDamage).expectedDamage ≤ 0
    · simp only [hhit, if_true, setObject_objects_same, hdead]
      obtain ⟨gr, hr1, hr2, hr3, hr4, hr5⟩ := removeUnit_eq
        (setObject (setObject g defender { g.objects defender with
            stats := { (g.objects defender).stats with
              hp := (g.objects defender).stats.hp -
                (calculateCombat g attacker defender randDamage).expectedDamage } })
          defender
          { g.objects defender with stats := { (g.objects defender).stats with hp := 0 } })
        defender fuel
      simp only [setObject_objects_same] at hr1 hr2 hr3 ⊢
      rw [hr1]
      obtain ⟨g', h1, h2, h3, h4, h5⟩ := attack_tail gr attacker fuel
      refine ⟨gr, g', h1, h2, h3, ?_, ?_, ?_, ?_, ?_⟩
      · rw [h4, hr4]; rfl
      · rw [h5, hr5]; rfl
      · intro _ _
        refine ⟨?_, ?_⟩
        · rw [hr2]; simp [setObject]
        · rw [hr3]
          apply List.filter_congr
          intro u _
          by_cases e : u = defender
          · subst e; simp [setObject]
          · simp [setObject, Function.update_noteq e]
      · intro _ h; exact absurd trivial h
      · intro h; exact absurd trivial h
    · simp only [hhit, if_true, setObject_objects_same, hdead, if_false]
      obtain ⟨g', h1, h2, h3, h4, h5⟩ := attack_tail
        (setObject g defender { g.objects defender with
            stats := { (g.objects defender).stats with
              hp := (g.objects defender).stats.hp -
                (calculateCombat g attacker defender randDamage).expectedDamage } })
        attacker fuel
      refine ⟨_, g', h1, h2, h3, h4, h5, ?_, ?_, ?_⟩
      · intro _ h; exact h.elim
      · intro _ _; exact ⟨rfl, rfl⟩
      · intro h; exact absurd trivial h
  · simp only [hhit, if_false]
    obtain ⟨g', h1, h2, h3, h4, h5⟩ := attack_tail g attacker fuel
    refine ⟨g, g', h1, h2, h3, h4, h5, ?_, ?_, ?_⟩
    · intro h; exact h.elim
    · intro h; exact h.elim
    · intro _; exact ⟨rfl, rfl⟩

theorem update_status_stats (o : Nat → UnitData) (a d : Nat) (s : Status) :
    (Function.update o a { o a with status := s } d).stats = (o d).stats := by
  by_cases e : d = a
  · subst e; simp
  · simp [Function.update_noteq e]

/-- C6: in an accepted attack (attacker not yet acted, distance at most 1), a
successful hit roll sets the defender's hp to `max 0 (hp - expectedDamage)`,
removes the defender from the roster when that hp is 0 (units with another id
stay) and leaves the roster as it was otherwise; a failed roll changes neither
the defender's hp nor the roster. -/
theorem resolveCombat_defender (g : GameEngine) (attacker defender : Nat)
    (randDamage randHit : ℚ) (fuel : Nat)
    (hacc : (g.objects attacker).status.acted = false)
    (hdist : hexDistance (g.objects attacker).coord (g.objects defender).coord ≤ 1) :
    ∃ g', resolveCombat g attacker defender randDamage randHit fuel = some g' ∧
      (randHit ≤ (calculateCombat g attacker defender randDamage).hitChance →
        (g'.objects defender).stats.hp =
          max 0 ((g.objects defender).stats.hp -
            (calculateCombat g attacker defender randDamage).expectedDamage) ∧
        ((g'.objects defender).stats.hp = 0 →
          defender ∉ g'.units ∧
          ∀ v ∈ g.units, (g.objects v).id ≠ (g.objects defender).id → v ∈ g'.units) ∧
        ((g'.objects defender).stats.hp ≠ 0 → g'.units = g.units)) ∧
      (¬ randHit ≤ (calculateCombat g attacker defender randDamage).hitChance →
        (g'.objects defender).stats.hp = (g.objects defender).stats.hp ∧
        g'.units = g.units) := by
  obtain ⟨g3, g', hr, hobj, hunits, _, _, hdead, halive, hmiss⟩ :=
    resolveCombat_accepted g attacker defender randDamage randHit fuel hacc hdist
  have hstats : (g'.objects defender).stats = (g3.objects defender).stats := by
    rw [hobj]; exact update_status_stats _ _ _ _
  refine ⟨g', hr, ?_, ?_⟩
  · intro hhit
    by_cases hd : (g.objects defender).stats.hp -
        (calculateCombat g attacker defender randDamage).expectedDamage ≤ 0
    · obtain ⟨h1, h2⟩ := hdead hhit hd
      have hhp : (g'.objects defender).stats.hp = 0 := by
        rw [hstats, h1]; simp
      refine ⟨by rw [hhp, max_eq_left hd], ?_, fun h => absurd hhp h⟩
      intro _
      rw [hunits, h2]
      refine ⟨?_, ?_⟩
      · simp [List.mem_filter]
      · intro v hv hne
        simp [List.mem_filter, hv, hne]
    · obtain ⟨h1, h2⟩ := halive hhit hd
      have hhp : (g'.objects defender).stats.hp = (g.objects defender).stats.hp -
          (calculateCombat g attacker defender randDamage).expectedDamage := by
        rw [hstats, h1]; simp
      refine ⟨by rw [hhp, max_eq_right (by omega)], ?_, fun _ => by rw [hunits, h2]⟩
      intro h0
      rw [hhp] at h0
      omega
  · intro hhit
    obtain ⟨h1, h2⟩ := hmiss hhit
    exact ⟨by rw [hstats, h1], by rw [hunits, h2]⟩

/-- C7: after an accepted attack, hit or miss, the attacker's status is
`{moved: true, acted: true}`, and a pointer press on the attacker no longer
starts a drag, so it cannot be moved. -/
theorem resolveCombat_attacker_status (g : GameEngine) (attacker defender : Nat)
    (randDamage randHit : ℚ) (fuel : Nat)
    (hacc : (g.objects attacker).status.acted = false)
    (hdist : hexDistance (g.objects attacker).coord (g.objects defender).coord ≤ 1) :
    ∃ g', resolveCombat g attacker defender randDamage randHit fuel = some g' ∧
      (g'.objects attacker).status = { moved := true, acted := true } ∧
      ∀ fuel2, ∃ g'', onUnitPointerDown g' attacker fuel2 = some g'' ∧
        g''.isDraggingUnit = g'.isDraggingUnit ∧ g''.draggedUnit = g'.draggedUnit ∧
        g''.objects = g'.objects := by
  obtain ⟨g3, g', hr, hobj, _⟩ :=
    resolveCombat_accepted g attacker defender randDamage randHit fuel hacc hdist
  have hst : (g'.objects attacker).status = { moved := true, acted := true } := by
    rw [hobj]; simp
  refine ⟨g', hr, hst, ?_⟩
  intro fuel2
  unfold onUnitPointerDown
  rw [selectUnit_done g' attacker fuel2 (by rw [hst]) (by rw [hst])]
  simp [hst]

theorem resetStatuses_objects (us : List Nat) :
    ∀ (g : GameEngine) (u : Nat), (resetStatuses g us).objects u =
      if u ∈ us then { g.objects u with status := { moved := false, acted := false } }
      else g.objects u := by
  induction us with
  | nil => intro g u; simp [resetStatuses]
  | cons x t ih =>
    intro g u
    have hstep : resetStatuses g (x :: t) = resetStatuses
        (setObject g x { g.objects x with status := { moved := false, acted := false } }) t := rfl
    rw [hstep, ih]
    by_cases e : u = x
    · subst e
      by_cases ht : u ∈ t <;> simp [ht, setObject]
    · by_cases ht : u ∈ t <;> simp [ht, e, setObject, Function.update_noteq e]

theorem resetStatuses_frame (us : List Nat) :
    ∀ (g : GameEngine), (resetStatuses g us).units = g.units ∧
      (resetStatuses g us).turn = g.turn ∧
      (resetStatuses g us).currentPlayer = g.currentPlayer ∧
      (resetStatuses g us).isDraggingUnit = g.isDraggingUnit := by
  induction us with
  | nil => intro g; exact ⟨rfl, rfl, rfl, rfl⟩
  | cons x t ih =>
    intro g
    have hstep : resetStatuses g (x :: t) = resetStatuses
        (setObject g x { g.objects x with status := { moved := false, acted := false } }) t := rfl
    rw [hstep]
    exact ih _

/-- What `endTurn` does when no unit is being dragged. -/
theorem endTurn_eq (g : GameEngine) (fuel : Nat) (hdrag : g.isDraggingUnit = false) :
    ∃ g', endTurn g fuel = some g' ∧
      g'.objects = (resetStatuses g
        (g.units.filter (fun u => (g.objects u).faction == g.currentPlayer))).objects ∧
      g'.units = g.units ∧ g'.isDraggingUnit = false ∧
      (g.currentPlayer = Faction.blue → g'.currentPlayer = Faction.red ∧ g'.turn = g.turn) ∧
      (g.currentPlayer = Faction.red →
        g'.currentPlayer = Faction.blue ∧ g'.turn = g.turn + 1) := by
  obtain ⟨h1, h2, h3, h4⟩ := resetStatuses_frame
    (g.units.filter (fun u => (g.objects u).faction == g.currentPlayer)) g
  unfold endTurn
  simp only [hdrag, Bool.false_eq_true, if_false, selectUnit_none]
  by_cases hb : g.currentPlayer = Faction.blue
  · simp only [hb, if_true]
    rw [hb] at h1 h2 h4
    refine ⟨_, rfl, rfl, ?_, ?_, ?_, ?_⟩
    · simpa using h1
    · simpa [hdrag] using h4
    · intro _; exact ⟨rfl, by simpa using h2⟩
    · intro h; cases h
  · have hr : g.currentPlayer = Faction.red := by
      cases hc : g.currentPlayer
      · exact absurd hc hb
      · rfl
    simp only [hr, if_false]
    rw [hr] at h1 h2 h4
    refine ⟨_, rfl, rfl, ?_, ?_, ?_, ?_⟩
    · simpa using h1
    · simpa [hdrag] using h4
    · intro h; cases h
    · intro _; exact ⟨rfl, by simp [h2]⟩

/-- C8 (amended): when no unit is being dragged, `endTurn` from blue on turn
`t` gives red on turn `t`, a second `endTurn` then gives blue on turn `t + 1`,
and `endTurn` from red on turn `t` gives blue on turn `t + 1`. -/
theorem endTurn_cycle (g : GameEngine) (fuel : Nat) (hdrag : g.isDraggingUnit = false) :
    ∃ g1, endTurn g fuel = some g1 ∧
      (g.currentPlayer = Faction.blue →
        g1.currentPlayer = Faction.red ∧ g1.turn = g.turn ∧
        ∃ g2, endTurn g1 fuel = some g2 ∧
          g2.currentPlayer = Faction.blue ∧ g2.turn = g.turn + 1) ∧
      (g.currentPlayer = Faction.red →
        g1.currentPlayer = Faction.blue ∧ g1.turn = g.turn + 1) := by
  obtain ⟨g1, h1, _, _, hd1, hb1, hr1⟩ := endTurn_eq g fuel hdrag
  refine ⟨g1, h1, ?_, hr1⟩
  intro hb
  obtain ⟨hc, ht⟩ := hb1 hb
  obtain ⟨g2, h2, _, _, _, _, hr2⟩ := endTurn_eq g1 fuel hd1
  obtain ⟨hc2, ht2⟩ := hr2 hc
  exact ⟨hc, ht, g2, h2, hc2, by rw [ht2, ht]⟩

/-- C10 (amended): when no unit is being dragged, `endTurn` sets the status of
every roster unit of the faction whose turn is ending to
`{moved: false, acted: false}` and leaves every unit object of the other
faction unchanged. -/
theorem endTurn_resets_outgoing (g : GameEngine) (fuel : Nat)
    (hdrag : g.isDraggingUnit = false) :
    ∃ g', endTurn g fuel = some g' ∧
      (∀ u ∈ g.units, (g.objects u).faction = g.currentPlayer →
        (g'.objects u).status = { moved := false, acted := false }) ∧
      (∀ u, (g.objects u).faction ≠ g.currentPlayer → g'.objects u = g.objects u) := by
  obtain ⟨g', h1, hobj, _⟩ := endTurn_eq g fuel hdrag
  refine ⟨g', h1, ?_, ?_⟩
  · intro u hu hf
    rw [hobj, resetStatuses_objects]
    simp [List.mem_filter, hu, hf]
  · intro u hf
    rw [hobj, resetStatuses_objects]
    simp [List.mem_filter, hf]

/-- Witness for C1 on the demo engine. -/
theorem calculateReachableHexes_keys_witness :
    positiveCosts demoEngine ∧ oneUnitPerHex demoEngine ∧
    ∃ fuel0, ∀ fuel, fuel0 ≤ fuel →
      ∃ g', calculateReachableHexes demoEngine 0 fuel = some g' ∧
        ∀ h, h ∈ HexMap.keys g'.reachableHexes ↔
          (h = (demoEngine.objects 0).coord ∨
            (onMap demoEngine h ∧ ¬ occupied demoEngine h ∧
              ∃ p, legalPath demoEngine (demoEngine.objects 0).faction
                  (demoEngine.objects 0).coord p ∧
                p.getLastD (demoEngine.objects 0).coord = h ∧
                pathCost demoEngine p ≤ (demoEngine.objects 0).stats.mov)) :=
  ⟨by decide, by decide, calculateReachableHexes_keys demoEngine 0 (by decide) (by decide)⟩

/-- Witness for C2 on the demo engine. -/
theorem calculateReachableHexes_cost_minimal_witness :
    positiveCosts demoEngine ∧ oneUnitPerHex demoEngine ∧
    ∃ fuel0, ∀ fuel, fuel0 ≤ fuel →
      ∃ g', calculateReachableHexes demoEngine 1 fuel = some g' ∧
        ∀ h c, HexMap.get g'.reachableHexes h = some c →
          (∃ p, legalPath demoEngine (demoEngine.objects 1).faction
              (demoEngine.objects 1).coord p ∧
            p.getLastD (demoEngine.objects 1).coord = h ∧ pathCost demoEngine p = c) ∧
          ∀ p, legalPath demoEngine (demoEngine.objects 1).faction
              (demoEngine.objects 1).coord p →
            p.getLastD (demoEngine.objects 1).coord = h → c ≤ pathCost demoEngine p :=
  ⟨by decide, by decide,
    calculateReachableHexes_cost_minimal demoEngine 1 (by decide) (by decide)⟩

/-- Witness for C3 on the demo engine. -/
theorem calculateReachableHexes_unoccupied_witness :
    ∃ g', calculateReachableHexes demoEngine 0 100 = some g' ∧
      ∀ h ∈ HexMap.keys g'.reachableHexes, h ≠ (demoEngine.objects 0).coord →
        ¬ occupied demoEngine h ∧
          ¬ enemyOccupied demoEngine (demoEngine.objects 0).faction h :=
  ⟨_, rfl, calculateReachableHexes_unoccupied demoEngine 0 100 _ rfl⟩

/-- Witness for C4 on the demo engine with the random draw one half. -/
theorem calculateCombat_bounds_witness :
    (0 : ℚ) ≤ 1 / 2 ∧
    0.05 ≤ (calculateCombat demoEngine 0 1 (1 / 2)).hitChance ∧
      (calculateCombat demoEngine 0 1 (1 / 2)).hitChance ≤ 0.95 ∧
      1 ≤ (calculateCombat demoEngine 0 1 (1 / 2)).expectedDamage :=
  ⟨by norm_num, calculateCombat_bounds demoEngine 0 1 (1 / 2) (by norm_num)⟩

/-- Witness for C5: in the demo engine the two units are two hexes apart. -/
theorem resolveCombat_rejected_witness :
    ((demoEngine.objects 0).status.acted = true ∨
      hexDistance (demoEngine.objects 0).coord (demoEngine.objects 1).coord > 1) ∧
    resolveCombat demoEngine 0 1 (1 / 2) (1 / 2) 0 = some demoEngine :=
  ⟨Or.inr (by decide), resolveCombat_rejected demoEngine 0 1 (1 / 2) (1 / 2) 0 (Or.inr (by decide))⟩

/-- Witness for C6: the blue unit attacks the adjacent red unit. -/
theorem resolveCombat_defender_witness :
    (adjacentEngine.objects 0).status.acted = false ∧
    hexDistance (adjacentEngine.objects 0).coord (adjacentEngine.objects 1).coord ≤ 1 ∧
    ∃ g', resolveCombat adjacentEngine 0 1 (1 / 2) (1 / 20) 0 = some g' ∧
      ((1 / 20 : ℚ) ≤ (calculateCombat adjacentEngine 0 1 (1 / 2)).hitChance →
        (g'.objects 1).stats.hp =
          max 0 ((adjacentEngine.objects 1).stats.hp -
            (calculateCombat adjacentEngine 0 1 (1 / 2)).expectedDamage) ∧
        ((g'.objects 1).stats.hp = 0 →
          1 ∉ g'.units ∧
          ∀ v ∈ adjacentEngine.units,
            (adjacentEngine.objects v).id ≠ (adjacentEngine.objects 1).id → v ∈ g'.units) ∧
        ((g'.objects 1).stats.hp ≠ 0 → g'.units = adjacentEngine.units)) ∧
      (¬ (1 / 20 : ℚ) ≤ (calculateCombat adjacentEngine 0 1 (1 / 2)).hitChance →
        (g'.objects 1).stats.hp = (adjacentEngine.objects 1).stats.hp ∧
        g'.units = adjacentEngine.units) :=
  ⟨by decide, by decide,
    resolveCombat_defender adjacentEngine 0 1 (1 / 2) (1 / 20) 0 (by decide) (by decide)⟩

/-- Witness for C7: the blue unit attacks the adjacent red unit. -/
theorem resolveCombat_attacker_status_witness :
    (adjacentEngine.objects 0).status.acted = false ∧
    hexDistance (adjacentEngine.objects 0).coord (adjacentEngine.objects 1).coord ≤ 1 ∧
    ∃ g', resolveCombat adjacentEngine 0 1 (1 / 2) (1 / 20) 0 = some g' ∧
      (g'.objects 0).status = { moved := true, acted := true } ∧
      ∀ fuel2, ∃ g'', onUnitPointerDown g' 0 fuel2 = some g'' ∧
        g''.isDraggingUnit = g'.isDraggingUnit ∧ g''.draggedUnit = g'.draggedUnit ∧
        g''.objects = g'.objects :=
  ⟨by decide, by decide,
    resolveCombat_attacker_status adjacentEngine 0 1 (1 / 2) (1 / 20) 0 (by decide) (by decide)⟩

/-- C8, counterexample: while a unit is being dragged, `endTurn` from blue on
turn 1 leaves blue to play on turn 1. -/
theorem endTurn_dragging_keeps_player :
    draggingEngine.currentPlayer = Faction.blue ∧ draggingEngine.turn = 1 ∧
    (endTurn draggingEngine 0).map (fun g => (g.currentPlayer, g.turn)) =
      some (Faction.blue, 1) := by
  decide

/-- Witness for C8 (amended) on the demo engine. -/
theorem endTurn_cycle_witness :
    demoEngine.isDraggingUnit = false ∧
    ∃ g1, endTurn demoEngine 0 = some g1 ∧
      (demoEngine.currentPlayer = Faction.blue →
        g1.currentPlayer = Faction.red ∧ g1.turn = demoEngine.turn ∧
        ∃ g2, endTurn g1 0 = some g2 ∧
          g2.currentPlayer = Faction.blue ∧ g2.turn = demoEngine.turn + 1) ∧
      (demoEngine.currentPlayer = Faction.red →
        g1.currentPlayer = Faction.blue ∧ g1.turn = demoEngine.turn + 1) :=
  ⟨rfl, endTurn_cycle demoEngine 0 rfl⟩

/-- C9, the failing run: from the demo engine (every status clear) blue ends
its turn, the three timers of the AI turn fire (start of `runAI`, the pass for
the red unit, the follow-up attack registered by its MOVE), and blue ends its
turn again. The follow-up attack fires after `runAI` has already called
`endTurn`, so red becomes active with its unit still marked as having moved
and acted. -/
theorem followUp_attack_outlives_turn :
    (∀ u ∈ demoSim.engine.units,
      (demoSim.engine.objects u).status = { moved := false, acted := false }) ∧
    (((hostEndTurn demoSim 100).bind (fun s => s.fireTimers 100 2)).map
      (fun s => (s.engine.currentPlayer, s.engine.turn, s.timers))) =
      some (Faction.blue, 2, [(950, Task.followUp (Action.attack 1 0))]) ∧
    ((((hostEndTurn demoSim 100).bind (fun s => s.fireTimers 100 3)).bind
      (fun s => hostEndTurn s 100)).map
        (fun s => (s.engine.currentPlayer, s.engine.units, (s.engine.objects 1).faction,
          (s.engine.objects 1).status))) =
      some (Faction.red, [0, 1], Faction.red, { moved := true, acted := true }) := by
  decide!

/-- C10, counterexample: with blue to play and both units marked as moved and
acted, `endTurn` clears the flags of the blue unit (the faction whose turn is
ending) and leaves those of the red unit (the faction about to act) set. -/
theorem endTurn_reset_direction :
    bothDoneEngine.currentPlayer = Faction.blue ∧
    (bothDoneEngine.objects 0).faction = Faction.blue ∧
    (bothDoneEngine.objects 1).faction = Faction.red ∧
    (bothDoneEngine.objects 0).status = { moved := true, acted := true } ∧
    (endTurn bothDoneEngine 0).map
      (fun g => (g.currentPlayer, (g.objects 0).status, (g.objects 1).status)) =
      some (Faction.red, { moved := false, acted := false }, { moved := true, acted := true }) := by
  decide

/-- Witness for C10 (amended) on the engine in which both units have moved and
acted. -/
theorem endTurn_resets_outgoing_witness :
    bothDoneEngine.isDraggingUnit = false ∧
    ∃ g', endTurn bothDoneEngine 0 = some g' ∧
      (∀ u ∈ bothDoneEngine.units,
        (bothDoneEngine.objects u).faction = bothDoneEngine.currentPlayer →
        (g'.objects u).status = { moved := false, acted := false }) ∧
      (∀ u, (bothDoneEngine.objects u).faction ≠ bothDoneEngine.currentPlayer →
        g'.objects u = bothDoneEngine.objects u) :=
  ⟨rfl, endTurn_resets_outgoing bothDoneEngine 0 rfl⟩

theorem hexDistance_eq (a b : Coord) :
    2 * hexDistance a b = |a.q - b.q| + |a.r - b.r| + |(-a.q - a.r) - (-b.q - b.r)| := by
  unfold hexDistance
  simp only
  rcases abs_cases (a.q - b.q) with ⟨h1, _⟩ | ⟨h1, _⟩ <;>
  rcases abs_cases (a.r - b.r) with ⟨h2, _⟩ | ⟨h2, _⟩ <;>
  rcases abs_cases ((-a.q - a.r) - (-b.q - b.r)) with ⟨h3, _⟩ | ⟨h3, _⟩ <;>
  rw [h1, h2, h3] <;> omega

theorem hexDistance_self (a : Coord) : hexDistance a a = 0 := by
  have haa := hexDistance_eq a a
  simp at haa
  omega

theorem hexDistance_comm (a b : Coord) : hexDistance a b = hexDistance b a := by
  have hab := hexDistance_eq a b
  have hba := hexDistance_eq b a
  have s1 := abs_sub_comm a.q b.q
  have s2 := abs_sub_comm a.r b.r
  have s3 := abs_sub_comm (-a.q - a.r) (-b.q - b.r)
  omega

theorem hexDistance_triangle (a b c : Coord) :
    hexDistance a c ≤ hexDistance a b + hexDistance b c := by
  have hab := hexDistance_eq a b
  have hac := hexDistance_eq a c
  have hbc := hexDistance_eq b c
  have t1 := abs_sub_le (a.q) (b.q) (c.q)
  have t2 := abs_sub_le (a.r) (b.r) (c.r)
  have t3 := abs_sub_le (-a.q - a.r) (-b.q - b.r) (-c.q - c.r)
  omega

/-- C20: `hexDistance` is a metric on integer axial coordinates: the distance
from a hex to itself is 0, the distance is symmetric, and it satisfies the
triangle inequality. -/
theorem hexDistance_metric (a b c : Coord) :
    hexDistance a a = 0 ∧ hexDistance a b = hexDistance b a ∧
      hexDistance a c ≤ hexDistance a b + hexDistance b c :=
  ⟨hexDistance_self a, hexDistance_comm a b, hexDistance_triangle a b c⟩

/-- Partial-correctness rule for the loop of `calculateReachableHexes`: a
property kept by advancing `head` and by every pass of the neighbour loop holds
of the final state. -/
theorem searchLoop_induct (g : GameEngine) (U : UnitData) (P : Search → Prop)
    (C : Int → Prop)
    (hhead : ∀ st cur, P st → st.frontier[st.head]? = some cur →
      P { st with head := st.head + 1 })
    (hcost : ∀ st cur c, P st → HexMap.get st.costSoFar cur = some c → C c)
    (hrelax : ∀ st c y, P st → C c → P (relaxNeighbor g U c st y)) :
    ∀ (n : Nat) (st res : Search), P st → searchLoop g U n st = some res → P res := by
  have hfold : ∀ (c : Int) (todo : List Coord) (st : Search), P st → C c →
      P (todo.foldl (relaxNeighbor g U c) st) := by
    intro c todo
    induction todo with
    | nil => intro st h _; exact h
    | cons y t ih => intro st h hc; exact ih _ (hrelax st c y h hc) hc
  intro n
  induction n with
  | zero =>
    intro st res hP hr
    by_cases hlt : st.head < st.frontier.length
    · simp [searchLoop, hlt] at hr
    · simp only [searchLoop, hlt, if_false, Option.some.injEq] at hr
      subst hr; exact hP
  | succ n ih =>
    intro st res hP hr
    cases hcur : st.frontier[st.head]? with
    | none =>
      simp only [searchLoop, hcur, Option.some.injEq] at hr
      subst hr; exact hP
    | some cur =>
      simp only [searchLoop, hcur] at hr
      refine ih _ res ?_ hr
      have h1 := hhead st cur hP hcur
      unfold visitHex
      cases hc : HexMap.get st.costSoFar cur with
      | none => exact h1
      | some c => exact hfold c _ _ h1 (hcost _ cur c h1 hc)

theorem searchBounds_init (g : GameEngine) (U : UnitData) : SearchBounds g U (searchInit U) := by
  have hs : (⟨U.q, U.r⟩ : Coord) = U.coord := rfl
  refine ⟨by simp [searchInit], ?_, ?_, ?_⟩
  · intro h c hh
    simp only [searchInit, HexMap.get_set, HexMap.get, hs] at hh
    by_cases e : U.coord = h
    · simp only [e, if_true, Option.some.injEq] at hh
      subst hh; exact ⟨le_refl _, Or.inl e.symm⟩
    · simp [e] at hh
  · intro h c hh
    simp only [searchInit, HexMap.get_set, HexMap.get, hs] at hh
    by_cases e : U.coord = h
    · simp only [e, if_true, Option.some.injEq] at hh
      subst hh; exact Or.inl ⟨e.symm, rfl⟩
    · simp [e] at hh
  · simp [searchInit, HexMap.get_set, HexMap.get, hs]

theorem searchBounds_relax (g : GameEngine) (U : UnitData) (hpos : positiveCosts g)
    (st : Search) (c : Int) (y : Coord) (hB : SearchBounds g U st) (hc : 0 ≤ c) :
    SearchBounds g U (relaxNeighbor g U c st y) := by
  rcases relaxNeighbor_cases g U c st y with ⟨heq, _⟩ | ⟨hon, hbud, _, hlt, heq⟩
  · rw [heq]; exact hB
  · have hcy := entryCost_pos g hpos y hon
    have hys : y ≠ U.coord := by
      intro e
      have := hlt 0 (by rw [e]; exact hB.start)
      omega
    rw [heq]
    refine ⟨?_, ?_, ?_, ?_⟩
    · simp only [List.length_append, List.length_singleton]
      exact Nat.le_succ_of_le hB.hle
    · intro h ch hh
      simp only [HexMap.get_set] at hh
      by_cases e : y = h
      · subst e
        simp only [if_true, Option.some.injEq] at hh
        subst hh
        exact ⟨by omega, Or.inr ⟨hon, by omega, hbud⟩⟩
      · simp only [e, if_false] at hh
        exact hB.costs h ch hh
    · intro h ch hh
      by_cases hu : getUnitAt g y.q y.r = none
      · simp only [hu, if_true, HexMap.get_set] at hh
        by_cases e : y = h
        · subst e
          simp only [if_true, Option.some.injEq] at hh
          subst hh
          exact Or.inr ⟨hys, hon, by omega, hbud⟩
        · simp only [e, if_false] at hh
          exact hB.reach h ch hh
      · simp only [hu, if_false] at hh
        exact hB.reach h ch hh
    · simp only [HexMap.get_set, hys, if_false]
      exact hB.start

theorem searchBounds_head (g : GameEngine) (U : UnitData) (st : Search) (cur : Coord)
    (hB : SearchBounds g U st) (hcur : st.frontier[st.head]? = some cur) :
    SearchBounds g U { st with head := st.head + 1 } := by
  have hlt : st.head < st.frontier.length := by
    by_contra hge
    rw [List.getElem?_eq_none (by omega)] at hcur
    cases hcur
  exact ⟨hlt, hB.costs, hB.reach, hB.start⟩

theorem searchBounds_foldl (g : GameEngine) (U : UnitData) (hpos : positiveCosts g)
    (c : Int) (hc : 0 ≤ c) (todo : List Coord) :
    ∀ st, SearchBounds g U st → SearchBounds g U (todo.foldl (relaxNeighbor g U c) st) := by
  induction todo with
  | nil => intro st h; exact h
  | cons y t ih => intro st h; exact ih _ (searchBounds_relax g U hpos st c y h hc)

theorem searchBounds_visit (g : GameEngine) (U : UnitData) (hpos : positiveCosts g)
    (st : Search) (cur : Coord) (hB : SearchBounds g U st)
    (hcur : st.frontier[st.head]? = some cur) :
    SearchBounds g U (visitHex g U { st with head := st.head + 1 } cur) ∧
      searchMeasure g U (visitHex g U { st with head := st.head + 1 } cur) + 1 ≤
        searchMeasure g U st := by
  have h1 := searchBounds_head g U st cur hB hcur
  have hlt : st.head < st.frontier.length := h1.hle
  have hstep : searchMeasure g U { st with head := st.head + 1 } + 1 = searchMeasure g U st := by
    unfold searchMeasure
    simp only
    omega
  unfold visitHex
  cases hc : HexMap.get st.costSoFar cur with
  | none => simp only [hc]; exact ⟨h1, by omega⟩
  | some c =>
    simp only [hc]
    have hc0 : 0 ≤ c := (hB.costs cur c hc).1
    refine ⟨searchBounds_foldl g U hpos c hc0 _ _ h1, ?_⟩
    have := foldl_relax_measure g U c hc0 hpos (hexNeighbors cur)
      { st with head := st.head + 1 } hlt
    omega

/-- On a map with positive costs the loop of `calculateReachableHexes` finishes
within `searchMeasure` iterations, whatever the roster. -/
theorem searchLoop_terminates (g : GameEngine) (U : UnitData) (hpos : positiveCosts g) :
    ∀ (n : Nat) (st : Search), SearchBounds g U st → searchMeasure g U st ≤ n →
      ∃ res, searchLoop g U n st = some res ∧ SearchBounds g U res := by
  intro n
  induction n with
  | zero =>
    intro st hB hm
    have : ¬ st.head < st.frontier.length := by
      unfold searchMeasure at hm
      omega
    exact ⟨st, by simp [searchLoop, this], hB⟩
  | succ n ih =>
    intro st hB hm
    cases hcur : st.frontier[st.head]? with
    | none => exact ⟨st, by simp [searchLoop, hcur], hB⟩
    | some cur =>
      obtain ⟨h1, h2⟩ := searchBounds_visit g U hpos st cur hB hcur
      obtain ⟨res, hr1, hr2⟩ := ih _ h1 (by omega)
      exact ⟨res, by simp only [searchLoop, hcur]; exact hr1, hr2⟩

/-- The budget that suffices for `calculateReachableHexes` on a map with
positive costs. -/
theorem calculateReachableHexes_some (g : GameEngine) (u : Nat) (hpos : positiveCosts g)
    (fuel : Nat) (hfuel : searchMeasure g (g.objects u) (searchInit (g.objects u)) ≤ fuel) :
    ∃ res, searchLoop g (g.objects u) fuel (searchInit (g.objects u)) = some res ∧
      SearchBounds g (g.objects u) res ∧
      calculateReachableHexes g u fuel = some { g with reachableHexes := res.reachableHexes } := by
  obtain ⟨res, h1, h2⟩ := searchLoop_terminates g (g.objects u) hpos fuel _
    (searchBounds_init g (g.objects u)) hfuel
  exact ⟨res, h1, h2, by simp [calculateReachableHexes, h1]⟩

/-- C17 (amended): on every finite map whose cells have a positive terrain cost,
for every roster and every `mov`, `calculateReachableHexes` terminates: from
some budget of iterations on the loop finishes and a result is produced. -/
theorem calculateReachableHexes_terminates (g : GameEngine) (u : Nat)
    (hpos : positiveCosts g) :
    ∃ fuel0, ∀ fuel, fuel0 ≤ fuel → ∃ g', calculateReachableHexes g u fuel = some g' := by
  refine ⟨searchMeasure g (g.objects u) (searchInit (g.objects u)), ?_⟩
  intro fuel hfuel
  obtain ⟨res, _, _, h⟩ := calculateReachableHexes_some g u hpos fuel hfuel
  exact ⟨_, h⟩

theorem relaxNeighbor_offMap (g : GameEngine) (U : UnitData) (c : Int) (st : Search)
    (y : Coord) (hy : getHexAt g y.q y.r = none) : relaxNeighbor g U c st y = st := by
  unfold relaxNeighbor
  simp [hy]

theorem negative_relax_east (c : Int) (st : Search) (hc : c ≤ 0)
    (hb : HexMap.get st.costSoFar ⟨1, 0⟩ = some (c + 1) ∨
      HexMap.get st.costSoFar ⟨1, 0⟩ = none) :
    relaxNeighbor negativeEngine (negativeEngine.objects 0) c st ⟨1, 0⟩ =
      { frontier := st.frontier ++ [⟨1, 0⟩], head := st.head,
        costSoFar := HexMap.set st.costSoFar ⟨1, 0⟩ (c - 1),
        reachableHexes := HexMap.set st.reachableHexes ⟨1, 0⟩ (c - 1) } := by
  have he : entryCost negativeEngine ⟨1, 0⟩ = -1 := by decide
  have hu : getUnitAt negativeEngine (1 : Int) 0 = none := by decide
  have hm : (negativeEngine.objects 0).stats.mov = 2 := by decide
  rcases relaxNeighbor_cases negativeEngine (negativeEngine.objects 0) c st ⟨1, 0⟩ with
    ⟨_, h | h | h | h⟩ | ⟨_, _, _, _, heq⟩
  · exact absurd h (by decide)
  · rw [he, hm] at h; omega
  · obtain ⟨v, hv, _⟩ := h
    rw [hu] at hv; cases hv
  · obtain ⟨old, ho, hle⟩ := h
    rw [he] at hle
    rcases hb with hb | hb
    · rw [hb] at ho; cases ho; omega
    · rw [hb] at ho; cases ho
  · rw [heq, he]
    simp only [hu, if_true]
    rfl

theorem negative_relax_west (c : Int) (st : Search) (hc : c ≤ 0)
    (ha : HexMap.get st.costSoFar ⟨0, 0⟩ = some (c + 1)) :
    relaxNeighbor negativeEngine (negativeEngine.objects 0) c st ⟨0, 0⟩ =
      { frontier := st.frontier ++ [⟨0, 0⟩], head := st.head,
        costSoFar := HexMap.set st.costSoFar ⟨0, 0⟩ (c - 1),
        reachableHexes := st.reachableHexes } := by
  have he : entryCost negativeEngine ⟨0, 0⟩ = -1 := by decide
  have hu : getUnitAt negativeEngine (0 : Int) 0 = some 0 := by decide
  have hm : (negativeEngine.objects 0).stats.mov = 2 := by decide
  rcases relaxNeighbor_cases negativeEngine (negativeEngine.objects 0) c st ⟨0, 0⟩ with
    ⟨_, h | h | h | h⟩ | ⟨_, _, _, _, heq⟩
  · exact absurd h (by decide)
  · rw [he, hm] at h; omega
  · obtain ⟨v, hv, hf⟩ := h
    rw [hu] at hv; cases hv
    exact absurd rfl hf
  · obtain ⟨old, ho, hle⟩ := h
    rw [he] at hle
    rw [ha] at ho; cases ho; omega
  · rw [heq, he]
    simp only [hu]
    rfl

theorem negativeLoopState_step (st : Search) (h : negativeLoopState st) :
    ∃ cur, st.frontier[st.head]? = some cur ∧
      negativeLoopState
        (visitHex negativeEngine (negativeEngine.objects 0)
          { st with head := st.head + 1 } cur) := by
  obtain ⟨l, c, r, hc, rfl | rfl⟩ := h
  · refine ⟨⟨0, 0⟩, by simp, ?_⟩
    have hcost : HexMap.get [((⟨0, 0⟩ : Coord), c), (⟨1, 0⟩, c + 1)] ⟨0, 0⟩ = some c := by
      simp [HexMap.get]
    unfold visitHex
    simp only [hcost]
    have hn : hexNeighbors ⟨0, 0⟩ =
        [⟨1, 0⟩, ⟨1, -1⟩, ⟨0, -1⟩, ⟨-1, 0⟩, ⟨-1, 1⟩, ⟨0, 1⟩] := by decide
    rw [hn]
    simp only [List.foldl]
    rw [negative_relax_east c _ hc (Or.inl (by simp [HexMap.get]))]
    rw [relaxNeighbor_offMap _ _ _ _ ⟨1, -1⟩ (by decide),
      relaxNeighbor_offMap _ _ _ _ ⟨0, -1⟩ (by decide),
      relaxNeighbor_offMap _ _ _ _ ⟨-1, 0⟩ (by decide),
      relaxNeighbor_offMap _ _ _ _ ⟨-1, 1⟩ (by decide),
      relaxNeighbor_offMap _ _ _ _ ⟨0, 1⟩ (by decide)]
    refine ⟨l ++ [⟨0, 0⟩], c - 1, HexMap.set r ⟨1, 0⟩ (c - 1), by omega, Or.inr ?_⟩
    simp [HexMap.set]
  · refine ⟨⟨1, 0⟩, by simp, ?_⟩
    have hcost : HexMap.get [((⟨0, 0⟩ : Coord), c + 1), (⟨1, 0⟩, c)] ⟨1, 0⟩ = some c := by
      simp [HexMap.get]
    unfold visitHex
    simp only [hcost]
    have hn : hexNeighbors ⟨1, 0⟩ =
        [⟨2, 0⟩, ⟨2, -1⟩, ⟨1, -1⟩, ⟨0, 0⟩, ⟨0, 1⟩, ⟨1, 1⟩] := by decide
    rw [hn]
    simp only [List.foldl]
    rw [relaxNeighbor_offMap _ _ _ _ ⟨2, 0⟩ (by decide),
      relaxNeighbor_offMap _ _ _ _ ⟨2, -1⟩ (by decide),
      relaxNeighbor_offMap _ _ _ _ ⟨1, -1⟩ (by decide)]
    rw [negative_relax_west c _ hc (by simp [HexMap.get])]
    rw [relaxNeighbor_offMap _ _ _ _ ⟨0, 1⟩ (by decide),
      relaxNeighbor_offMap _ _ _ _ ⟨1, 1⟩ (by decide)]
    refine ⟨l ++ [⟨1, 0⟩], c - 1, r, by omega, Or.inl ?_⟩
    simp [HexMap.set]

theorem negativeLoopState_diverges :
    ∀ (n : Nat) (st : Search), negativeLoopState st →
      searchLoop negativeEngine (negativeEngine.objects 0) n st = none := by
  intro n
  induction n with
  | zero =>
    intro st h
    obtain ⟨l, c, r, _, rfl | rfl⟩ := h <;> simp [searchLoop]
  | succ n ih =>
    intro st h
    obtain ⟨cur, h1, h2⟩ := negativeLoopState_step st h
    simp only [searchLoop, h1]
    exact ih _ h2

/-- C17, counterexample: on the two-cell map of terrain cost -1 (a finite map,
with a single unit of `mov` 2) the loop of `calculateReachableHexes` never
finishes, whatever the budget of iterations. -/
theorem calculateReachableHexes_negative_cost_diverges :
    (negativeEngine.hexes.length = 2 ∧ (negativeEngine.objects 0).stats.mov = 2) ∧
      ∀ fuel, calculateReachableHexes negativeEngine 0 fuel = none := by
  refine ⟨by decide, ?_⟩
  intro fuel
  have h1 : negativeLoopState
      (visitHex negativeEngine (negativeEngine.objects 0)
        { searchInit (negativeEngine.objects 0) with head := 1 } ⟨0, 0⟩) := by
    refine ⟨[⟨0, 0⟩], -1, [(⟨0, 0⟩, 0), (⟨1, 0⟩, -1)], by omega, Or.inr ?_⟩
    decide
  unfold calculateReachableHexes
  cases fuel with
  | zero => rfl
  | succ n =>
    have h2 : searchLoop negativeEngine (negativeEngine.objects 0) (n + 1)
        (searchInit (negativeEngine.objects 0)) =
        searchLoop negativeEngine (negativeEngine.objects 0) n
          (visitHex negativeEngine (negativeEngine.objects 0)
            { searchInit (negativeEngine.objects 0) with head := 1 } ⟨0, 0⟩) := rfl
    rw [h2, negativeLoopState_diverges n _ h1]
    rfl

theorem calculateReachableHexes_eq_some (g : GameEngine) (u : Nat) (fuel : Nat)
    (g' : GameEngine) (h : calculateReachableHexes g u fuel = some g') :
    ∃ res, searchLoop g (g.objects u) fuel (searchInit (g.objects u)) = some res ∧
      g' = { g with reachableHexes := res.reachableHexes } := by
  unfold calculateReachableHexes at h
  cases hr : searchLoop g (g.objects u) fuel (searchInit (g.objects u)) with
  | none => simp [hr] at h
  | some res =>
    simp only [hr, Option.map_some', Option.some.injEq] at h
    exact ⟨res, rfl, h.symm⟩

/-- C18: on a map with positive costs, whatever the roster, a unit whose `mov`
is 0 gets from `calculateReachableHexes` (any budget of at least one iteration)
a reachable set with exactly one entry, its own hex at cost 0. -/
theorem calculateReachableHexes_mov_zero (g : GameEngine) (u : Nat)
    (hpos : positiveCosts g) (hmov : (g.objects u).stats.mov = 0) :
    ∀ fuel, 1 ≤ fuel → ∃ g', calculateReachableHexes g u fuel = some g' ∧
      g'.reachableHexes = [((g.objects u).coord, 0)] := by
  have hrelax : ∀ (st : Search) (y : Coord),
      relaxNeighbor g (g.objects u) 0 st y = st := by
    intro st y
    rcases relaxNeighbor_cases g (g.objects u) 0 st y with ⟨heq, _⟩ | ⟨hon, hbud, _⟩
    · exact heq
    · have := entryCost_pos g hpos y hon
      rw [hmov] at hbud
      omega
  have hfold : ∀ (todo : List Coord) (st : Search),
      todo.foldl (relaxNeighbor g (g.objects u) 0) st = st := by
    intro todo
    induction todo with
    | nil => intro st; rfl
    | cons y t ih => intro st; simp only [List.foldl, hrelax, ih]
  intro fuel hfuel
  obtain ⟨n, rfl⟩ : ∃ n, fuel = n + 1 := ⟨fuel - 1, by omega⟩
  have hs : (⟨(g.objects u).q, (g.objects u).r⟩ : Coord) = (g.objects u).coord := rfl
  have hget : HexMap.get (searchInit (g.objects u)).costSoFar (g.objects u).coord = some 0 := by
    simp [searchInit, HexMap.get_set, hs]
  have hvisit : visitHex g (g.objects u)
      { searchInit (g.objects u) with head := (searchInit (g.objects u)).head + 1 }
      (g.objects u).coord =
      { searchInit (g.objects u) with head := 1 } := by
    unfold visitHex
    simp only [hget, hfold]
    rfl
  have hloop : searchLoop g (g.objects u) (n + 1) (searchInit (g.objects u)) =
      some { searchInit (g.objects u) with head := 1 } := by
    have h0 : (searchInit (g.objects u)).frontier[(searchInit (g.objects u)).head]? =
        some (g.objects u).coord := rfl
    simp only [searchLoop, h0, hvisit]
    cases n with
    | zero => simp [searchLoop, searchInit]
    | succ k => simp [searchLoop, searchInit]
  refine ⟨{ g with reachableHexes := (searchInit (g.objects u)).reachableHexes }, ?_, ?_⟩
  · simp [calculateReachableHexes, hloop]
  · simp [searchInit, HexMap.set, hs]

theorem searchLoop_onMap (g : GameEngine) (U : UnitData) (n : Nat) (res : Search)
    (hr : searchLoop g U n (searchInit U) = some res) :
    ∀ h c, HexMap.get res.reachableHexes h = some c → h = U.coord ∨ onMap g h := by
  have hs : (⟨U.q, U.r⟩ : Coord) = U.coord := rfl
  refine searchLoop_induct g U
    (fun st => ∀ h c, HexMap.get st.reachableHexes h = some c → h = U.coord ∨ onMap g h)
    (fun _ => True) ?_ ?_ ?_ n (searchInit U) res ?_ hr
  · intro st cur hP _; exact hP
  · intro _ _ _ _ _; trivial
  · intro st c y hP _
    rcases relaxNeighbor_cases g U c st y with ⟨heq, _⟩ | ⟨hon, _, _, _, heq⟩
    · rw [heq]; exact hP
    · rw [heq]
      intro h ch hh
      by_cases hu : getUnitAt g y.q y.r = none
      · simp only [hu, if_true, HexMap.get_set] at hh
        by_cases e : y = h
        · subst e; exact Or.inr hon
        · simp only [e, if_false] at hh
          exact hP h ch hh
      · simp only [hu, if_false] at hh
        exact hP h ch hh
  · intro h c hh
    simp only [searchInit, HexMap.get_set, HexMap.get, hs] at hh
    by_cases e : U.coord = h
    · exact Or.inl e.symm
    · simp [e] at hh

theorem searchLoop_bounds (g : GameEngine) (U : UnitData) (hpos : positiveCosts g)
    (n : Nat) (res : Search) (hr : searchLoop g U n (searchInit U) = some res) :
    SearchBounds g U res := by
  refine searchLoop_induct g U (SearchBounds g U) (fun c => 0 ≤ c) ?_ ?_ ?_ n
    (searchInit U) res (searchBounds_init g U) hr
  · intro st cur hP hcur; exact searchBounds_head g U st cur hP hcur
  · intro st cur c hP hc; exact (hP.costs cur c hc).1
  · intro st c y hP hc; exact searchBounds_relax g U hpos st c y hP hc

/-- C19 (amended): a hex absent from the map is never a key of the reachable
set other than as the unit's own hex, whatever `mov` is; on a map with positive
costs, a hex whose cell is charged the sentinel 99 for want of a terrain cost is
never a key of the reachable set (other than as the own hex) of a unit whose
`mov` is below 99. -/
theorem calculateReachableHexes_excludes_unusable (g : GameEngine) (u : Nat) (fuel : Nat)
    (g' : GameEngine) (hrun : calculateReachableHexes g u fuel = some g') :
    (∀ h ∈ HexMap.keys g'.reachableHexes, h ≠ (g.objects u).coord → onMap g h) ∧
    (positiveCosts g → (g.objects u).stats.mov < 99 →
      ∀ h ∈ HexMap.keys g'.reachableHexes, h ≠ (g.objects u).coord →
        ∀ cell, getHexAt g h.q h.r = some cell → ¬ sentinelCost cell) := by
  obtain ⟨res, hr, rfl⟩ := calculateReachableHexes_eq_some g u fuel g' hrun
  refine ⟨?_, ?_⟩
  · intro h hh hne
    obtain ⟨c, hc⟩ := (HexMap.mem_keys_iff _ _).1 hh
    rcases searchLoop_onMap g _ fuel res hr h c hc with h1 | h1
    · exact absurd h1 hne
    · exact h1
  · intro hpos hmov h hh hne cell hcell hsent
    obtain ⟨c, hc⟩ := (HexMap.mem_keys_iff _ _).1 hh
    have hB := searchLoop_bounds g _ hpos fuel res hr
    rcases hB.reach h c hc with ⟨h1, _⟩ | ⟨_, _, h2, h3⟩
    · exact absurd h1 hne
    · have he : entryCost g h = 99 := by
        unfold entryCost
        rw [hcell]
        unfold sentinelCost at hsent
        unfold terrainCostOf
        cases ht : cell.terrainType with
        | none => simp [ht]
        | some t =>
          rw [ht] at hsent
          simp only at hsent
          simp [ht, hsent]
      omega

/-- C19, counterexample: with `mov` 99 the blue unit of `sentinelEngine` reaches
the cell `(1, 0)`, which has no terrain type and is charged the sentinel 99. -/
theorem sentinel_cell_reached :
    (getHexAt sentinelEngine 1 0).map (fun cell => cell.terrainType) = some none ∧
    (sentinelEngine.objects 0).coord = ⟨0, 0⟩ ∧
    (calculateReachableHexes sentinelEngine 0 100).map
      (fun g => HexMap.get g.reachableHexes ⟨1, 0⟩) = some (some 99) := by
  decide

theorem hexDistance_nonneg (a b : Coord) : 0 ≤ hexDistance a b := by
  unfold hexDistance
  simp only [abs_eq_max_neg]
  omega

theorem hexDistance_eq_zero (a b : Coord) (h : hexDistance a b = 0) : a = b := by
  cases a; cases b
  unfold hexDistance at h
  simp only [abs_eq_max_neg] at h
  simp only [Coord.mk.injEq]
  constructor <;> omega

theorem hexDistance_neighbor (x y : Coord) (h : y ∈ hexNeighbors x) : hexDistance x y = 1 := by
  simp only [hexNeighbors, List.map_cons, List.map_nil, List.mem_cons, List.mem_nil_iff,
    or_false] at h
  unfold hexDistance
  simp only [abs_eq_max_neg]
  rcases h with h | h | h | h | h | h <;> subst h <;> simp only <;> omega

theorem hexDistance_step (s x y : Coord) (h : y ∈ hexNeighbors x) :
    hexDistance s y ≤ hexDistance s x + 1 := by
  have h1 := hexDistance_triangle s x y
  rw [hexDistance_neighbor x y h] at h1
  exact h1

/-- A hex away from `s` has a neighbour that is one step closer to `s`. -/
theorem hexDistance_pred (s h : Coord) (hd : 0 < hexDistance s h) :
    ∃ h', h ∈ hexNeighbors h' ∧ hexDistance s h' = hexDistance s h - 1 := by
  cases s with
  | mk sq sr =>
  cases h with
  | mk q r =>
  unfold hexDistance at hd ⊢
  simp only [abs_eq_max_neg] at hd ⊢
  simp only [hexNeighbors, List.map_cons, List.map_nil, List.mem_cons, List.mem_nil_iff,
    or_false, Coord.mk.injEq]
  by_cases h1 : sq < q
  · by_cases h2 : sr ≤ r
    · exact ⟨⟨q - 1, r⟩, by simp only; omega, by simp only; omega⟩
    · exact ⟨⟨q - 1, r + 1⟩, by simp only; omega, by simp only; omega⟩
  · by_cases h3 : q < sq
    · by_cases h2 : r ≤ sr
      · exact ⟨⟨q + 1, r⟩, by simp only; omega, by simp only; omega⟩
      · exact ⟨⟨q + 1, r - 1⟩, by simp only; omega, by simp only; omega⟩
    · by_cases h2 : sr < r
      · exact ⟨⟨q, r - 1⟩, by simp only; omega, by simp only; omega⟩
      · exact ⟨⟨q, r + 1⟩, by simp only; omega, by simp only; omega⟩

theorem legalPath_distance (g : GameEngine) (f : Faction) (s : Coord) (p : List Coord)
    (hp : legalPath g f s p) : hexDistance s (p.getLastD s) ≤ p.length := by
  induction p using List.reverseRecOn with
  | nil => simp [hexDistance_self s]
  | append_singleton l y ih =>
    obtain ⟨hl, hy, _⟩ := (legalPath_snoc g f s l y).1 hp
    rw [getLastD_snoc]
    have h1 := hexDistance_step s _ y hy
    have h2 := ih hl
    simp only [List.length_append, List.length_singleton]
    push_cast
    omega

/-- In open terrain (every hex within `m` of `s` passable) each hex at distance
`d ≤ m` ends a legal path of `d` steps. -/
theorem legalPath_of_distance (g : GameEngine) (f : Faction) (s : Coord) (m : Int)
    (hopen : ∀ h, h ≠ s → hexDistance s h ≤ m → passable g f h) :
    ∀ (d : Nat) (h : Coord), hexDistance s h = d → (d : Int) ≤ m →
      ∃ p, legalPath g f s p ∧ p.getLastD s = h ∧ p.length = d := by
  intro d
  induction d with
  | zero =>
    intro h hd _
    have := hexDistance_eq_zero s h (by simpa using hd)
    exact ⟨[], trivial, this, rfl⟩
  | succ d ih =>
    intro h hd hm
    obtain ⟨h', hn, hd'⟩ := hexDistance_pred s h (by rw [hd]; push_cast; omega)
    have hd'' : hexDistance s h' = d := by rw [hd', hd]; push_cast; omega
    obtain ⟨p, hp1, hp2, hp3⟩ := ih h' hd'' (by push_cast at hm; omega)
    have hne : h ≠ s := by
      intro e
      rw [e, hexDistance_self s] at hd
      push_cast at hd
      omega
    refine ⟨p ++ [h], ?_, getLastD_snoc _ _ _, by simp [hp3]⟩
    rw [legalPath_snoc]
    exact ⟨hp1, by rw [hp2]; exact hn, hopen h hne (by rw [hd]; exact hm)⟩

theorem HexMap.keys_set_nodup {α : Type} (m : HexMap α) (k : Coord) (v : α)
    (h : (HexMap.keys m).Nodup) : (HexMap.keys (HexMap.set m k v)).Nodup := by
  induction m with
  | nil => simp [HexMap.set, HexMap.keys]
  | cons e t ih =>
    obtain ⟨k', w⟩ := e
    simp only [HexMap.keys, List.map_cons, List.nodup_cons] at h
    by_cases hk : k' = k
    · simp only [HexMap.set, hk, if_true, HexMap.keys, List.map_cons, List.nodup_cons]
      rw [← hk]; exact h
    · simp only [HexMap.set, hk, if_false, HexMap.keys, List.map_cons, List.nodup_cons]
      refine ⟨?_, ih h.2⟩
      intro hmem
      have h1 : k' ∈ HexMap.keys (HexMap.set t k v) := hmem
      rw [HexMap.mem_keys_iff] at h1
      obtain ⟨x, hx⟩ := h1
      rw [HexMap.get_set] at hx
      have hk2 : ¬ k = k' := fun e => hk e.symm
      simp only [hk2, if_false] at hx
      exact h.1 ((HexMap.mem_keys_iff t k').2 ⟨x, hx⟩)

theorem searchLoop_keys_nodup (g : GameEngine) (U : UnitData) (n : Nat) (res : Search)
    (hr : searchLoop g U n (searchInit U) = some res) :
    (HexMap.keys res.reachableHexes).Nodup := by
  refine searchLoop_induct g U (fun st => (HexMap.keys st.reachableHexes).Nodup)
    (fun _ => True) ?_ ?_ ?_ n (searchInit U) res ?_ hr
  · intro st cur hP _; exact hP
  · intro _ _ _ _ _; trivial
  · intro st c y hP _
    rcases relaxNeighbor_cases g U c st y with ⟨heq, _⟩ | ⟨_, _, _, _, heq⟩
    · rw [heq]; exact hP
    · rw [heq]
      by_cases hu : getUnitAt g y.q y.r = none
      · simp only [hu, if_true]
        exact HexMap.keys_set_nodup _ _ _ hP
      · simp only [hu, if_false]
        exact hP
  · simp [searchInit, HexMap.set, HexMap.keys]

theorem entryCost_congr (g g2 : GameEngine) (hhex : g2.hexes = g.hexes) (h : Coord) :
    entryCost g2 h = entryCost g h := by
  unfold entryCost getHexAt
  rw [hhex]

theorem pathCost_congr (g g2 : GameEngine) (hhex : g2.hexes = g.hexes) (p : List Coord) :
    pathCost g2 p = pathCost g p := by
  unfold pathCost
  congr 1
  apply List.map_congr_left
  intro h _
  exact entryCost_congr g g2 hhex h

theorem legalPath_mono (g g2 : GameEngine) (f : Faction) (hhex : g2.hexes = g.hexes)
    (hobj : g2.objects = g.objects) (hunits : ∀ v, v ∈ g.units → v ∈ g2.units)
    (a : Coord) (p : List Coord) (hp : legalPath g2 f a p) : legalPath g f a p := by
  induction p generalizing a with
  | nil => trivial
  | cons b t ih =>
    obtain ⟨h1, h2, h3⟩ := hp
    refine ⟨h1, ⟨?_, ?_⟩, ih b h3⟩
    · have := h2.1
      unfold onMap getHexAt at this ⊢
      rw [hhex] at this
      exact this
    · rintro ⟨v, hv, hc, hf⟩
      exact h2.2 ⟨v, hunits v hv, by rw [hobj]; exact hc, by rw [hobj]; exact hf⟩

/-- C16: adding a unit to the roster (in particular a single enemy, on any hex
that keeps one unit per hex) cannot enlarge the reachable set of `u` on a map
with positive costs: every key of the set computed with the extra unit is a key
of the set computed without it, and its recorded cost is at least the cost
recorded without the extra unit. -/
theorem calculateReachableHexes_extra_enemy (g g2 : GameEngine) (u e : Nat)
    (hhex : g2.hexes = g.hexes) (hobj : g2.objects = g.objects)
    (hunits : ∀ v, v ∈ g2.units ↔ v ∈ g.units ∨ v = e)
    (hpos : positiveCosts g) (hnd : oneUnitPerHex g) (hnd2 : oneUnitPerHex g2) :
    ∃ fuel0, ∀ fuel, fuel0 ≤ fuel →
      ∃ g' g2', calculateReachableHexes g u fuel = some g' ∧
        calculateReachableHexes g2 u fuel = some g2' ∧
        ∀ h c2, HexMap.get g2'.reachableHexes h = some c2 →
          ∃ c, HexMap.get g'.reachableHexes h = some c ∧ c ≤ c2 := by
  have hpos2 : positiveCosts g2 := by
    unfold positiveCosts at hpos ⊢
    rw [hhex]; exact hpos
  have hU : g2.objects u = g.objects u := by rw [hobj]
  refine ⟨max (searchMeasure g (g.objects u) (searchInit (g.objects u)))
    (searchMeasure g2 (g2.objects u) (searchInit (g2.objects u))), ?_⟩
  intro fuel hfuel
  obtain ⟨res, hr, hI, hdone⟩ := search_result g (g.objects u) hpos hnd fuel
    (le_trans (le_max_left _ _) hfuel)
  obtain ⟨res2, hr2, hI2, _⟩ := search_result g2 (g2.objects u) hpos2 hnd2 fuel
    (le_trans (le_max_right _ _) hfuel)
  refine ⟨{ g with reachableHexes := res.reachableHexes },
    { g2 with reachableHexes := res2.reachableHexes },
    by simp [calculateReachableHexes, hr], by simp [calculateReachableHexes, hr2], ?_⟩
  intro h c2 hc2
  simp only [hI2.reach h] at hc2
  simp only [hI.reach h]
  rw [hU] at hc2
  by_cases hs : h = (g.objects u).coord
  · simp only [hs, if_true, Option.some.injEq] at hc2 ⊢
    exact ⟨0, rfl, by omega⟩
  · simp only [hs, if_false] at hc2 ⊢
    by_cases hu2 : getUnitAt g2 h.q h.r = none
    · simp only [hu2, if_true] at hc2
      have hocc2 := (getUnitAt_none_iff g2 h).1 hu2
      have hocc : ¬ occupied g h := by
        rintro ⟨v, hv, hc⟩
        exact hocc2 ⟨v, (hunits v).2 (Or.inl hv), by rw [hobj]; exact hc⟩
      have hu := (getUnitAt_none_iff g h).2 hocc
      simp only [hu, if_true]
      obtain ⟨p, hp1, hp2, hp3, hp4⟩ := hI2.sound h c2 hc2
      rw [hU] at hp1 hp2 hp4
      have hne : p ≠ [] := by
        intro e'; subst e'; exact hs hp2.symm
      have hp1' := legalPath_mono g g2 _ hhex hobj (fun v hv => (hunits v).2 (Or.inl hv)) _ p hp1
      rw [pathCost_congr g g2 hhex] at hp3
      have hb : pathCost g p ≤ (g.objects u).stats.mov := by
        rcases hp4 with h4 | h4
        · exact absurd h4 hne
        · rw [hp3]; exact h4
      obtain ⟨d, hd1, hd2⟩ := search_complete g (g.objects u) hpos res hI hdone p hp1' hb
      rw [hp2] at hd1
      exact ⟨d, hd1, by rw [← hp3]; exact hd2⟩
    · simp [hu2] at hc2

theorem unitCosts_positive (g : GameEngine) (h : unitCosts g) : positiveCosts g := by
  intro e he
  rw [h e he]
  decide

theorem pathCost_unit (g : GameEngine) (hunit : unitCosts g) (f : Faction) (a : Coord)
    (p : List Coord) (hp : legalPath g f a p) : pathCost g p = p.length := by
  induction p generalizing a with
  | nil => simp [pathCost]
  | cons b t ih =>
    obtain ⟨_, hb, ht⟩ := hp
    have h2 := ih b ht
    have h1 : entryCost g b = 1 := by
      have hon := hb.1
      unfold onMap at hon
      unfold entryCost
      cases hc : getHexAt g b.q b.r with
      | none => simp [hc] at hon
      | some cell => exact hunit _ (HexMap.mem_of_get g.hexes ⟨b.q, b.r⟩ cell hc)
    simp only [pathCost, List.map_cons, List.sum_cons, List.length_cons] at h2 ⊢
    rw [h1, h2]
    push_cast
    omega

/-- The keys of the reachable set of a finished search, on a map with positive
costs and one unit per hex. -/
theorem search_keys (g : GameEngine) (U : UnitData) (hpos : positiveCosts g)
    (res : Search) (hI : SearchInv g U (fun _ _ => False) res)
    (hdone : res.frontier.length ≤ res.head) (h : Coord) :
    h ∈ HexMap.keys res.reachableHexes ↔
      (h = U.coord ∨ (onMap g h ∧ ¬ occupied g h ∧
        ∃ p, legalPath g U.faction U.coord p ∧ p.getLastD U.coord = h ∧
          pathCost g p ≤ U.stats.mov)) := by
  rw [HexMap.mem_keys_iff]
  simp only [hI.reach h]
  by_cases hs : h = U.coord
  · simp [hs]
  · simp only [hs, if_false, false_or]
    constructor
    · rintro ⟨v, hv⟩
      by_cases hu : getUnitAt g h.q h.r = none
      · simp only [hu, if_true] at hv
        obtain ⟨p, hp1, hp2, hp3, hp4⟩ := hI.sound h v hv
        have hne : p ≠ [] := by
          intro e; subst e; exact hs hp2.symm
        have hpass := legalPath_last_passable g _ _ p hp1 hne
        rw [hp2] at hpass
        refine ⟨hpass.1, (getUnitAt_none_iff g h).1 hu, p, hp1, hp2, ?_⟩
        rcases hp4 with h4 | h4
        · exact absurd h4 hne
        · rw [hp3]; exact h4
      · simp [hu] at hv
    · rintro ⟨_, hocc, p, hp1, hp2, hp3⟩
      have hu := (getUnitAt_none_iff g h).2 hocc
      simp only [hu, if_true]
      obtain ⟨d, hd, _⟩ := search_complete g U hpos res hI hdone p hp1 hp3
      rw [hp2] at hd
      exact ⟨d, hd⟩

/-- C15 (amended): on a map all of whose cells have terrain cost 1, with one
unit per hex, the number of hexes in the result of `calculateReachableHexes`
is the number of hexes that are the unit's own hex or an unoccupied hex on the
map ending a legal path of at most `mov` steps; when every hex within hex
distance `mov` of the unit is on the map and holds no enemy, it is the number
of hexes that are the own hex or an unoccupied hex on the map within hex
distance `mov`. -/
theorem calculateReachableHexes_count (g : GameEngine) (u : Nat)
    (hunit : unitCosts g) (hnd : oneUnitPerHex g) :
    ∃ fuel0, ∀ fuel, fuel0 ≤ fuel →
      ∃ g', calculateReachableHexes g u fuel = some g' ∧
        (∀ S : Finset Coord,
          (∀ h, h ∈ S ↔ (h = (g.objects u).coord ∨ (onMap g h ∧ ¬ occupied g h ∧
            ∃ p, legalPath g (g.objects u).faction (g.objects u).coord p ∧
              p.getLastD (g.objects u).coord = h ∧
              (p.length : Int) ≤ (g.objects u).stats.mov))) →
          (HexMap.keys g'.reachableHexes).length = S.card) ∧
        ((∀ h, h ≠ (g.objects u).coord →
            hexDistance (g.objects u).coord h ≤ (g.objects u).stats.mov →
            onMap g h ∧ ¬ enemyOccupied g (g.objects u).faction h) →
          ∀ S : Finset Coord,
            (∀ h, h ∈ S ↔ (h = (g.objects u).coord ∨ (onMap g h ∧ ¬ occupied g h ∧
              hexDistance (g.objects u).coord h ≤ (g.objects u).stats.mov))) →
            (HexMap.keys g'.reachableHexes).length = S.card) := by
  have hpos := unitCosts_positive g hunit
  refine ⟨searchMeasure g (g.objects u) (searchInit (g.objects u)), ?_⟩
  intro fuel hfuel
  obtain ⟨res, hr, hI, hdone⟩ := search_result g (g.objects u) hpos hnd fuel hfuel
  have hnodup := searchLoop_keys_nodup g (g.objects u) fuel res hr
  have hkeys := search_keys g (g.objects u) hpos res hI hdone
  have hcount : ∀ (S : Finset Coord),
      (∀ h, h ∈ S ↔ h ∈ HexMap.keys res.reachableHexes) →
      (HexMap.keys res.reachableHexes).length = S.card := by
    intro S hS
    have : S = (HexMap.keys res.reachableHexes).toFinset := by
      ext h; rw [hS h, List.mem_toFinset]
    rw [this, List.toFinset_card_of_nodup hnodup]
  have hsteps : ∀ h, h ∈ HexMap.keys res.reachableHexes ↔
      (h = (g.objects u).coord ∨ (onMap g h ∧ ¬ occupied g h ∧
        ∃ p, legalPath g (g.objects u).faction (g.objects u).coord p ∧
          p.getLastD (g.objects u).coord = h ∧
          (p.length : Int) ≤ (g.objects u).stats.mov)) := by
    intro h
    rw [hkeys h]
    constructor
    · rintro (h1 | ⟨h1, h2, p, hp1, hp2, hp3⟩)
      · exact Or.inl h1
      · exact Or.inr ⟨h1, h2, p, hp1, hp2, by rw [← pathCost_unit g hunit _ _ p hp1]; exact hp3⟩
    · rintro (h1 | ⟨h1, h2, p, hp1, hp2, hp3⟩)
      · exact Or.inl h1
      · exact Or.inr ⟨h1, h2, p, hp1, hp2, by rw [pathCost_unit g hunit _ _ p hp1]; exact hp3⟩
  refine ⟨{ g with reachableHexes := res.reachableHexes },
    by simp [calculateReachableHexes, hr], ?_, ?_⟩
  · intro S hS
    exact hcount S (fun h => by rw [hS h, hsteps h])
  · intro hopen S hS
    refine hcount S (fun h => ?_)
    rw [hS h, hsteps h]
    constructor
    · rintro (h1 | ⟨h1, h2, h3⟩)
      · exact Or.inl h1
      · by_cases hs : h = (g.objects u).coord
        · exact Or.inl hs
        · right
          refine ⟨h1, h2, ?_⟩
          have hd0 := hexDistance_nonneg (g.objects u).coord h
          obtain ⟨p, hp1, hp2, hp3⟩ := legalPath_of_distance g (g.objects u).faction
            (g.objects u).coord (g.objects u).stats.mov
            (fun x hx hdx => hopen x hx hdx)
            (hexDistance (g.objects u).coord h).toNat h
            (by rw [Int.toNat_of_nonneg hd0])
            (by rw [Int.toNat_of_nonneg hd0]; exact h3)
          refine ⟨p, hp1, hp2, ?_⟩
          rw [hp3, Int.toNat_of_nonneg hd0]
          exact h3
    · rintro (h1 | ⟨h1, h2, p, hp1, hp2, hp3⟩)
      · exact Or.inl h1
      · right
        refine ⟨h1, h2, ?_⟩
        have := legalPath_distance g _ _ p hp1
        rw [hp2] at this
        omega

/-- C15, counterexample: in `adjacentEngine` (all costs 1) the blue unit has
`mov` 2 and a red unit next to it at `(1, 0)`; the result has 4 hexes although 5
hexes (the own hex included) are on the map, unoccupied and within hex distance
2: `(2, 0)` lies behind the enemy. -/
theorem reachable_count_blocked :
    unitCosts adjacentEngine ∧ oneUnitPerHex adjacentEngine ∧
    (adjacentEngine.objects 0).stats.mov = 2 ∧
    (calculateReachableHexes adjacentEngine 0 100).map
      (fun g => (HexMap.keys g.reachableHexes).length) = some 4 ∧
    ((HexMap.keys adjacentEngine.hexes).filter (fun h =>
      decide (h = (adjacentEngine.objects 0).coord) ||
        (decide (hexDistance (adjacentEngine.objects 0).coord h ≤ 2) &&
          (getUnitAt adjacentEngine h.q h.r).isNone))).length = 5 := by
  decide

theorem relaxNeighbor_congr (g g2 : GameEngine) (hhex : g2.hexes = g.hexes)
    (hobj : g2.objects = g.objects) (hunits : g2.units = g.units) (U : UnitData) (c : Int)
    (st : Search) (y : Coord) : relaxNeighbor g2 U c st y = relaxNeighbor g U c st y := by
  unfold relaxNeighbor getHexAt getUnitAt
  rw [hhex, hobj, hunits]

theorem searchLoop_congr (g g2 : GameEngine) (hhex : g2.hexes = g.hexes)
    (hobj : g2.objects = g.objects) (hunits : g2.units = g.units) (U : UnitData) :
    ∀ (n : Nat) (st : Search), searchLoop g2 U n st = searchLoop g U n st := by
  have hrel : relaxNeighbor g2 U = relaxNeighbor g U := by
    funext c st y
    exact relaxNeighbor_congr g g2 hhex hobj hunits U c st y
  intro n
  induction n with
  | zero => intro st; rfl
  | succ n ih =>
    intro st
    simp only [searchLoop, visitHex, hrel, ih]

/-- The reachable set depends only on the map, the unit objects and the
roster. -/
theorem calculateReachableHexes_congr (g g2 : GameEngine) (hhex : g2.hexes = g.hexes)
    (hobj : g2.objects = g.objects) (hunits : g2.units = g.units) (u : Nat) (fuel : Nat) :
    (calculateReachableHexes g2 u fuel).map (fun x => x.reachableHexes) =
      (calculateReachableHexes g u fuel).map (fun x => x.reachableHexes) := by
  unfold calculateReachableHexes
  rw [hobj, searchLoop_congr g g2 hhex hobj hunits]
  cases searchLoop g (g.objects u) fuel (searchInit (g.objects u)) <;> rfl

theorem getUnitAt_iff (g : GameEngine) (hnd : oneUnitPerHex g) (c : Coord) (t : Nat) :
    getUnitAt g c.q c.r = some t ↔ t ∈ g.units ∧ (g.objects t).coord = c := by
  constructor
  · exact getUnitAt_some g c t
  · rintro ⟨h1, h2⟩
    cases hw : getUnitAt g c.q c.r with
    | none => exact absurd ⟨t, h1, h2⟩ ((getUnitAt_none_iff g c).1 hw)
    | some w =>
      obtain ⟨h3, h4⟩ := getUnitAt_some g c w hw
      have : w = t := List.inj_on_of_nodup_map hnd h3 h1 (h4.trans h2.symm)
      rw [this]

theorem markAttackable_spec (g : GameEngine) (U : UnitData) (seen : Coord → Prop)
    (acc : HexMap Nat) (c : Coord)
    (hacc : ∀ x t, HexMap.get acc x = some t ↔
      (getUnitAt g x.q x.r = some t ∧ (g.objects t).faction ≠ U.faction ∧ seen x))
    (hnod : (HexMap.keys acc).Nodup) :
    (∀ x t, HexMap.get (markAttackable g U acc c) x = some t ↔
      (getUnitAt g x.q x.r = some t ∧ (g.objects t).faction ≠ U.faction ∧ (seen x ∨ x = c))) ∧
    (HexMap.keys (markAttackable g U acc c)).Nodup := by
  unfold markAttackable
  cases hu : getUnitAt g c.q c.r with
  | none =>
    refine ⟨?_, hnod⟩
    intro x t
    simp only
    rw [hacc x t]
    constructor
    · rintro ⟨h1, h2, h3⟩; exact ⟨h1, h2, Or.inl h3⟩
    · rintro ⟨h1, h2, h3 | h3⟩
      · exact ⟨h1, h2, h3⟩
      · subst h3; rw [hu] at h1; cases h1
  | some t0 =>
    by_cases hf : (g.objects t0).faction ≠ U.faction
    · simp only
      rw [if_pos hf]
      refine ⟨?_, HexMap.keys_set_nodup _ _ _ hnod⟩
      intro x t
      rw [HexMap.get_set]
      by_cases e : c = x
      · subst e
        simp only [if_true, Option.some.injEq]
        constructor
        · intro h; subst h; exact ⟨hu, hf, Or.inr trivial⟩
        · rintro ⟨h1, _, _⟩
          rw [hu] at h1
          exact Option.some.inj h1
      · simp only [e, if_false]
        rw [hacc x t]
        constructor
        · rintro ⟨h1, h2, h3⟩; exact ⟨h1, h2, Or.inl h3⟩
        · rintro ⟨h1, h2, h3 | h3⟩
          · exact ⟨h1, h2, h3⟩
          · exact absurd h3.symm e
    · simp only
      rw [if_neg hf]
      refine ⟨?_, hnod⟩
      intro x t
      rw [hacc x t]
      constructor
      · rintro ⟨h1, h2, h3⟩; exact ⟨h1, h2, Or.inl h3⟩
      · rintro ⟨h1, h2, h3 | h3⟩
        · exact ⟨h1, h2, h3⟩
        · subst h3
          rw [hu] at h1
          cases h1
          exact absurd h2 hf

theorem markAttackable_foldl (g : GameEngine) (U : UnitData) (l : List Coord) :
    ∀ (seen : Coord → Prop) (acc : HexMap Nat),
      (∀ x t, HexMap.get acc x = some t ↔
        (getUnitAt g x.q x.r = some t ∧ (g.objects t).faction ≠ U.faction ∧ seen x)) →
      (HexMap.keys acc).Nodup →
      (∀ x t, HexMap.get (l.foldl (markAttackable g U) acc) x = some t ↔
        (getUnitAt g x.q x.r = some t ∧ (g.objects t).faction ≠ U.faction ∧
          (seen x ∨ x ∈ l))) ∧
      (HexMap.keys (l.foldl (markAttackable g U) acc)).Nodup := by
  induction l with
  | nil =>
    intro seen acc hacc hnod
    refine ⟨?_, hnod⟩
    intro x t
    simp only [List.foldl, List.not_mem_nil, or_false]
    exact hacc x t
  | cons c rest ih =>
    intro seen acc hacc hnod
    obtain ⟨h1, h2⟩ := markAttackable_spec g U seen acc c hacc hnod
    obtain ⟨h3, h4⟩ := ih (fun x => seen x ∨ x = c) _ h1 h2
    refine ⟨?_, h4⟩
    intro x t
    refine (h3 x t).trans ?_
    simp only [List.mem_cons]
    tauto

theorem attackable_foldl (g : GameEngine) (U : UnitData) (ks : List Coord) :
    ∀ (seen : Coord → Prop) (acc : HexMap Nat),
      (∀ x t, HexMap.get acc x = some t ↔
        (getUnitAt g x.q x.r = some t ∧ (g.objects t).faction ≠ U.faction ∧ seen x)) →
      (HexMap.keys acc).Nodup →
      (∀ x t, HexMap.get (ks.foldl
          (fun acc hexKey => (hexNeighbors hexKey).foldl (markAttackable g U) acc) acc) x =
            some t ↔
        (getUnitAt g x.q x.r = some t ∧ (g.objects t).faction ≠ U.faction ∧
          (seen x ∨ ∃ k ∈ ks, x ∈ hexNeighbors k))) ∧
      (HexMap.keys (ks.foldl
        (fun acc hexKey => (hexNeighbors hexKey).foldl (markAttackable g U) acc) acc)).Nodup := by
  induction ks with
  | nil =>
    intro seen acc hacc hnod
    refine ⟨?_, hnod⟩
    intro x t
    simp only [List.foldl, List.not_mem_nil, false_and, exists_false, or_false]
    exact hacc x t
  | cons k rest ih =>
    intro seen acc hacc hnod
    obtain ⟨h1, h2⟩ := markAttackable_foldl g U (hexNeighbors k) seen acc hacc hnod
    obtain ⟨h3, h4⟩ := ih (fun x => seen x ∨ x ∈ hexNeighbors k) _ h1 h2
    refine ⟨?_, h4⟩
    intro x t
    refine (h3 x t).trans ?_
    simp only [List.mem_cons, exists_eq_or_imp]
    tauto

/-- What `calculateAttackableHexes` returns, in terms of the engine's own
`getUnitAt`. -/
theorem calculateAttackableHexes_eq (g : GameEngine) (u : Nat) (fuel : Nat) (g' : GameEngine)
    (hrun : calculateAttackableHexes g u fuel = some g') :
    ∃ res, searchLoop g (g.objects u) fuel (searchInit (g.objects u)) = some res ∧
      g'.reachableHexes = res.reachableHexes ∧
      g'.objects = g.objects ∧ g'.units = g.units ∧ g'.hexes = g.hexes ∧
      g'.turn = g.turn ∧ g'.currentPlayer = g.currentPlayer ∧
      g'.selectedUnit = g.selectedUnit ∧ g'.isDraggingUnit = g.isDraggingUnit ∧
      g'.draggedUnit = g.draggedUnit ∧
      (∀ x t, HexMap.get g'.attackableHexes x = some t ↔
        (getUnitAt g x.q x.r = some t ∧ (g.objects t).faction ≠ (g.objects u).faction ∧
          ∃ k, (k = (g.objects u).coord ∨ k ∈ HexMap.keys g'.reachableHexes) ∧
            x ∈ hexNeighbors k)) ∧
      (HexMap.keys g'.attackableHexes).Nodup := by
  unfold calculateAttackableHexes at hrun
  cases h1 : calculateReachableHexes { g with attackableHexes := [] } u fuel with
  | none => simp [h1] at hrun
  | some g1 =>
    obtain ⟨res, hr, hg1⟩ := calculateReachableHexes_eq_some _ u fuel g1 h1
    have hr' : searchLoop g (g.objects u) fuel (searchInit (g.objects u)) = some res := by
      rw [← hr]
      exact (searchLoop_congr g { g with attackableHexes := [] } rfl rfl rfl _ _ _).symm
    simp only [h1, Option.some.injEq] at hrun
    subst hrun
    subst hg1
    obtain ⟨h3, h4⟩ := attackable_foldl
      { g with attackableHexes := [], reachableHexes := res.reachableHexes } (g.objects u)
      (if (⟨(g.objects u).q, (g.objects u).r⟩ : Coord) ∈ HexMap.keys res.reachableHexes
        then HexMap.keys res.reachableHexes
        else HexMap.keys res.reachableHexes ++ [⟨(g.objects u).q, (g.objects u).r⟩])
      (fun _ => False) [] (by intro x t; simp [HexMap.get]) (by simp [HexMap.keys])
    refine ⟨res, hr', rfl, rfl, rfl, rfl, rfl, rfl, rfl, rfl, rfl, ?_, h4⟩
    intro x t
    have h5 := h3 x t
    simp only [false_or] at h5
    refine Iff.trans h5 ?_
    show (getUnitAt g x.q x.r = some t ∧ _) ↔ _
    have hs : (⟨(g.objects u).q, (g.objects u).r⟩ : Coord) = (g.objects u).coord := rfl
    rw [hs]
    constructor
    · rintro ⟨a, b, k, hk, hx⟩
      refine ⟨a, b, k, ?_, hx⟩
      split at hk
      · exact Or.inr hk
      · rcases List.mem_append.1 hk with h | h
        · exact Or.inr h
        · exact Or.inl (List.mem_singleton.1 h)
    · rintro ⟨a, b, k, hk, hx⟩
      refine ⟨a, b, k, ?_, hx⟩
      split
      · rename_i hin
        rcases hk with h | h
        · rw [h]; exact hin
        · exact h
      · rcases hk with h | h
        · exact List.mem_append.2 (Or.inr (List.mem_singleton.2 h))
        · exact List.mem_append.2 (Or.inl h)

theorem sameBoard_refl (g : GameEngine) : sameBoard g g :=
  ⟨rfl, rfl, rfl, rfl, rfl, rfl, rfl⟩

theorem sameBoard_trans (g g1 g2 : GameEngine) (h1 : sameBoard g g1) (h2 : sameBoard g1 g2) :
    sameBoard g g2 := by
  obtain ⟨a1, a2, a3, a4, a5, a6, a7⟩ := h1
  obtain ⟨b1, b2, b3, b4, b5, b6, b7⟩ := h2
  exact ⟨b1.trans a1, b2.trans a2, b3.trans a3, b4.trans a4, b5.trans a5, b6.trans a6,
    b7.trans a7⟩

theorem calculateReachableHexes_sameBoard (g : GameEngine) (u : Nat) (fuel : Nat)
    (g' : GameEngine) (h : calculateReachableHexes g u fuel = some g') : sameBoard g g' := by
  obtain ⟨res, _, rfl⟩ := calculateReachableHexes_eq_some g u fuel g' h
  exact ⟨rfl, rfl, rfl, rfl, rfl, rfl, rfl⟩

theorem calculateAttackableHexes_sameBoard (g : GameEngine) (u : Nat) (fuel : Nat)
    (g' : GameEngine) (h : calculateAttackableHexes g u fuel = some g') : sameBoard g g' := by
  obtain ⟨res, _, _, h1, h2, h3, h4, h5, _, h6, h7, _⟩ :=
    calculateAttackableHexes_eq g u fuel g' h
  exact ⟨h3, h1, h2, h4, h5, h6, h7⟩

theorem selectUnit_sameBoard (g : GameEngine) (x : Option Nat) (fuel : Nat) (g' : GameEngine)
    (h : selectUnit g x fuel = some g') : sameBoard g g' := by
  unfold selectUnit at h
  cases x with
  | none =>
    simp only [Option.some.injEq] at h
    subst h
    exact ⟨rfl, rfl, rfl, rfl, rfl, rfl, rfl⟩
  | some u =>
    simp only at h
    split at h
    · split at h
      · cases h
      · rename_i g2 hg2
        have hb1 : sameBoard g g2 := by
          split at hg2
          · simp only [Option.some.injEq] at hg2
            subst hg2
            exact ⟨rfl, rfl, rfl, rfl, rfl, rfl, rfl⟩
          · have := calculateReachableHexes_sameBoard _ u fuel g2 hg2
            exact ⟨this.1, this.2.1, this.2.2.1, this.2.2.2.1, this.2.2.2.2.1,
              this.2.2.2.2.2.1, this.2.2.2.2.2.2⟩
        split at h
        · simp only [Option.some.injEq] at h
          subst h; exact hb1
        · exact sameBoard_trans _ _ _ hb1 (calculateAttackableHexes_sameBoard g2 u fuel g' h)
    · simp only [Option.some.injEq] at h
      subst h
      exact ⟨rfl, rfl, rfl, rfl, rfl, rfl, rfl⟩

theorem searchMeasure_congr (g g2 : GameEngine) (hhex : g2.hexes = g.hexes) (U : UnitData)
    (st : Search) : searchMeasure g2 U st = searchMeasure g U st := by
  unfold searchMeasure searchDomain
  rw [hhex]

theorem positiveCosts_congr (g g2 : GameEngine) (hhex : g2.hexes = g.hexes)
    (h : positiveCosts g) : positiveCosts g2 := by
  unfold positiveCosts at h ⊢
  rw [hhex]; exact h

theorem calculateReachableHexes_some_of (g g0 : GameEngine) (u : Nat) (hpos : positiveCosts g0)
    (hb : sameBoard g0 g) (fuel : Nat)
    (hfuel : searchMeasure g0 (g0.objects u) (searchInit (g0.objects u)) ≤ fuel) :
    ∃ g', calculateReachableHexes g u fuel = some g' := by
  have hp := positiveCosts_congr g0 g hb.1 hpos
  have hm : searchMeasure g (g.objects u) (searchInit (g.objects u)) ≤ fuel := by
    rw [searchMeasure_congr g0 g hb.1, hb.2.1]; exact hfuel
  obtain ⟨res, _, _, h⟩ := calculateReachableHexes_some g u hp fuel hm
  exact ⟨_, h⟩

theorem calculateAttackableHexes_some_of (g g0 : GameEngine) (u : Nat)
    (hpos : positiveCosts g0) (hb : sameBoard g0 g) (fuel : Nat)
    (hfuel : searchMeasure g0 (g0.objects u) (searchInit (g0.objects u)) ≤ fuel) :
    ∃ g', calculateAttackableHexes g u fuel = some g' := by
  obtain ⟨g1, h1⟩ := calculateReachableHexes_some_of { g with attackableHexes := [] } g0 u hpos
    ⟨hb.1, hb.2.1, hb.2.2.1, hb.2.2.2.1, hb.2.2.2.2.1, hb.2.2.2.2.2.1, hb.2.2.2.2.2.2⟩
    fuel hfuel
  unfold calculateAttackableHexes
  simp only [h1]
  exact ⟨_, rfl⟩

theorem selectUnit_some_of (g g0 : GameEngine) (u : Nat) (hpos : positiveCosts g0)
    (hb : sameBoard g0 g) (fuel : Nat)
    (hfuel : searchMeasure g0 (g0.objects u) (searchInit (g0.objects u)) ≤ fuel) :
    ∃ g', selectUnit g (some u) fuel = some g' := by
  have hb1 : sameBoard g0
      { g with selectedUnit := some u, reachableHexes := [], attackableHexes := [] } :=
    ⟨hb.1, hb.2.1, hb.2.2.1, hb.2.2.2.1, hb.2.2.2.2.1, hb.2.2.2.2.2.1, hb.2.2.2.2.2.2⟩
  unfold selectUnit
  simp only
  split
  · have hstep : ∃ g2, (if (g.objects u).status.moved = true then
          some { g with selectedUnit := some u, reachableHexes := [], attackableHexes := [] }
        else calculateReachableHexes
          { g with selectedUnit := some u, reachableHexes := [], attackableHexes := [] }
          u fuel) = some g2 ∧ sameBoard g0 g2 := by
      split
      · exact ⟨_, rfl, hb1⟩
      · obtain ⟨g2, h2⟩ := calculateReachableHexes_some_of _ g0 u hpos hb1 fuel hfuel
        exact ⟨g2, h2, sameBoard_trans _ _ _ hb1 (calculateReachableHexes_sameBoard _ u fuel g2 h2)⟩
    obtain ⟨g2, h2, hb2⟩ := hstep
    simp only [h2]
    split
    · exact ⟨_, rfl⟩
    · exact calculateAttackableHexes_some_of g2 g0 u hpos hb2 fuel hfuel
  · exact ⟨_, rfl⟩

/-- C14: when `calculateAttackableHexes` finishes for the unit `u` (and it does
for every large enough budget on a map with positive costs), with one unit per
hex, the attackable map has an entry for the coordinate `c` holding the unit
`t` exactly when `t` is a roster unit of the other faction standing on `c` and
`c` is a neighbour of `u`'s own hex or of a hex of `u`'s reachable set (the set
`calculateReachableHexes` computes, left in `reachableHexes`); no coordinate
has two entries, and no unit object (so not `u`'s position) nor the roster is
changed. -/
theorem calculateAttackableHexes_entries (g : GameEngine) (u : Nat) (hnd : oneUnitPerHex g) :
    (∀ fuel g', calculateAttackableHexes g u fuel = some g' →
      (calculateReachableHexes g u fuel).map (fun x => x.reachableHexes) =
        some g'.reachableHexes ∧
      (∀ c t, HexMap.get g'.attackableHexes c = some t ↔
        (t ∈ g.units ∧ (g.objects t).coord = c ∧
          (g.objects t).faction ≠ (g.objects u).faction ∧
          ∃ k, (k = (g.objects u).coord ∨ k ∈ HexMap.keys g'.reachableHexes) ∧
            c ∈ hexNeighbors k)) ∧
      (HexMap.keys g'.attackableHexes).Nodup ∧
      g'.objects = g.objects ∧ g'.units = g.units) ∧
    (positiveCosts g → ∃ fuel0, ∀ fuel, fuel0 ≤ fuel →
      ∃ g', calculateAttackableHexes g u fuel = some g') := by
  refine ⟨?_, ?_⟩
  · intro fuel g' hrun
    obtain ⟨res, hr, h1, h2, h3, _, _, _, _, _, _, h4, h5⟩ :=
      calculateAttackableHexes_eq g u fuel g' hrun
    refine ⟨by simp [calculateReachableHexes, hr, h1], ?_, h5, h2, h3⟩
    intro c t
    rw [h4 c t, getUnitAt_iff g hnd c t]
    constructor
    · rintro ⟨⟨a, b⟩, d, e⟩; exact ⟨a, b, d, e⟩
    · rintro ⟨a, b, d, e⟩; exact ⟨⟨a, b⟩, d, e⟩
  · intro hpos
    exact ⟨_, fun fuel hfuel =>
      calculateAttackableHexes_some_of g g u hpos (sameBoard_refl g) fuel hfuel⟩

/-- C13, the failing inputs: editing `hp` of the blue demo unit (hp 10, maxHp 10)
to -5 leaves its hp at -5, and editing its `maxHp` to -3 leaves hp and maxHp at
-3: `editUnitStat` bounds hp from above only. -/
theorem editUnitStat_negative_hp :
    (demoEngine.objects 0).stats.hp = 10 ∧ (demoEngine.objects 0).stats.maxHp = 10 ∧
    getUnitById demoEngine 0 = some 0 ∧
    ((editUnitStat demoEngine 0 (some StatName.hp) (some (-5))).objects 0).stats.hp = -5 ∧
    ((editUnitStat demoEngine 0 (some StatName.maxHp) (some (-3))).objects 0).stats.hp = -3 := by
  decide

theorem considerHex_foldl (g : GameEngine) (nt : Nat) (l : HexMap Int) :
    ∀ (best : Option Coord × Int) (hex : Coord),
      (l.foldl (considerHex g nt) best).1 = some hex →
      best.1 = some hex ∨ hex ∈ HexMap.keys l := by
  induction l with
  | nil => intro best hex h; exact Or.inl h
  | cons e t ih =>
    intro best hex h
    rcases ih (considerHex g nt best e) hex h with h1 | h1
    · unfold considerHex at h1
      simp only at h1
      split at h1
      · simp only [Option.some.injEq] at h1
        right; simp [HexMap.keys, h1]
      · split at h1
        · simp only [Option.some.injEq] at h1
          right; simp [HexMap.keys, h1]
        · exact Or.inl h1
    · right
      simp only [HexMap.keys, List.map_cons, List.mem_cons]
      exact Or.inr h1

theorem findBestAction_result (s : Sim) (unit : Nat) (targets : List Nat) (fuel : Nat)
    (a : Option Action) (s1 : Sim) (h : findBestAction s unit targets fuel = some (a, s1)) :
    sameBoard s.engine s1.engine ∧
    (∀ w hex, a = some (Action.move w hex) →
      w = unit ∧ ∃ g1, calculateReachableHexes s.engine unit fuel = some g1 ∧
        hex ∈ HexMap.keys g1.reachableHexes) := by
  unfold findBestAction at h
  split at h
  · simp only [Option.some.injEq, Prod.mk.injEq] at h
    obtain ⟨rfl, rfl⟩ := h
    exact ⟨sameBoard_refl _, fun w hex hw => by cases hw⟩
  · simp only at h
    split at h
    · rename_i bestAttack sx heq
      have hsx : sx.engine = s.engine ∧ ∃ t, bestAttack = Action.attack unit t := by
        split at heq
        · cases heq
        · split at heq
          · simp only [Prod.mk.injEq, Option.some.injEq] at heq
            obtain ⟨h1, h2⟩ := heq
            subst h1; subst h2
            exact ⟨rfl, _, rfl⟩
          · cases heq
      obtain ⟨hsx1, t, rfl⟩ := hsx
      split at h
      · simp only [Option.some.injEq, Prod.mk.injEq] at h
        obtain ⟨rfl, rfl⟩ := h
        refine ⟨?_, fun w hex hw => by cases hw⟩
        show sameBoard s.engine sx.engine
        rw [hsx1]; exact sameBoard_refl _
      · simp only [Option.some.injEq, Prod.mk.injEq] at h
        obtain ⟨rfl, rfl⟩ := h
        refine ⟨?_, fun w hex hw => by cases hw⟩
        show sameBoard s.engine sx.engine
        rw [hsx1]; exact sameBoard_refl _
    · rename_i sx heq
      have hsx : sx.engine = s.engine := by
        split at heq
        · simp only [Prod.mk.injEq] at heq
          rw [← heq.2]
        · split at heq
          · cases heq
          · simp only [Prod.mk.injEq] at heq
            rw [← heq.2]; rfl
      split at h
      · simp only [Option.some.injEq, Prod.mk.injEq] at h
        obtain ⟨rfl, rfl⟩ := h
        refine ⟨?_, fun w hex hw => by cases hw⟩
        rw [hsx]; exact sameBoard_refl _
      · split at h
        · simp only [Option.some.injEq, Prod.mk.injEq] at h
          obtain ⟨rfl, rfl⟩ := h
          refine ⟨?_, fun w hex hw => by cases hw⟩
          rw [hsx]; exact sameBoard_refl _
        · rename_i nearestTarget minDistance hnt
          split at h
          · cases h
          · rename_i g1 hg1
            rw [hsx] at hg1
            have hb1 := calculateReachableHexes_sameBoard _ unit fuel g1 hg1
            have hb2 : sameBoard s.engine { g1 with reachableHexes := [] } :=
              ⟨hb1.1, hb1.2.1, hb1.2.2.1, hb1.2.2.2.1, hb1.2.2.2.2.1, hb1.2.2.2.2.2.1,
                hb1.2.2.2.2.2.2⟩
            split at h
            · rename_i bestNextHex hbest
              have hkey : bestNextHex ∈ HexMap.keys g1.reachableHexes := by
                split at hbest
                · rcases considerHex_foldl g1 nearestTarget _ _ _ hbest with h1 | h1
                  · cases h1
                  · exact h1
                · cases hbest
              split at h
              · simp only [Option.some.injEq, Prod.mk.injEq] at h
                obtain ⟨rfl, rfl⟩ := h
                exact ⟨hb2, fun w hex hw => by cases hw⟩
              · simp only [Option.some.injEq, Prod.mk.injEq] at h
                obtain ⟨rfl, rfl⟩ := h
                refine ⟨hb2, ?_⟩
                intro w hex hw
                simp only [Option.some.injEq, Action.move.injEq] at hw
                obtain ⟨rfl, rfl⟩ := hw
                exact ⟨rfl, g1, hg1, hkey⟩
            · simp only [Option.some.injEq, Prod.mk.injEq] at h
              obtain ⟨rfl, rfl⟩ := h
              exact ⟨hb2, fun w hex hw => by cases hw⟩

theorem oneUnitPerHex_of_coords (g g' : GameEngine) (hunits : g'.units = g.units)
    (hcoord : ∀ v ∈ g.units, (g'.objects v).coord = (g.objects v).coord)
    (h : oneUnitPerHex g) : oneUnitPerHex g' := by
  unfold oneUnitPerHex at h ⊢
  rw [hunits]
  have : g.units.map (fun v => (g'.objects v).coord) =
      g.units.map (fun v => (g.objects v).coord) :=
    List.map_congr_left hcoord
  rw [this]; exact h

theorem oneUnitPerHex_filter (g g' : GameEngine) (p : Nat → Bool)
    (hunits : g'.units = g.units.filter p)
    (hcoord : ∀ v ∈ g.units, (g'.objects v).coord = (g.objects v).coord)
    (h : oneUnitPerHex g) : oneUnitPerHex g' := by
  unfold oneUnitPerHex at h ⊢
  rw [hunits]
  have : (g.units.filter p).map (fun v => (g'.objects v).coord) =
      (g.units.filter p).map (fun v => (g.objects v).coord) :=
    List.map_congr_left (fun v hv => hcoord v (List.mem_of_mem_filter hv))
  rw [this]
  exact List.Nodup.sublist (List.Sublist.map _ (List.filter_sublist _)) h

theorem oneUnitPerHex_move (g : GameEngine) (u : Nat) (c : Coord) (h : oneUnitPerHex g)
    (hc : getUnitAt g c.q c.r = none ∨ c = (g.objects u).coord) :
    oneUnitPerHex (moveUnit g u c) := by
  rcases hc with hc | hc
  · have hocc := (getUnitAt_none_iff g c).1 hc
    unfold oneUnitPerHex at h ⊢
    have hnd : g.units.Nodup := List.Nodup.of_map _ h
    have hinj := List.inj_on_of_nodup_map h
    show (g.units.map (fun v => ((moveUnit g u c).objects v).coord)).Nodup
    rw [List.nodup_map_iff_inj_on hnd]
    have hco : ∀ v, ((moveUnit g u c).objects v).coord =
        if v = u then c else (g.objects v).coord := by
      intro v
      by_cases e : v = u
      · subst e; simp [moveUnit, setObject, UnitData.coord]
      · simp [moveUnit, setObject, Function.update_noteq e, e]
    intro x hx y hy hxy
    rw [hco x, hco y] at hxy
    by_cases ex : x = u
    · by_cases ey : y = u
      · rw [ex, ey]
      · simp only [ex, ey, if_true, if_false] at hxy
        exact absurd ⟨y, hy, hxy.symm⟩ hocc
    · by_cases ey : y = u
      · simp only [ex, ey, if_true, if_false] at hxy
        exact absurd ⟨x, hx, hxy⟩ hocc
      · simp only [ex, ey, if_false] at hxy
        exact hinj hx hy hxy
  · refine oneUnitPerHex_of_coords g _ rfl ?_ h
    intro v _
    by_cases e : v = u
    · subst e
      rw [hc]
      simp [moveUnit, setObject, UnitData.coord]
    · simp [moveUnit, setObject, Function.update_noteq e]

theorem setObject_status_coord (g : GameEngine) (u : Nat) (st : Status) (v : Nat) :
    ((setObject g u { g.objects u with status := st }).objects v).coord =
      (g.objects v).coord := by
  by_cases e : v = u
  · subst e; simp [setObject, UnitData.coord]
  · simp [setObject, Function.update_noteq e]

theorem executeAction_move_coords (s : Sim) (unit : Nat) (hex : Coord) (fuel : Nat) (s2 : Sim)
    (h : executeAction s (Action.move unit hex) fuel = some s2) :
    s2.engine.units = s.engine.units ∧
      ∀ v, (s2.engine.objects v).coord = ((moveUnit s.engine unit hex).objects v).coord := by
  unfold executeAction at h
  simp only at h
  split at h
  · cases h
  · rename_i u t s1 hf
    obtain ⟨hb, _⟩ := findBestAction_result _ _ _ _ _ _ hf
    simp only [Option.some.injEq] at h
    subst h
    refine ⟨hb.2.2.1, ?_⟩
    intro v
    show (s1.engine.objects v).coord = _
    rw [hb.2.1]
    exact setObject_status_coord _ _ _ v
  · rename_i a s1 _ hf
    obtain ⟨hb, _⟩ := findBestAction_result _ _ _ _ _ _ hf
    simp only [Option.some.injEq] at h
    subst h
    refine ⟨hb.2.2.1, ?_⟩
    intro v
    simp only
    rw [setObject_status_coord s1.engine unit _ v, hb.2.1]
    exact setObject_status_coord _ _ _ v

theorem calculateReachableHexes_key_free (g : GameEngine) (u : Nat) (fuel : Nat)
    (g1 : GameEngine) (h : calculateReachableHexes g u fuel = some g1) (hex : Coord)
    (hk : hex ∈ HexMap.keys g1.reachableHexes) :
    getUnitAt g hex.q hex.r = none ∨ hex = (g.objects u).coord := by
  obtain ⟨res, hr, rfl⟩ := calculateReachableHexes_eq_some g u fuel g1 h
  obtain ⟨v, hv⟩ := (HexMap.mem_keys_iff _ _).1 hk
  have hinit : ∀ h v, HexMap.get (searchInit (g.objects u)).reachableHexes h = some v →
      h = (g.objects u).coord ∨ getUnitAt g h.q h.r = none := by
    intro h v hv
    simp only [searchInit, HexMap.get_set, HexMap.get] at hv
    by_cases e : (⟨(g.objects u).q, (g.objects u).r⟩ : Coord) = h
    · exact Or.inl e.symm
    · simp [e] at hv
  exact (searchLoop_unoccupied g (g.objects u) fuel _ res hinit hr hex v hv).symm

theorem resolveCombat_of_rejected (g : GameEngine) (a d : Nat) (r1 r2 : ℚ) (fuel : Nat)
    (h : (g.objects a).status.acted = true ∨
      hexDistance (g.objects a).coord (g.objects d).coord > 1) :
    resolveCombat g a d r1 r2 fuel = some g := by
  unfold resolveCombat
  rcases h with h | h
  · simp [h]
  · by_cases ha : (g.objects a).status.acted = true
    · simp [ha]
    · simp [ha, h]

theorem resolveCombat_coords (g : GameEngine) (a d : Nat) (r1 r2 : ℚ) (fuel : Nat)
    (g' : GameEngine) (h : resolveCombat g a d r1 r2 fuel = some g') :
    (∃ p : Nat → Bool, g'.units = g.units.filter p) ∧
      ∀ v, (g'.objects v).coord = (g.objects v).coord := by
  by_cases hrej : (g.objects a).status.acted = true ∨
      hexDistance (g.objects a).coord (g.objects d).coord > 1
  · rw [resolveCombat_of_rejected g a d r1 r2 fuel hrej] at h
    cases h
    exact ⟨⟨fun _ => true, by simp⟩, fun _ => rfl⟩
  · have hacc : (g.objects a).status.acted = false := by
      cases hx : (g.objects a).status.acted
      · rfl
      · exact absurd (Or.inl hx) hrej
    have hdist : hexDistance (g.objects a).coord (g.objects d).coord ≤ 1 := by
      by_contra hx
      exact hrej (Or.inr (by omega))
    obtain ⟨g3, g'', hr, hobj, hunits, _, _, hdead, halive, hmiss⟩ :=
      resolveCombat_accepted g a d r1 r2 fuel hacc hdist
    rw [hr] at h
    cases h
    have hk : (∃ p : Nat → Bool, g3.units = g.units.filter p) ∧
        ∀ v, (g3.objects v).coord = (g.objects v).coord := by
      by_cases hhit : r2 ≤ (calculateCombat g a d r1).hitChance
      · by_cases hd : (g.objects d).stats.hp - (calculateCombat g a d r1).expectedDamage ≤ 0
        · obtain ⟨h1, h2⟩ := hdead hhit hd
          refine ⟨⟨_, h2⟩, ?_⟩
          intro v
          rw [h1]
          by_cases e : v = d
          · subst e; simp [UnitData.coord]
          · simp [Function.update_noteq e]
        · obtain ⟨h1, h2⟩ := halive hhit hd
          refine ⟨⟨fun _ => true, by simp [h2]⟩, ?_⟩
          intro v
          rw [h1]
          by_cases e : v = d
          · subst e; simp [UnitData.coord]
          · simp [Function.update_noteq e]
      · obtain ⟨h1, h2⟩ := hmiss hhit
        exact ⟨⟨fun _ => true, by simp [h2]⟩, fun v => by rw [h1]⟩
    obtain ⟨⟨p, hp⟩, hco⟩ := hk
    refine ⟨⟨p, by rw [hunits, hp]⟩, ?_⟩
    intro v
    rw [hobj, ← hco v]
    by_cases e : v = a
    · subst e; simp [UnitData.coord]
    · simp [Function.update_noteq e]

theorem HexMap.has_iff_mem_keys {α : Type} (m : HexMap α) (c : Coord) :
    HexMap.has m c = true ↔ c ∈ HexMap.keys m := by
  rw [HexMap.mem_keys_iff]
  unfold HexMap.has
  exact Option.isSome_iff_exists

/-- What `onUnitPointerUp` does while the unit `unit` is being dragged. -/
theorem onUnitPointerUp_eq (g : GameEngine) (unit : Nat) (target : Coord) (fuel : Nat)
    (g' : GameEngine) (hdrag : g.isDraggingUnit = true) (hunit : g.draggedUnit = some unit)
    (h : onUnitPointerUp g target fuel = some g') :
    g'.units = g.units ∧ g'.hexes = g.hexes ∧
    ((target ∈ HexMap.keys g.reachableHexes ∧ getUnitAt g target.q target.r = none) →
      g'.objects = Function.update g.objects unit ((g.objects unit).movedTo target)) ∧
    (¬ (target ∈ HexMap.keys g.reachableHexes ∧ getUnitAt g target.q target.r = none) →
      g'.objects = g.objects) := by
  unfold onUnitPointerUp at h
  rw [hdrag, hunit] at h
  simp only at h
  by_cases hacc : HexMap.has g.reachableHexes target = true ∧
      getUnitAt g target.q target.r = none
  · rw [if_pos hacc] at h
    cases hsel : selectUnit (setObject (moveUnit g unit target) unit
        { (moveUnit g unit target).objects unit with
          status := { ((moveUnit g unit target).objects unit).status with moved := true } })
        (some unit) fuel with
    | none => rw [hsel] at h; cases h
    | some g3 =>
      rw [hsel] at h
      simp only [Option.map_some', Option.some.injEq] at h
      subst h
      have hb := selectUnit_sameBoard _ _ _ _ hsel
      refine ⟨hb.2.2.1, hb.1, ?_,
        fun hn => absurd ⟨(HexMap.has_iff_mem_keys _ _).1 hacc.1, hacc.2⟩ hn⟩
      intro _
      show g3.objects = _
      rw [hb.2.1]
      simp [setObject, moveUnit, UnitData.movedTo]
  · rw [if_neg hacc] at h
    simp only [Option.map_some', Option.some.injEq] at h
    subst h
    exact ⟨rfl, rfl,
      fun hy => absurd ⟨(HexMap.has_iff_mem_keys _ _).2 hy.1, hy.2⟩ hacc, fun _ => rfl⟩

theorem onUnitPointerUp_some (g : GameEngine) (unit : Nat) (target : Coord)
    (hdrag : g.isDraggingUnit = true) (hunit : g.draggedUnit = some unit)
    (hpos : positiveCosts g) :
    ∃ fuel0, ∀ fuel, fuel0 ≤ fuel → ∃ g', onUnitPointerUp g target fuel = some g' := by
  refine ⟨searchMeasure g ((g.objects unit).movedTo target)
    (searchInit ((g.objects unit).movedTo target)), ?_⟩
  intro fuel hfuel
  unfold onUnitPointerUp
  rw [hdrag, hunit]
  simp only
  split
  · have hpos2 : positiveCosts (setObject (moveUnit g unit target) unit
        { (moveUnit g unit target).objects unit with
          status := { ((moveUnit g unit target).objects unit).status with moved := true } }) :=
      positiveCosts_congr g _ rfl hpos
    obtain ⟨g3, h3⟩ := selectUnit_some_of _ _ unit hpos2 (sameBoard_refl _) fuel (by
      have e : (setObject (moveUnit g unit target) unit
        { (moveUnit g unit target).objects unit with
          status := { ((moveUnit g unit target).objects unit).status with
            moved := true } }).objects unit = (g.objects unit).movedTo target := by
        simp [setObject, moveUnit, UnitData.movedTo]
      rw [e]
      refine le_trans (le_of_eq (searchMeasure_congr g _ ?_ _ _)) hfuel
      rfl)
    rw [h3]
    exact ⟨_, rfl⟩
  · exact ⟨_, rfl⟩

theorem onUnitPointerDown_reachable (g0 : GameEngine) (unit : Nat) (fuel : Nat)
    (g : GameEngine) (h : onUnitPointerDown g0 unit fuel = some g)
    (hf : (g0.objects unit).faction = g0.currentPlayer)
    (hm : (g0.objects unit).status.moved = false) :
    g.isDraggingUnit = true ∧ g.draggedUnit = some unit ∧
      (calculateReachableHexes g0 unit fuel).map (fun x => x.reachableHexes) =
        some g.reachableHexes := by
  unfold onUnitPointerDown at h
  cases hsel : selectUnit g0 (some unit) fuel with
  | none => rw [hsel] at h; cases h
  | some g1 =>
    rw [hsel] at h
    simp only at h
    have hb := selectUnit_sameBoard _ _ _ _ hsel
    have hc : (g1.objects unit).faction = g1.currentPlayer ∧
        (g1.objects unit).status.moved = false := by
      rw [hb.2.1, hb.2.2.2.2.1]; exact ⟨hf, hm⟩
    rw [if_pos hc] at h
    obtain ⟨res, hr, rfl⟩ := calculateReachableHexes_eq_some _ _ _ _ h
    refine ⟨rfl, rfl, ?_⟩
    have := calculateReachableHexes_congr g0
      { g1 with isDraggingUnit := true, draggedUnit := some unit } hb.1 hb.2.1 hb.2.2.1
      unit fuel
    rw [← this, h]
    rfl

/-- C12: while the unit `unit` is being dragged, `onUnitPointerUp` on the hex
`target` moves it exactly when `target` is a key of `reachableHexes` and no unit
stands on `target`: then the unit's position becomes `target` (a different hex
when the unit is in the roster), `status.moved` becomes true and every other
unit object is unchanged; otherwise no unit object changes at all. The roster is
never changed. On a map with positive costs a result is produced for every
large enough budget, and after the pointer press that started the drag
`reachableHexes` is the set `calculateReachableHexes` computes for that unit. -/
theorem onUnitPointerUp_validated (g : GameEngine) (unit : Nat) (target : Coord)
    (hdrag : g.isDraggingUnit = true) (hunit : g.draggedUnit = some unit) :
    (∀ fuel g', onUnitPointerUp g target fuel = some g' →
      ((target ∈ HexMap.keys g.reachableHexes ∧ getUnitAt g target.q target.r = none) →
        (g'.objects unit).coord = target ∧ (g'.objects unit).status.moved = true ∧
        (unit ∈ g.units → (g.objects unit).coord ≠ target) ∧
        ∀ w, w ≠ unit → g'.objects w = g.objects w) ∧
      (¬ (target ∈ HexMap.keys g.reachableHexes ∧ getUnitAt g target.q target.r = none) →
        g'.objects = g.objects) ∧
      g'.units = g.units) ∧
    (positiveCosts g → ∃ fuel0, ∀ fuel, fuel0 ≤ fuel →
      ∃ g', onUnitPointerUp g target fuel = some g') ∧
    (∀ g0 fuel, onUnitPointerDown g0 unit fuel = some g →
      (g0.objects unit).faction = g0.currentPlayer →
      (g0.objects unit).status.moved = false →
      (calculateReachableHexes g0 unit fuel).map (fun x => x.reachableHexes) =
        some g.reachableHexes) := by
  refine ⟨?_, onUnitPointerUp_some g unit target hdrag hunit, ?_⟩
  · intro fuel g' h
    obtain ⟨h1, _, h3, h4⟩ := onUnitPointerUp_eq g unit target fuel g' hdrag hunit h
    refine ⟨?_, h4, h1⟩
    intro hacc
    rw [h3 hacc]
    refine ⟨by simp [UnitData.coord, UnitData.movedTo], by simp [UnitData.movedTo], ?_, ?_⟩
    · intro hin hco
      exact (getUnitAt_none_iff g target).1 hacc.2 ⟨unit, hin, hco⟩
    · intro w hw
      simp [Function.update_noteq hw]
  · intro g0 fuel h hf hm
    exact (onUnitPointerDown_reachable g0 unit fuel g h hf hm).2.2

/-- C11: if no two units of the roster share a hex, none do after a player move
committed by `onUnitPointerUp`, after an AI MOVE chosen by `findBestAction` and
executed by `executeAction`, after `resolveCombat`, after a wait (from the menu
or by the AI), or after `endTurn`. -/
theorem oneUnitPerHex_preserved (g : GameEngine) (hnd : oneUnitPerHex g) :
    (∀ target fuel g', onUnitPointerUp g target fuel = some g' → oneUnitPerHex g') ∧
    (∀ (s : Sim) unit targets fuel w hex s1 s2, s.engine = g →
      findBestAction s unit targets fuel = some (some (Action.move w hex), s1) →
      executeAction s1 (Action.move w hex) fuel = some s2 → oneUnitPerHex s2.engine) ∧
    (∀ a d r1 r2 fuel g', resolveCombat g a d r1 r2 fuel = some g' → oneUnitPerHex g') ∧
    (∀ m, oneUnitPerHex (menuWait g m)) ∧
    (∀ (s : Sim) unit fuel s2, s.engine = g →
      executeAction s (Action.wait unit) fuel = some s2 → oneUnitPerHex s2.engine) ∧
    (∀ fuel g', endTurn g fuel = some g' → oneUnitPerHex g') := by
  refine ⟨?_, ?_, ?_, ?_, ?_, ?_⟩
  · intro target fuel g' h
    cases hd : g.isDraggingUnit with
    | false =>
      unfold onUnitPointerUp at h
      rw [hd] at h
      simp only [Option.some.injEq] at h
      subst h
      exact hnd
    | true =>
      cases hu : g.draggedUnit with
      | none =>
        unfold onUnitPointerUp at h
        rw [hd, hu] at h
        simp only [Option.some.injEq] at h
        subst h
        exact hnd
      | some unit =>
        obtain ⟨h1, _, h3, h4⟩ := onUnitPointerUp_eq g unit target fuel g' hd hu h
        by_cases hacc : target ∈ HexMap.keys g.reachableHexes ∧
            getUnitAt g target.q target.r = none
        · have hmv := oneUnitPerHex_move g unit target hnd (Or.inl hacc.2)
          refine oneUnitPerHex_of_coords (moveUnit g unit target) g' h1 ?_ hmv
          intro v _
          rw [h3 hacc]
          by_cases e : v = unit
          · subst e; simp [moveUnit, setObject, UnitData.coord, UnitData.movedTo]
          · simp [moveUnit, setObject, Function.update_noteq e]
        · exact oneUnitPerHex_of_coords g g' h1 (fun v _ => by rw [h4 hacc]) hnd
  · intro s unit targets fuel w hex s1 s2 hs hf hx
    subst hs
    obtain ⟨hb, hmove⟩ := findBestAction_result s unit targets fuel _ s1 hf
    obtain ⟨rfl, g1, hg1, hkey⟩ := hmove w hex rfl
    have hfree := calculateReachableHexes_key_free s.engine w fuel g1 hg1 hex hkey
    obtain ⟨hu, hco⟩ := executeAction_move_coords s1 w hex fuel s2 hx
    have hnd1 : oneUnitPerHex s1.engine :=
      oneUnitPerHex_of_coords s.engine s1.engine hb.2.2.1 (fun v _ => by rw [hb.2.1]) hnd
    have hfree1 : getUnitAt s1.engine hex.q hex.r = none ∨ hex = (s1.engine.objects w).coord := by
      unfold getUnitAt at hfree ⊢
      rw [hb.2.1, hb.2.2.1]
      exact hfree
    have hmv := oneUnitPerHex_move s1.engine w hex hnd1 hfree1
    exact oneUnitPerHex_of_coords (moveUnit s1.engine w hex) s2.engine hu
      (fun v _ => hco v) hmv
  · intro a d r1 r2 fuel g' h
    obtain ⟨⟨p, hp⟩, hco⟩ := resolveCombat_coords g a d r1 r2 fuel g' h
    exact oneUnitPerHex_filter g g' p hp (fun v _ => hco v) hnd
  · intro m
    unfold menuWait
    split
    · exact oneUnitPerHex_of_coords g _ rfl
        (fun v _ => setObject_status_coord g m.contextUnit _ v) hnd
    · exact hnd
  · intro s unit fuel s2 hs h
    subst hs
    unfold executeAction at h
    simp only [Option.some.injEq] at h
    subst h
    exact oneUnitPerHex_of_coords s.engine _ rfl
      (fun v _ => setObject_status_coord s.engine unit _ v) hnd
  · intro fuel g' h
    cases hd : g.isDraggingUnit with
    | true =>
      unfold endTurn at h
      rw [hd] at h
      simp only [if_true, Option.some.injEq] at h
      subst h; exact hnd
    | false =>
      obtain ⟨g'', h1, hobj, hunits, _⟩ := endTurn_eq g fuel hd
      rw [h1] at h
      cases h
      refine oneUnitPerHex_of_coords g _ hunits ?_ hnd
      intro v _
      rw [hobj, resetStatuses_objects]
      split <;> rfl

/-- Witness for C11 on the demo engine. -/
theorem oneUnitPerHex_preserved_witness :
    oneUnitPerHex demoEngine ∧
    ((∀ target fuel g', onUnitPointerUp demoEngine target fuel = some g' → oneUnitPerHex g') ∧
    (∀ (s : Sim) unit targets fuel w hex s1 s2, s.engine = demoEngine →
      findBestAction s unit targets fuel = some (some (Action.move w hex), s1) →
      executeAction s1 (Action.move w hex) fuel = some s2 → oneUnitPerHex s2.engine) ∧
    (∀ a d r1 r2 fuel g', resolveCombat demoEngine a d r1 r2 fuel = some g' →
      oneUnitPerHex g') ∧
    (∀ m, oneUnitPerHex (menuWait demoEngine m)) ∧
    (∀ (s : Sim) unit fuel s2, s.engine = demoEngine →
      executeAction s (Action.wait unit) fuel = some s2 → oneUnitPerHex s2.engine) ∧
    (∀ fuel g', endTurn demoEngine fuel = some g' → oneUnitPerHex g')) :=
  ⟨by decide, oneUnitPerHex_preserved demoEngine (by decide)⟩

/-- Witness for C12: the blue unit of `dragReadyEngine` dropped on `(1, 0)`. -/
theorem onUnitPointerUp_validated_witness :
    dragReadyEngine.isDraggingUnit = true ∧ dragReadyEngine.draggedUnit = some 0 ∧
    ((∀ fuel g', onUnitPointerUp dragReadyEngine ⟨1, 0⟩ fuel = some g' →
      (((⟨1, 0⟩ : Coord) ∈ HexMap.keys dragReadyEngine.reachableHexes ∧
          getUnitAt dragReadyEngine (⟨1, 0⟩ : Coord).q (⟨1, 0⟩ : Coord).r = none) →
        (g'.objects 0).coord = ⟨1, 0⟩ ∧ (g'.objects 0).status.moved = true ∧
        (0 ∈ dragReadyEngine.units → (dragReadyEngine.objects 0).coord ≠ ⟨1, 0⟩) ∧
        ∀ w, w ≠ 0 → g'.objects w = dragReadyEngine.objects w) ∧
      (¬ ((⟨1, 0⟩ : Coord) ∈ HexMap.keys dragReadyEngine.reachableHexes ∧
          getUnitAt dragReadyEngine (⟨1, 0⟩ : Coord).q (⟨1, 0⟩ : Coord).r = none) →
        g'.objects = dragReadyEngine.objects) ∧
      g'.units = dragReadyEngine.units) ∧
    (positiveCosts dragReadyEngine → ∃ fuel0, ∀ fuel, fuel0 ≤ fuel →
      ∃ g', onUnitPointerUp dragReadyEngine ⟨1, 0⟩ fuel = some g') ∧
    (∀ g0 fuel, onUnitPointerDown g0 0 fuel = some dragReadyEngine →
      (g0.objects 0).faction = g0.currentPlayer →
      (g0.objects 0).status.moved = false →
      (calculateReachableHexes g0 0 fuel).map (fun x => x.reachableHexes) =
        some dragReadyEngine.reachableHexes)) :=
  ⟨rfl, rfl, onUnitPointerUp_validated dragReadyEngine 0 ⟨1, 0⟩ rfl rfl⟩

/-- Witness for C14 on the demo engine. -/
theorem calculateAttackableHexes_entries_witness :
    oneUnitPerHex demoEngine ∧
    ((∀ fuel g', calculateAttackableHexes demoEngine 0 fuel = some g' →
      (calculateReachableHexes demoEngine 0 fuel).map (fun x => x.reachableHexes) =
        some g'.reachableHexes ∧
      (∀ c t, HexMap.get g'.attackableHexes c = some t ↔
        (t ∈ demoEngine.units ∧ (demoEngine.objects t).coord = c ∧
          (demoEngine.objects t).faction ≠ (demoEngine.objects 0).faction ∧
          ∃ k, (k = (demoEngine.objects 0).coord ∨ k ∈ HexMap.keys g'.reachableHexes) ∧
            c ∈ hexNeighbors k)) ∧
      (HexMap.keys g'.attackableHexes).Nodup ∧
      g'.objects = demoEngine.objects ∧ g'.units = demoEngine.units) ∧
    (positiveCosts demoEngine → ∃ fuel0, ∀ fuel, fuel0 ≤ fuel →
      ∃ g', calculateAttackableHexes demoEngine 0 fuel = some g')) :=
  ⟨by decide, calculateAttackableHexes_entries demoEngine 0 (by decide)⟩

/-- Witness for C15 on the demo engine. -/
theorem calculateReachableHexes_count_witness :
    unitCosts demoEngine ∧ oneUnitPerHex demoEngine ∧
    ∃ fuel0, ∀ fuel, fuel0 ≤ fuel →
      ∃ g', calculateReachableHexes demoEngine 0 fuel = some g' ∧
        (∀ S : Finset Coord,
          (∀ h, h ∈ S ↔ (h = (demoEngine.objects 0).coord ∨
            (onMap demoEngine h ∧ ¬ occupied demoEngine h ∧
            ∃ p, legalPath demoEngine (demoEngine.objects 0).faction
                (demoEngine.objects 0).coord p ∧
              p.getLastD (demoEngine.objects 0).coord = h ∧
              (p.length : Int) ≤ (demoEngine.objects 0).stats.mov))) →
          (HexMap.keys g'.reachableHexes).length = S.card) ∧
        ((∀ h, h ≠ (demoEngine.objects 0).coord →
            hexDistance (demoEngine.objects 0).coord h ≤ (demoEngine.objects 0).stats.mov →
            onMap demoEngine h ∧ ¬ enemyOccupied demoEngine (demoEngine.objects 0).faction h) →
          ∀ S : Finset Coord,
            (∀ h, h ∈ S ↔ (h = (demoEngine.objects 0).coord ∨
              (onMap demoEngine h ∧ ¬ occupied demoEngine h ∧
              hexDistance (demoEngine.objects 0).coord h ≤
                (demoEngine.objects 0).stats.mov))) →
            (HexMap.keys g'.reachableHexes).length = S.card) :=
  ⟨by decide, by decide, calculateReachableHexes_count demoEngine 0 (by decide) (by decide)⟩

/-- Witness for C16: the red demo unit added to the roster of `soloEngine`. -/
theorem calculateReachableHexes_extra_enemy_witness :
    positiveCosts soloEngine ∧ oneUnitPerHex soloEngine ∧ oneUnitPerHex demoEngine ∧
    ∃ fuel0, ∀ fuel, fuel0 ≤ fuel →
      ∃ g' g2', calculateReachableHexes soloEngine 0 fuel = some g' ∧
        calculateReachableHexes demoEngine 0 fuel = some g2' ∧
        ∀ h c2, HexMap.get g2'.reachableHexes h = some c2 →
          ∃ c, HexMap.get g'.reachableHexes h = some c ∧ c ≤ c2 :=
  ⟨by decide, by decide, by decide,
    calculateReachableHexes_extra_enemy soloEngine demoEngine 0 1 rfl rfl
      (fun v => by simp [soloEngine, demoEngine]) (by decide) (by decide) (by decide)⟩

/-- Witness for C17 on the demo engine. -/
theorem calculateReachableHexes_terminates_witness :
    positiveCosts demoEngine ∧
    ∃ fuel0, ∀ fuel, fuel0 ≤ fuel → ∃ g', calculateReachableHexes demoEngine 0 fuel = some g' :=
  ⟨by decide, calculateReachableHexes_terminates demoEngine 0 (by decide)⟩

/-- Witness for C18: the blue unit of `pinnedEngine`, whose `mov` is 0. -/
theorem calculateReachableHexes_mov_zero_witness :
    positiveCosts pinnedEngine ∧ (pinnedEngine.objects 0).stats.mov = 0 ∧
    ∀ fuel, 1 ≤ fuel → ∃ g', calculateReachableHexes pinnedEngine 0 fuel = some g' ∧
      g'.reachableHexes = [((pinnedEngine.objects 0).coord, 0)] :=
  ⟨by decide, by decide, calculateReachableHexes_mov_zero pinnedEngine 0 (by decide) (by decide)⟩

/-- Witness for C19 on the demo engine with a budget of 100 iterations. -/
theorem calculateReachableHexes_excludes_unusable_witness :
    ∃ g', calculateReachableHexes demoEngine 0 100 = some g' ∧
      (∀ h ∈ HexMap.keys g'.reachableHexes, h ≠ (demoEngine.objects 0).coord →
        onMap demoEngine h) ∧
      (positiveCosts demoEngine → (demoEngine.objects 0).stats.mov < 99 →
        ∀ h ∈ HexMap.keys g'.reachableHexes, h ≠ (demoEngine.objects 0).coord →
          ∀ cell, getHexAt demoEngine h.q h.r = some cell → ¬ sentinelCost cell) :=
  ⟨_, rfl, calculateReachableHexes_excludes_unusable demoEngine 0 100 _ rfl⟩

theorem mem_hexNeighbors_of_distance (h n : Coord) (hd : hexDistance h n = 1) :
    n ∈ hexNeighbors h := by
  cases h with
  | mk q r =>
  cases n with
  | mk a b =>
  unfold hexDistance at hd
  simp only [abs_eq_max_neg] at hd
  simp only [hexNeighbors, List.map_cons, List.map_nil, List.mem_cons, List.mem_nil_iff,
    or_false, Coord.mk.injEq]
  omega

theorem hexNeighbors_nodup (h : Coord) : (hexNeighbors h).Nodup := by
  cases h with
  | mk q r =>
  simp only [hexNeighbors, List.map_cons, List.map_nil, List.nodup_cons, List.mem_cons,
    List.mem_nil_iff, or_false, Coord.mk.injEq, List.not_mem_nil, not_false_eq_true,
    List.nodup_nil, and_true, not_or]
  omega

/-- C21: for every integer hex `h`, `hexNeighbors h` lists six pairwise distinct
coordinates, each at `hexDistance` exactly 1 from `h`, and every integer hex at
`hexDistance` 1 from `h` is among them. -/
theorem hexNeighbors_adjacent (h : Coord) :
    (hexNeighbors h).length = 6 ∧ (hexNeighbors h).Nodup ∧
    (∀ n ∈ hexNeighbors h, hexDistance h n = 1) ∧
    (∀ n : Coord, hexDistance h n = 1 → n ∈ hexNeighbors h) :=
  ⟨rfl, hexNeighbors_nodup h, fun n hn => hexDistance_neighbor h n hn,
    fun n hn => mem_hexNeighbors_of_distance h n hn⟩

theorem screenTurn_neighbors (G : HexGrid) (h a b : Coord) :
    screenTurn (hexCenter G h) (hexCenter G a) (hexCenter G b) =
      G.hexSize ^ 2 * G.sqrt3 * (3 / 2) *
        (((a.q - h.q : Int) : ℚ) * ((b.r - h.r : Int) : ℚ) -
          ((b.q - h.q : Int) : ℚ) * ((a.r - h.r : Int) : ℚ)) := by
  unfold screenTurn hexCenter axialToPixel
  simp only
  push_cast
  ring

/-- C22 (amended): for every hex `h` the six coordinates of `hexNeighbors h` are
listed in counter-clockwise order around `h` on the screen: each one is adjacent
to the next one (cyclically), and under `axialToPixel` (`y` growing downward,
`hexSize` and the square root constant positive) the turn at `h` from each
neighbour to the next one is counter-clockwise; the order is the same for every
`h`, the list being that of the hex `(0, 0)` shifted by `h`. -/
theorem hexNeighbors_counterclockwise (G : HexGrid) (hsize : 0 < G.hexSize)
    (hsqrt : 0 < G.sqrt3) (h : Coord) :
    (∀ i, i < 6 → ∀ a b, (hexNeighbors h)[i]? = some a →
      (hexNeighbors h)[(i + 1) % 6]? = some b →
      hexDistance a b = 1 ∧
        screenTurn (hexCenter G h) (hexCenter G a) (hexCenter G b) < 0) ∧
    hexNeighbors h =
      (hexNeighbors ⟨0, 0⟩).map (fun d => (⟨h.q + d.q, h.r + d.r⟩ : Coord)) := by
  have hpos : 0 < G.hexSize ^ 2 * G.sqrt3 * (3 / 2) := by positivity
  constructor
  · intro i hi a b ha hb
    have key : ∀ x : ℚ, x < 0 → G.hexSize ^ 2 * G.sqrt3 * (3 / 2) * x < 0 :=
      fun x hx => mul_neg_of_pos_of_neg hpos hx
    cases h with
    | mk q r =>
    rw [screenTurn_neighbors]
    unfold hexDistance
    simp only [abs_eq_max_neg]
    interval_cases i <;>
      simp only [hexNeighbors, List.map_cons, List.map_nil, List.getElem?_cons_zero,
        List.getElem?_cons_succ, Option.some.injEq, Nat.reduceAdd, Nat.reduceMod] at ha hb <;>
      subst ha <;> subst hb <;> simp only <;>
      refine ⟨by omega, key _ ?_⟩ <;>
      · ring_nf
        norm_num
  · simp [hexNeighbors]

/-- C22, counterexample: on the grid of the fallback data, the turn at the hex
`(0, 0)` from its first listed neighbour `(1, 0)` to the second one `(1, -1)` has
a negative cross product in screen coordinates: it is counter-clockwise, not
clockwise. -/
theorem hexNeighbors_first_turn :
    (hexNeighbors ⟨0, 0⟩)[0]? = some ⟨1, 0⟩ ∧ (hexNeighbors ⟨0, 0⟩)[1]? = some ⟨1, -1⟩ ∧
    hexCenter demoGrid ⟨1, 0⟩ - hexCenter demoGrid ⟨0, 0⟩ = (60, 34.641016151377544) ∧
    hexCenter demoGrid ⟨1, -1⟩ - hexCenter demoGrid ⟨0, 0⟩ = (60, -34.641016151377544) ∧
    screenTurn (hexCenter demoGrid ⟨0, 0⟩) (hexCenter demoGrid ⟨1, 0⟩)
      (hexCenter demoGrid ⟨1, -1⟩) < 0 := by
  decide!

/-- Witness for C22 (amended) on the grid of the fallback data. -/
theorem hexNeighbors_counterclockwise_witness :
    0 < demoGrid.hexSize ∧ 0 < demoGrid.sqrt3 ∧
    ((∀ i, i < 6 → ∀ a b, (hexNeighbors ⟨1, 1⟩)[i]? = some a →
      (hexNeighbors ⟨1, 1⟩)[(i + 1) % 6]? = some b →
      hexDistance a b = 1 ∧
        screenTurn (hexCenter demoGrid ⟨1, 1⟩) (hexCenter demoGrid a)
          (hexCenter demoGrid b) < 0) ∧
    hexNeighbors ⟨1, 1⟩ =
      (hexNeighbors ⟨0, 0⟩).map (fun d => (⟨(⟨1, 1⟩ : Coord).q + d.q,
        (⟨1, 1⟩ : Coord).r + d.r⟩ : Coord))) :=
  ⟨by decide!, by decide!, hexNeighbors_counterclockwise demoGrid (by decide!) (by decide!) ⟨1, 1⟩⟩

theorem mathRound_intCast (n : Int) : mathRound (n : ℚ) = n := by
  unfold mathRound
  rw [Int.floor_eq_iff]
  constructor
  · linarith
  · linarith

theorem mathRound_bounds (x : ℚ) :
    -(1 / 2) < (mathRound x : ℚ) - x ∧ (mathRound x : ℚ) - x ≤ 1 / 2 := by
  unfold mathRound
  have h1 := Int.floor_le (x + 1 / 2)
  have h2 := Int.lt_floor_add_one (x + 1 / 2)
  constructor <;> linarith

theorem axialRound_int (f : FracCoord) : ∃ q r : Int, axialRound f = ⟨q, r⟩ := by
  unfold axialRound
  simp only
  split
  · exact ⟨-mathRound f.r - mathRound (-f.q - f.r), mathRound f.r, by push_cast; rfl⟩
  · split
    · exact ⟨mathRound f.q, -mathRound f.q - mathRound (-f.q - f.r), by push_cast; rfl⟩
    · exact ⟨mathRound f.q, mathRound f.r, rfl⟩

/-- C23: `axialRound` is the identity on integer inputs, and for every
fractional input the `q` and `r` it returns are integers (so that the cube
triple `(q, r, -q - r)` is an integer triple of sum 0). -/
theorem axialRound_integer :
    (∀ q r : Int, axialRound ⟨q, r⟩ = ⟨q, r⟩) ∧
    (∀ f : FracCoord, ∃ q r : Int, axialRound f = ⟨q, r⟩ ∧
      (q : ℚ) + (r : ℚ) + ((-q - r : Int) : ℚ) = 0) := by
  constructor
  · intro q r
    have h3 : (-(q : ℚ) - (r : ℚ)) = ((-q - r : Int) : ℚ) := by push_cast; ring
    unfold axialRound
    simp only
    rw [h3, mathRound_intCast, mathRound_intCast, mathRound_intCast]
    simp
  · intro f
    obtain ⟨q, r, h⟩ := axialRound_int f
    exact ⟨q, r, h, by push_cast; ring⟩

theorem int_abs_le_sq (x : Int) : |x| ≤ x ^ 2 := by
  rcases abs_cases x with ⟨e, h⟩ | ⟨e, h⟩
  · rw [e]; nlinarith
  · rw [e]; nlinarith

/-- The quadratic form of the hex lattice dominates the three linear forms on
integer differences. -/
theorem int_hexNorm_bounds (a b : Int) :
    |a| ≤ a ^ 2 + a * b + b ^ 2 ∧ |b| ≤ a ^ 2 + a * b + b ^ 2 ∧
      |a + b| ≤ a ^ 2 + a * b + b ^ 2 := by
  have h1 := int_abs_le_sq a
  have h2 := int_abs_le_sq b
  have h3 := int_abs_le_sq (a + b)
  have a1 := le_abs_self a
  have a2 := neg_abs_le a
  have b1 := le_abs_self b
  have b2 := neg_abs_le b
  have c1 := le_abs_self (a + b)
  have c2 := neg_abs_le (a + b)
  refine ⟨?_, ?_, ?_⟩
  · rcases abs_cases a with ⟨e, _⟩ | ⟨e, _⟩ <;> rw [e] <;> linarith
  · rcases abs_cases b with ⟨e, _⟩ | ⟨e, _⟩ <;> rw [e] <;> linarith
  · rcases abs_cases (a + b) with ⟨e, _⟩ | ⟨e, _⟩ <;> rw [e] <;> linarith

theorem hexagon_form_nonneg (u v : ℚ) (a b : Int) (hu : |u| ≤ 1) (hv : |v| ≤ 1)
    (huv : |u - v| ≤ 1) :
    0 ≤ (a : ℚ) ^ 2 + a * b + (b : ℚ) ^ 2 + u * a + v * b := by
  obtain ⟨h1, h2, h3⟩ := int_hexNorm_bounds a b
  have k1 : |(a : ℚ)| ≤ (a : ℚ) ^ 2 + a * b + (b : ℚ) ^ 2 := by exact_mod_cast h1
  have k2 : |(b : ℚ)| ≤ (a : ℚ) ^ 2 + a * b + (b : ℚ) ^ 2 := by exact_mod_cast h2
  have k3 : |(a : ℚ) + b| ≤ (a : ℚ) ^ 2 + a * b + (b : ℚ) ^ 2 := by exact_mod_cast h3
  rw [abs_le] at hu hv huv
  obtain ⟨hu1, hu2⟩ := hu
  obtain ⟨hv1, hv2⟩ := hv
  obtain ⟨huv1, huv2⟩ := huv
  generalize (a : ℚ) = A at k1 k2 k3 ⊢
  generalize (b : ℚ) = B at k1 k2 k3 ⊢
  have a1 := le_abs_self A
  have a2 := neg_abs_le A
  have b1 := le_abs_self B
  have b2 := neg_abs_le B
  have c1 := le_abs_self (A + B)
  have c2 := neg_abs_le (A + B)
  rcases le_total 0 A with hA | hA <;> rcases le_total 0 B with hB | hB
  · linarith [mul_nonneg (sub_nonneg.2 hu1) hA, mul_nonneg (sub_nonneg.2 hv1) hB]
  · rcases le_total 0 (A + B) with hC | hC
    · linarith [mul_nonneg (sub_nonneg.2 hu1) hC,
        mul_nonneg (sub_nonneg.2 huv1) (neg_nonneg.2 hB)]
    · linarith [mul_nonneg (sub_nonneg.2 huv1) hA,
        mul_nonneg (sub_nonneg.2 hv2) (neg_nonneg.2 hC)]
  · rcases le_total 0 (A + B) with hC | hC
    · linarith [mul_nonneg (sub_nonneg.2 hv1) hC,
        mul_nonneg (sub_nonneg.2 huv2) (neg_nonneg.2 hA)]
    · linarith [mul_nonneg (sub_nonneg.2 huv2) hB,
        mul_nonneg (sub_nonneg.2 hu2) (neg_nonneg.2 hC)]
  · linarith [mul_nonneg (sub_nonneg.2 hu2) (neg_nonneg.2 hA),
      mul_nonneg (sub_nonneg.2 hv2) (neg_nonneg.2 hB)]

theorem axialRound_error (f : FracCoord) :
    |2 * ((axialRound f).q - f.q) + ((axialRound f).r - f.r)| ≤ 1 ∧
    |((axialRound f).q - f.q) + 2 * ((axialRound f).r - f.r)| ≤ 1 ∧
    |((axialRound f).q - f.q) - ((axialRound f).r - f.r)| ≤ 1 := by
  obtain ⟨hq1, hq2⟩ := mathRound_bounds f.q
  obtain ⟨hr1, hr2⟩ := mathRound_bounds f.r
  obtain ⟨hs1, hs2⟩ := mathRound_bounds (-f.q - f.r)
  have hσ : mathRound f.q + mathRound f.r + mathRound (-f.q - f.r) = -1 ∨
      mathRound f.q + mathRound f.r + mathRound (-f.q - f.r) = 0 ∨
      mathRound f.q + mathRound f.r + mathRound (-f.q - f.r) = 1 := by
    have h1 : ((-2 : Int) : ℚ) <
        ((mathRound f.q + mathRound f.r + mathRound (-f.q - f.r) : Int) : ℚ) := by
      push_cast; linarith
    have h2 : ((mathRound f.q + mathRound f.r + mathRound (-f.q - f.r) : Int) : ℚ) <
        ((2 : Int) : ℚ) := by
      push_cast; linarith
    have h1' := Int.cast_lt.1 h1
    have h2' := Int.cast_lt.1 h2
    omega
  have hσ' : (mathRound f.q : ℚ) + mathRound f.r + mathRound (-f.q - f.r) = -1 ∨
      (mathRound f.q : ℚ) + mathRound f.r + mathRound (-f.q - f.r) = 0 ∨
      (mathRound f.q : ℚ) + mathRound f.r + mathRound (-f.q - f.r) = 1 := by
    rcases hσ with h | h | h
    · left; exact_mod_cast h
    · right; left; exact_mod_cast h
    · right; right; exact_mod_cast h
  unfold axialRound
  simp only
  generalize (mathRound f.q : ℚ) = a at hq1 hq2 hσ' ⊢
  generalize (mathRound f.r : ℚ) = b at hr1 hr2 hσ' ⊢
  generalize (mathRound (-f.q - f.r) : ℚ) = c at hs1 hs2 hσ' ⊢
  have ha := abs_le.2 ⟨le_of_lt hq1, hq2⟩
  have hb := abs_le.2 ⟨le_of_lt hr1, hr2⟩
  have hc := abs_le.2 ⟨le_of_lt hs1, hs2⟩
  have habs : (a + b + c = 0) ∨
      (|a - f.q| = a - f.q ∧ |b - f.r| = b - f.r ∧
        |c - (-f.q - f.r)| = c - (-f.q - f.r) ∧ a + b + c = 1) ∨
      (|a - f.q| = -(a - f.q) ∧ |b - f.r| = -(b - f.r) ∧
        |c - (-f.q - f.r)| = -(c - (-f.q - f.r)) ∧ a + b + c = -1) := by
    rcases hσ' with h | h | h
    · right; right
      exact ⟨abs_of_nonpos (by linarith), abs_of_nonpos (by linarith),
        abs_of_nonpos (by linarith), h⟩
    · left; exact h
    · right; left
      exact ⟨abs_of_nonneg (by linarith), abs_of_nonneg (by linarith),
        abs_of_nonneg (by linarith), h⟩
  split
  · rename_i hbr
    obtain ⟨hbr1, hbr2⟩ := hbr
    simp only [abs_le]
    rcases habs with h | ⟨e1, e2, e3, h⟩ | ⟨e1, e2, e3, h⟩ <;>
    refine ⟨⟨?_, ?_⟩, ⟨?_, ?_⟩, ⟨?_, ?_⟩⟩ <;> linarith
  · rename_i hbr
    split
    · rename_i hbr2
      have hbr' : |a - f.q| ≤ |b - f.r| := by
        rcases not_and_or.1 hbr with h | h
        · exact not_lt.1 h
        · exact le_trans (not_lt.1 h) (le_of_lt hbr2)
      simp only [abs_le]
      rcases habs with h | ⟨e1, e2, e3, h⟩ | ⟨e1, e2, e3, h⟩ <;>
      refine ⟨⟨?_, ?_⟩, ⟨?_, ?_⟩, ⟨?_, ?_⟩⟩ <;> linarith
    · rename_i hbr2
      have hbr2' := not_lt.1 hbr2
      have hbr' : |a - f.q| ≤ |c - (-f.q - f.r)| := by
        rcases not_and_or.1 hbr with h | h
        · exact le_trans (not_lt.1 h) hbr2'
        · exact not_lt.1 h
      simp only [abs_le]
      rcases habs with h | ⟨e1, e2, e3, h⟩ | ⟨e1, e2, e3, h⟩ <;>
      refine ⟨⟨?_, ?_⟩, ⟨?_, ?_⟩, ⟨?_, ?_⟩⟩ <;> linarith

/-- C24: for every rational axial coordinate the hex returned by `axialRound` is
a nearest hex: no integer hex `(a, b)` is strictly closer to the point than the
returned one, in the form `dq ^ 2 + dq * dr + dr ^ 2` on the coordinate
differences (the squared pixel distance up to the factor `3 * hexSize ^ 2`). -/
theorem axialRound_nearest (f : FracCoord) (a b : Int) :
    hexNorm ((axialRound f).q - f.q) ((axialRound f).r - f.r) ≤
      hexNorm ((a : ℚ) - f.q) ((b : ℚ) - f.r) := by
  obtain ⟨q, r, hres⟩ := axialRound_int f
  obtain ⟨h1, h2, h3⟩ := axialRound_error f
  rw [hres] at h1 h2 h3 ⊢
  simp only at h1 h2 h3 ⊢
  have huv : |(2 * ((q : ℚ) - f.q) + ((r : ℚ) - f.r)) -
      (((q : ℚ) - f.q) + 2 * ((r : ℚ) - f.r))| ≤ 1 := by
    have e : (2 * ((q : ℚ) - f.q) + ((r : ℚ) - f.r)) -
        (((q : ℚ) - f.q) + 2 * ((r : ℚ) - f.r)) = ((q : ℚ) - f.q) - ((r : ℚ) - f.r) := by ring
    rw [e]; exact h3
  have key := hexagon_form_nonneg _ _ (a - q) (b - r) h1 h2 huv
  unfold hexNorm
  push_cast at key
  linarith [key]

theorem mathRound_randomFactor (rand : ℚ) (h0 : 0 ≤ rand) (h1 : rand < 1) :
    mathRound (((1 : Int) : ℚ) * (0.85 + rand * 0.30)) = 1 := by
  unfold mathRound
  rw [Int.floor_eq_iff]
  constructor
  · push_cast; norm_num; linarith
  · push_cast; norm_num; linarith

theorem calculateCombat_minimal (g : GameEngine) (attacker defender : Nat) (rand : ℚ)
    (h0 : 0 ≤ rand) (h1 : rand < 1)
    (hlow : (g.objects attacker).stats.atk - ((g.objects defender).stats.def_ +
      (calculateCombat g attacker defender rand).defenderTerrainBonus) ≤ 1) :
    (calculateCombat g attacker defender rand).expectedDamage = 1 := by
  simp only [calculateCombat] at hlow ⊢
  rw [mul_one, mul_one, max_eq_left hlow]
  exact mathRound_randomFactor rand h0 h1

/-- C25: in the scenario of unit A (atk 5, def 3, mov 4, sight 3, morale 80,
hp 10) at `(0, 0)` attacking the adjacent unit B (def 4, sight 5, morale 80,
hp 20) at `(1, 0)` on terrain of bonus 0, `calculateCombat` returns `hitChance`
0.10 and, for every value of `Math.random()` in `[0, 1)` (random factor in
`[0.85, 1.15)`), `expectedDamage` 1; and in every state, whenever
`atk - (def + terrainBonus) ≤ 1` the `expectedDamage` is exactly 1. -/
theorem calculateCombat_scenario (rand : ℚ) (h0 : 0 ≤ rand) (h1 : rand < 1) :
    ((scenarioEngine.objects 0).coord = ⟨0, 0⟩ ∧ (scenarioEngine.objects 1).coord = ⟨1, 0⟩ ∧
      (scenarioEngine.objects 0).stats = ⟨5, 3, 4, 3, 10, 10, 100, 80⟩ ∧
      (scenarioEngine.objects 1).stats.def_ = 4 ∧ (scenarioEngine.objects 1).stats.sight = 5 ∧
      (scenarioEngine.objects 1).stats.morale = 80 ∧ (scenarioEngine.objects 1).stats.hp = 20 ∧
      (calculateCombat scenarioEngine 0 1 rand).defenderTerrainBonus = 0) ∧
    (calculateCombat scenarioEngine 0 1 rand).hitChance = 0.10 ∧
    (calculateCombat scenarioEngine 0 1 rand).expectedDamage = 1 ∧
    (∀ (g : GameEngine) (attacker defender : Nat),
      (g.objects attacker).stats.atk - ((g.objects defender).stats.def_ +
        (calculateCombat g attacker defender rand).defenderTerrainBonus) ≤ 1 →
      (calculateCombat g attacker defender rand).expectedDamage = 1) := by
  have hb : ∀ x : ℚ, (calculateCombat scenarioEngine 0 1 x).defenderTerrainBonus = 0 :=
    fun _ => rfl
  refine ⟨⟨by decide, by decide, by decide, by decide, by decide, by decide, by decide,
    hb rand⟩, ?_, ?_, ?_⟩
  · have e : ∀ x : ℚ, (calculateCombat scenarioEngine 0 1 x).hitChance =
        (calculateCombat scenarioEngine 0 1 0).hitChance := fun _ => rfl
    rw [e]
    decide!
  · refine calculateCombat_minimal scenarioEngine 0 1 rand h0 h1 ?_
    rw [hb rand]
    decide
  · intro g attacker defender hlow
    exact calculateCombat_minimal g attacker defender rand h0 h1 hlow

/-- Witness for C25 with the random draw one half. -/
theorem calculateCombat_scenario_witness :
    (0 : ℚ) ≤ 1 / 2 ∧ (1 / 2 : ℚ) < 1 ∧
    (((scenarioEngine.objects 0).coord = ⟨0, 0⟩ ∧ (scenarioEngine.objects 1).coord = ⟨1, 0⟩ ∧
      (scenarioEngine.objects 0).stats = ⟨5, 3, 4, 3, 10, 10, 100, 80⟩ ∧
      (scenarioEngine.objects 1).stats.def_ = 4 ∧ (scenarioEngine.objects 1).stats.sight = 5 ∧
      (scenarioEngine.objects 1).stats.morale = 80 ∧ (scenarioEngine.objects 1).stats.hp = 20 ∧
      (calculateCombat scenarioEngine 0 1 (1 / 2)).defenderTerrainBonus = 0) ∧
    (calculateCombat scenarioEngine 0 1 (1 / 2)).hitChance = 0.10 ∧
    (calculateCombat scenarioEngine 0 1 (1 / 2)).expectedDamage = 1 ∧
    (∀ (g : GameEngine) (attacker defender : Nat),
      (g.objects attacker).stats.atk - ((g.objects defender).stats.def_ +
        (calculateCombat g attacker defender (1 / 2)).defenderTerrainBonus) ≤ 1 →
      (calculateCombat g attacker defender (1 / 2)).expectedDamage = 1)) :=
  ⟨by norm_num, by norm_num, calculateCombat_scenario (1 / 2) (by norm_num) (by norm_num)⟩

theorem nearestTargetOf_foldl (g : GameEngine) (unit : Nat) (l : List Nat) :
    ∀ (acc : Option (Nat × Int)) (T : Nat) (d : Int),
      l.foldl (fun acc target =>
        let d := hexDistance (g.objects unit).coord (g.objects target).coord
        match acc with
        | none => some (target, d)
        | some (_, minDistance) => if d < minDistance then some (target, d) else acc) acc =
        some (T, d) →
      (∀ t ∈ l, d ≤ hexDistance (g.objects unit).coord (g.objects t).coord) ∧
      ((acc = some (T, d)) ∨
        (T ∈ l ∧ d = hexDistance (g.objects unit).coord (g.objects T).coord)) ∧
      (∀ T0 d0, acc = some (T0, d0) → d ≤ d0) := by
  induction l with
  | nil =>
    intro acc T d h
    simp only [List.foldl] at h
    refine ⟨fun t ht => (by cases ht), Or.inl h, ?_⟩
    intro T0 d0 h0
    rw [h] at h0
    cases h0
    exact le_refl _
  | cons x t ih =>
    intro acc T d h
    simp only [List.foldl] at h
    obtain ⟨h1, h2, h3⟩ := ih _ T d h
    cases acc with
    | none =>
      simp only at h2 h3
      have hx := h3 x _ rfl
      refine ⟨?_, ?_, fun T0 d0 h0 => by cases h0⟩
      · intro t' ht'
        rcases List.mem_cons.1 ht' with e | e
        · rw [e]; exact hx
        · exact h1 t' e
      · right
        rcases h2 with h2 | ⟨h2, h2'⟩
        · simp only [Option.some.injEq, Prod.mk.injEq] at h2
          exact ⟨by rw [← h2.1]; exact List.mem_cons_self _ _, by rw [← h2.2, h2.1]⟩
        · exact ⟨List.mem_cons_of_mem _ h2, h2'⟩
    | some p =>
      obtain ⟨T1, d1⟩ := p
      simp only at h2 h3
      by_cases hlt : hexDistance (g.objects unit).coord (g.objects x).coord < d1
      · simp only [hlt, if_true] at h2 h3
        have hx := h3 x _ rfl
        refine ⟨?_, ?_, ?_⟩
        · intro t' ht'
          rcases List.mem_cons.1 ht' with e | e
          · rw [e]; exact hx
          · exact h1 t' e
        · right
          rcases h2 with h2 | ⟨h2, h2'⟩
          · simp only [Option.some.injEq, Prod.mk.injEq] at h2
            exact ⟨by rw [← h2.1]; exact List.mem_cons_self _ _, by rw [← h2.2, h2.1]⟩
          · exact ⟨List.mem_cons_of_mem _ h2, h2'⟩
        · intro T0 d0 h0
          simp only [Option.some.injEq, Prod.mk.injEq] at h0
          rw [← h0.2]
          exact le_trans hx (le_of_lt hlt)
      · simp only [hlt, if_false] at h2 h3
        have hd := h3 T1 d1 rfl
        refine ⟨?_, ?_, ?_⟩
        · intro t' ht'
          rcases List.mem_cons.1 ht' with e | e
          · rw [e]; exact le_trans hd (not_lt.1 hlt)
          · exact h1 t' e
        · rcases h2 with h2 | ⟨h2, h2'⟩
          · exact Or.inl h2
          · exact Or.inr ⟨List.mem_cons_of_mem _ h2, h2'⟩
        · intro T0 d0 h0
          simp only [Option.some.injEq, Prod.mk.injEq] at h0
          rw [← h0.2]
          exact hd

theorem nearestTargetOf_spec (g : GameEngine) (unit : Nat) (targets : List Nat) (T : Nat)
    (d : Int) (h : nearestTargetOf g unit targets = some (T, d)) :
    T ∈ targets ∧ d = hexDistance (g.objects unit).coord (g.objects T).coord ∧
      ∀ t ∈ targets, d ≤ hexDistance (g.objects unit).coord (g.objects t).coord := by
  obtain ⟨h1, h2, _⟩ := nearestTargetOf_foldl g unit targets none T d h
  rcases h2 with h2 | h2
  · cases h2
  · exact ⟨h2.1, h2.2, h1⟩

/-- Once the best hex is at distance 1, it stays at distance 1 as long as no
entry is at distance 0. -/
theorem considerHex_foldl_keep (g : GameEngine) (nt : Nat) (l : HexMap Int)
    (hl : ∀ e ∈ l, hexDistance e.1 (g.objects nt).coord ≠ 0) :
    ∀ best : Option Coord × Int,
      (best.2 = 1 ∧ ∃ h, best.1 = some h ∧ hexDistance h (g.objects nt).coord = 1) →
      ((l.foldl (considerHex g nt) best).2 = 1 ∧
        ∃ h, (l.foldl (considerHex g nt) best).1 = some h ∧
          hexDistance h (g.objects nt).coord = 1) := by
  induction l with
  | nil => intro best hb; exact hb
  | cons e t ih =>
    intro best hb
    simp only [List.foldl]
    apply ih (fun e' he' => hl e' (List.mem_cons_of_mem _ he'))
    unfold considerHex
    simp only
    by_cases h1 : hexDistance e.1 (g.objects nt).coord = 1
    · rw [if_pos h1]
      exact ⟨h1, e.1, rfl, h1⟩
    · rw [if_neg h1]
      have h0 := hl e (List.mem_cons_self _ _)
      have hn := hexDistance_nonneg e.1 (g.objects nt).coord
      have : ¬ hexDistance e.1 (g.objects nt).coord < best.2 := by
        rw [hb.1]; omega
      rw [if_neg this]
      exact hb

theorem considerHex_foldl_adjacent (g : GameEngine) (nt : Nat) (l : HexMap Int)
    (hl : ∀ e ∈ l, hexDistance e.1 (g.objects nt).coord ≠ 0) :
    ∀ best : Option Coord × Int,
      (∃ e ∈ l, hexDistance e.1 (g.objects nt).coord = 1) →
      ((l.foldl (considerHex g nt) best).2 = 1 ∧
        ∃ h, (l.foldl (considerHex g nt) best).1 = some h ∧
          hexDistance h (g.objects nt).coord = 1) := by
  induction l with
  | nil => intro best ⟨e, he, _⟩; cases he
  | cons e t ih =>
    intro best ⟨e', he', hd⟩
    simp only [List.foldl]
    by_cases h1 : hexDistance e.1 (g.objects nt).coord = 1
    · apply considerHex_foldl_keep g nt t (fun x hx => hl x (List.mem_cons_of_mem _ hx))
      unfold considerHex
      simp only
      rw [if_pos h1]
      exact ⟨h1, e.1, rfl, h1⟩
    · rcases List.mem_cons.1 he' with e1 | e1
      · rw [e1] at hd; exact absurd hd h1
      · exact ih (fun x hx => hl x (List.mem_cons_of_mem _ hx)) _ ⟨e', e1, hd⟩

theorem considerHex_foldl_min (g : GameEngine) (nt : Nat) (l : HexMap Int)
    (hl : ∀ e ∈ l, hexDistance e.1 (g.objects nt).coord ≠ 1) :
    ∀ best : Option Coord × Int,
      (l.foldl (considerHex g nt) best).2 ≤ best.2 ∧
      (∀ e ∈ l, (l.foldl (considerHex g nt) best).2 ≤ hexDistance e.1 (g.objects nt).coord) ∧
      (l.foldl (considerHex g nt) best = best ∨
        ∃ h ∈ HexMap.keys l, (l.foldl (considerHex g nt) best).1 = some h ∧
          hexDistance h (g.objects nt).coord = (l.foldl (considerHex g nt) best).2 ∧
          (l.foldl (considerHex g nt) best).2 < best.2) := by
  induction l with
  | nil =>
    intro best
    exact ⟨le_refl _, fun e he => (by cases he), Or.inl rfl⟩
  | cons e t ih =>
    intro best
    simp only [List.foldl]
    have h1 := hl e (List.mem_cons_self _ _)
    obtain ⟨i1, i2, i3⟩ := ih (fun x hx => hl x (List.mem_cons_of_mem _ hx)) (considerHex g nt best e)
    have hstep : (hexDistance e.1 (g.objects nt).coord < best.2 ∧
          considerHex g nt best e = (some e.1, hexDistance e.1 (g.objects nt).coord)) ∨
        (¬ hexDistance e.1 (g.objects nt).coord < best.2 ∧ considerHex g nt best e = best) := by
      unfold considerHex
      simp only
      rw [if_neg h1]
      by_cases h2 : hexDistance e.1 (g.objects nt).coord < best.2
      · rw [if_pos h2]; exact Or.inl ⟨h2, rfl⟩
      · rw [if_neg h2]; exact Or.inr ⟨h2, rfl⟩
    have hkeys : ∀ h, h ∈ HexMap.keys t → h ∈ HexMap.keys (e :: t) := by
      intro h hh
      simp only [HexMap.keys, List.map_cons, List.mem_cons]
      exact Or.inr hh
    have hkey0 : e.1 ∈ HexMap.keys (e :: t) := by
      simp [HexMap.keys]
    rcases hstep with ⟨h2, hc⟩ | ⟨h2, hc⟩
    · rw [hc] at i1 i2 i3 ⊢
      simp only at i1 i3
      refine ⟨le_trans i1 (le_of_lt h2), ?_, Or.inr ?_⟩
      · intro x hx
        rcases List.mem_cons.1 hx with e1 | e1
        · rw [e1]; exact i1
        · exact i2 x e1
      · rcases i3 with i3 | ⟨h, hh, j1, j2, j3⟩
        · rw [i3]
          exact ⟨e.1, hkey0, rfl, rfl, h2⟩
        · exact ⟨h, hkeys h hh, j1, j2, lt_trans j3 h2⟩
    · rw [hc] at i1 i2 i3 ⊢
      refine ⟨i1, ?_, ?_⟩
      · intro x hx
        rcases List.mem_cons.1 hx with e1 | e1
        · rw [e1]; exact le_trans i1 (not_lt.1 h2)
        · exact i2 x e1
      · rcases i3 with i3 | ⟨h, hh, j1, j2, j3⟩
        · exact Or.inl i3
        · exact Or.inr ⟨h, hkeys h hh, j1, j2, j3⟩

theorem findBestAction_approach_eq (s : Sim) (unit : Nat) (targets : List Nat) (fuel : Nat)
    (T : Nat) (d : Int)
    (hadj : adjacentTargets s.engine unit targets = [])
    (hmoved : (s.engine.objects unit).status.moved = false)
    (hrand : ¬ s.rand s.drawn < 0.1)
    (hT : nearestTargetOf s.engine unit targets = some (T, d))
    (a : Option Action) (s' : Sim)
    (hrun : findBestAction s unit targets fuel = some (a, s')) :
    ∃ g1, calculateReachableHexes s.engine unit fuel = some g1 ∧
      (∀ hex, (g1.reachableHexes.foldl (considerHex g1 T) (none, d)).1 = some hex →
        a = some (Action.move unit hex)) ∧
      ((g1.reachableHexes.foldl (considerHex g1 T) (none, d)).1 = none →
        a = some (Action.wait unit)) := by
  have hlen : ¬ targets.length = 0 := by
    intro h0
    have : targets = [] := List.length_eq_zero.1 h0
    rw [this] at hT
    simp [nearestTargetOf] at hT
  unfold findBestAction at hrun
  rw [if_neg hlen] at hrun
  simp only [hadj, sortByHp, List.insertionSort, hmoved, hT] at hrun
  cases hc : calculateReachableHexes s.engine unit fuel with
  | none => simp [hc] at hrun
  | some g1 =>
    refine ⟨g1, rfl, ?_⟩
    simp only [hc] at hrun
    have hbest : (if g1.reachableHexes.length > 0 then
          g1.reachableHexes.foldl (considerHex g1 T) (none, d)
        else (none, d)) = g1.reachableHexes.foldl (considerHex g1 T) (none, d) := by
      by_cases hl : g1.reachableHexes.length > 0
      · rw [if_pos hl]
      · rw [if_neg hl]
        have : g1.reachableHexes = [] := List.length_eq_zero.1 (by omega)
        rw [this]; rfl
    rw [hbest] at hrun
    cases hb : (g1.reachableHexes.foldl (considerHex g1 T) (none, d)).1 with
    | none =>
      simp only [hb, Bool.false_eq_true, if_false, Option.some.injEq, Prod.mk.injEq] at hrun
      exact ⟨fun hex hh => (by cases hh), fun _ => hrun.1.symm⟩
    | some hex =>
      simp only [hb, Sim.random, hrand, Bool.false_eq_true, if_false, Option.some.injEq,
        Prod.mk.injEq] at hrun
      exact ⟨fun hex' hh => (by cases hh; exact hrun.1.symm), fun hh => (by cases hh)⟩

theorem findBestAction_some (s : Sim) (unit : Nat) (targets : List Nat)
    (hpos : positiveCosts s.engine) (fuel : Nat)
    (hfuel : searchMeasure s.engine (s.engine.objects unit)
      (searchInit (s.engine.objects unit)) ≤ fuel) :
    ∃ r, findBestAction s unit targets fuel = some r := by
  unfold findBestAction
  split
  · exact ⟨_, rfl⟩
  · simp only
    split
    · split
      · exact ⟨_, rfl⟩
      · exact ⟨_, rfl⟩
    · rename_i s1 heq
      have hs1 : s1.engine = s.engine := by
        split at heq
        · simp only [Prod.mk.injEq] at heq
          rw [← heq.2]
        · split at heq
          · cases heq
          · simp only [Prod.mk.injEq] at heq
            rw [← heq.2]
            rfl
      split
      · exact ⟨_, rfl⟩
      · split
        · exact ⟨_, rfl⟩
        · rw [hs1]
          obtain ⟨res, _, _, hc⟩ := calculateReachableHexes_some s.engine unit hpos fuel hfuel
          rw [hc]
          simp only
          split
          · split
            · exact ⟨_, rfl⟩
            · exact ⟨_, rfl⟩
          · exact ⟨_, rfl⟩

theorem oneUnitPerHex_inj (g : GameEngine) (hnd : oneUnitPerHex g) (v w : Nat)
    (hv : v ∈ g.units) (hw : w ∈ g.units) (h : (g.objects v).coord = (g.objects w).coord) :
    v = w :=
  List.inj_on_of_nodup_map hnd hv hw h

/-- C26: in the approach step of `findBestAction` (no adjacent enemy, unit not
moved, no random override), for targets that are units of the roster other than
the unit itself, with one unit per hex and `T` the nearest target: `T` is a
target at the least hex distance from the unit; if some hex of the unit's
reachable set is at distance exactly 1 from `T`, the action is a MOVE to a hex of
the set at distance exactly 1 from `T`; otherwise, if some hex of the set is
strictly closer to `T` than the unit's hex, the action is a MOVE to a hex of the
set that minimises the distance to `T` over the set; and if no hex of the set is
strictly closer, the action is WAIT. On a map with positive costs the decision is
produced for every large enough budget. -/
theorem findBestAction_approach (s : Sim) (unit : Nat) (targets : List Nat)
    (T : Nat) (d : Int)
    (hnd : oneUnitPerHex s.engine) (hunit : unit ∈ s.engine.units)
    (hlive : ∀ t ∈ targets, t ∈ s.engine.units ∧ t ≠ unit)
    (hadj : adjacentTargets s.engine unit targets = [])
    (hmoved : (s.engine.objects unit).status.moved = false)
    (hrand : ¬ s.rand s.drawn < 0.1)
    (hT : nearestTargetOf s.engine unit targets = some (T, d)) :
    (T ∈ targets ∧
      d = hexDistance (s.engine.objects unit).coord (s.engine.objects T).coord ∧
      ∀ t ∈ targets,
        d ≤ hexDistance (s.engine.objects unit).coord (s.engine.objects t).coord) ∧
    (∀ fuel a s', findBestAction s unit targets fuel = some (a, s') →
      ∃ g1, calculateReachableHexes s.engine unit fuel = some g1 ∧
        ((∃ h ∈ HexMap.keys g1.reachableHexes,
            hexDistance h (s.engine.objects T).coord = 1) →
          ∃ hex ∈ HexMap.keys g1.reachableHexes, a = some (Action.move unit hex) ∧
            hexDistance hex (s.engine.objects T).coord = 1) ∧
        ((¬ ∃ h ∈ HexMap.keys g1.reachableHexes,
            hexDistance h (s.engine.objects T).coord = 1) →
          (∃ h ∈ HexMap.keys g1.reachableHexes,
            hexDistance h (s.engine.objects T).coord <
              hexDistance (s.engine.objects unit).coord (s.engine.objects T).coord) →
          ∃ hex ∈ HexMap.keys g1.reachableHexes, a = some (Action.move unit hex) ∧
            ∀ h ∈ HexMap.keys g1.reachableHexes,
              hexDistance hex (s.engine.objects T).coord ≤
                hexDistance h (s.engine.objects T).coord) ∧
        ((¬ ∃ h ∈ HexMap.keys g1.reachableHexes,
            hexDistance h (s.engine.objects T).coord = 1) →
          (∀ h ∈ HexMap.keys g1.reachableHexes,
            hexDistance (s.engine.objects unit).coord (s.engine.objects T).coord ≤
              hexDistance h (s.engine.objects T).coord) →
          a = some (Action.wait unit))) ∧
    (positiveCosts s.engine → ∃ fuel0, ∀ fuel, fuel0 ≤ fuel →
      ∃ a s', findBestAction s unit targets fuel = some (a, s')) := by
  obtain ⟨hT1, hT2, hT3⟩ := nearestTargetOf_spec s.engine unit targets T d hT
  refine ⟨⟨hT1, hT2, hT3⟩, ?_, ?_⟩
  · intro fuel a s' hrun
    obtain ⟨g1, hc, hmove, hwait⟩ :=
      findBestAction_approach_eq s unit targets fuel T d hadj hmoved hrand hT a s' hrun
    refine ⟨g1, hc, ?_⟩
    have hobj : g1.objects = s.engine.objects :=
      (calculateReachableHexes_sameBoard s.engine unit fuel g1 hc).2.1
    have hmem : ∀ e ∈ g1.reachableHexes, e.1 ∈ HexMap.keys g1.reachableHexes := by
      intro e he
      simp only [HexMap.keys, List.mem_map]
      exact ⟨e, he, rfl⟩
    have hkey : ∀ h ∈ HexMap.keys g1.reachableHexes, ∃ e ∈ g1.reachableHexes, e.1 = h := by
      intro h hh
      simp only [HexMap.keys, List.mem_map] at hh
      exact hh
    have hTr := (hlive T hT1).1
    have hTu := (hlive T hT1).2
    have hne0 : ∀ e ∈ g1.reachableHexes,
        hexDistance e.1 (s.engine.objects T).coord ≠ 0 := by
      intro e he h0
      have he1 := hexDistance_eq_zero _ _ h0
      rcases calculateReachableHexes_key_free s.engine unit fuel g1 hc e.1 (hmem e he)
        with hfree | hown
      · rw [he1] at hfree
        exact (getUnitAt_none_iff s.engine _).1 hfree ⟨T, hTr, rfl⟩
      · exact hTu (oneUnitPerHex_inj s.engine hnd T unit hTr hunit (by rw [← he1, hown]))
    have hcons : ∀ (best : Option Coord × Int) (e : Coord × Int),
        considerHex g1 T best e = considerHex s.engine T best e := by
      intro best e
      unfold considerHex
      rw [hobj]
    have hfoldeq : g1.reachableHexes.foldl (considerHex g1 T) (none, d) =
        g1.reachableHexes.foldl (considerHex s.engine T) (none, d) := by
      congr 1
      funext best e
      exact hcons best e
    rw [hfoldeq] at hmove hwait
    refine ⟨?_, ?_, ?_⟩
    · rintro ⟨h, hh, hd1⟩
      obtain ⟨e, he, rfl⟩ := hkey h hh
      obtain ⟨_, hex, hb, hd⟩ := considerHex_foldl_adjacent s.engine T g1.reachableHexes hne0
        (none, d) ⟨e, he, hd1⟩
      refine ⟨hex, ?_, hmove hex hb, hd⟩
      rcases considerHex_foldl s.engine T g1.reachableHexes (none, d) hex hb with hx | hx
      · cases hx
      · exact hx
    · intro hno hcloser
      have hne1 : ∀ e ∈ g1.reachableHexes,
          hexDistance e.1 (s.engine.objects T).coord ≠ 1 :=
        fun e he h1 => hno ⟨e.1, hmem e he, h1⟩
      obtain ⟨m1, m2, m3⟩ := considerHex_foldl_min s.engine T g1.reachableHexes hne1 (none, d)
      obtain ⟨h, hh, hlt⟩ := hcloser
      obtain ⟨e, he, rfl⟩ := hkey h hh
      rcases m3 with m3 | ⟨hex, hk, j1, j2, j3⟩
      · rw [m3] at m2
        have := m2 e he
        simp only at this
        rw [hT2] at this
        omega
      · refine ⟨hex, hk, hmove hex j1, ?_⟩
        intro h' hh'
        obtain ⟨e', he', rfl⟩ := hkey h' hh'
        rw [j2]
        exact m2 e' he'
    · intro hno hfar
      have hne1 : ∀ e ∈ g1.reachableHexes,
          hexDistance e.1 (s.engine.objects T).coord ≠ 1 :=
        fun e he h1 => hno ⟨e.1, hmem e he, h1⟩
      obtain ⟨m1, m2, m3⟩ := considerHex_foldl_min s.engine T g1.reachableHexes hne1 (none, d)
      rcases m3 with m3 | ⟨hex, hk, j1, j2, j3⟩
      · apply hwait
        rw [m3]
      · have := hfar hex hk
        rw [j2, ← hT2] at this
        simp only at j3
        omega
  · intro hpos
    refine ⟨searchMeasure s.engine (s.engine.objects unit)
      (searchInit (s.engine.objects unit)), ?_⟩
    intro fuel hfuel
    obtain ⟨r, hr⟩ := findBestAction_some s unit targets hpos fuel hfuel
    exact ⟨r.1, r.2, hr⟩

/-- Witness for C26: the red demo unit deciding against the blue one. -/
theorem findBestAction_approach_witness :
    oneUnitPerHex demoSim.engine ∧ 1 ∈ demoSim.engine.units ∧
    (∀ t ∈ [0], t ∈ demoSim.engine.units ∧ t ≠ 1) ∧
    adjacentTargets demoSim.engine 1 [0] = [] ∧
    (demoSim.engine.objects 1).status.moved = false ∧
    ¬ demoSim.rand demoSim.drawn < 0.1 ∧
    nearestTargetOf demoSim.engine 1 [0] = some (0, 2) ∧
    ((0 ∈ [0] ∧
      (2 : Int) = hexDistance (demoSim.engine.objects 1).coord (demoSim.engine.objects 0).coord ∧
      ∀ t ∈ [0],
        (2 : Int) ≤ hexDistance (demoSim.engine.objects 1).coord
          (demoSim.engine.objects t).coord) ∧
    (∀ fuel a s', findBestAction demoSim 1 [0] fuel = some (a, s') →
      ∃ g1, calculateReachableHexes demoSim.engine 1 fuel = some g1 ∧
        ((∃ h ∈ HexMap.keys g1.reachableHexes,
            hexDistance h (demoSim.engine.objects 0).coord = 1) →
          ∃ hex ∈ HexMap.keys g1.reachableHexes, a = some (Action.move 1 hex) ∧
            hexDistance hex (demoSim.engine.objects 0).coord = 1) ∧
        ((¬ ∃ h ∈ HexMap.keys g1.reachableHexes,
            hexDistance h (demoSim.engine.objects 0).coord = 1) →
          (∃ h ∈ HexMap.keys g1.reachableHexes,
            hexDistance h (demoSim.engine.objects 0).coord <
              hexDistance (demoSim.engine.objects 1).coord (demoSim.engine.objects 0).coord) →
          ∃ hex ∈ HexMap.keys g1.reachableHexes, a = some (Action.move 1 hex) ∧
            ∀ h ∈ HexMap.keys g1.reachableHexes,
              hexDistance hex (demoSim.engine.objects 0).coord ≤
                hexDistance h (demoSim.engine.objects 0).coord) ∧
        ((¬ ∃ h ∈ HexMap.keys g1.reachableHexes,
            hexDistance h (demoSim.engine.objects 0).coord = 1) →
          (∀ h ∈ HexMap.keys g1.reachableHexes,
            hexDistance (demoSim.engine.objects 1).coord (demoSim.engine.objects 0).coord ≤
              hexDistance h (demoSim.engine.objects 0).coord) →
          a = some (Action.wait 1))) ∧
    (positiveCosts demoSim.engine → ∃ fuel0, ∀ fuel, fuel0 ≤ fuel →
      ∃ a s', findBestAction demoSim 1 [0] fuel = some (a, s'))) :=
  ⟨by decide, by decide, by decide, by decide, by decide, by decide!, by decide,
    findBestAction_approach demoSim 1 [0] 0 2 (by decide) (by decide) (by decide) (by decide)
      (by decide) (by decide!) (by decide)⟩

/-- C27, the failing run: in the corridor the red unit 2 at `(0, 0)` destroys
the blue unit 0 at `(1, 0)` in its pass of `runAI`; the pass of the red unit 3
at `(3, 0)` still receives the list `[0, 1]` taken at the start of `runAI`, so
its nearest enemy is the destroyed unit 0 (distance 2) and not the blue unit 1
still in the roster (distance 3): it moves onto `(1, 0)`, the hex of the
destroyed unit, where the blue roster of that moment would send it to `(5, 0)`. -/
theorem runAI_approaches_destroyed_unit :
    (runTask staleSim Task.runAI 100).map (fun s => (s.engine.units, s.timers)) =
      some ([0, 1, 2, 3], [(200, Task.aiResume [2, 3] [0, 1])]) ∧
    ((runTask staleSim Task.runAI 100).bind (fun s => s.fireTimers 100 1)).map
      (fun s => (s.engine.units, (s.engine.objects 0).stats.hp, s.timers)) =
      some ([1, 2, 3], 0, [(400, Task.aiResume [3] [0, 1])]) ∧
    ((runTask staleSim Task.runAI 100).bind (fun s => s.fireTimers 100 1)).map
      (fun s => (nearestTargetOf s.engine 3 [0, 1],
        (findBestAction s 3 [0, 1] 100).map (fun x => x.1))) =
      some (some (0, 2), some (some (Action.move 3 ⟨1, 0⟩))) ∧
    ((runTask staleSim Task.runAI 100).bind (fun s => s.fireTimers 100 1)).map
      (fun s => (getUnitsByFaction s.engine Faction.blue,
        nearestTargetOf s.engine 3 (getUnitsByFaction s.engine Faction.blue),
        (findBestAction s 3 (getUnitsByFaction s.engine Faction.blue) 100).map
          (fun x => x.1))) =
      some ([1], some (1, 3), some (some (Action.move 3 ⟨5, 0⟩))) ∧
    ((runTask staleSim Task.runAI 100).bind (fun s => s.fireTimers 100 2)).map
      (fun s => (s.engine.units, (s.engine.objects 3).coord)) =
      some ([1, 2, 3], ⟨1, 0⟩) :=
  ⟨by decide!, by decide!, by decide!, by decide!, by decide!⟩

/-- C29, the failing input: for the red demo unit at `(1, 1)` and the blue unit
at `(0, 0)`, the reachable set lists two hexes at distance 1 from the blue unit,
`(1, 0)` before `(0, 1)`; `findBestAction` returns the MOVE to `(0, 1)`, the
last of them, not the first one found. -/
theorem findBestAction_takes_last_adjacent :
    (calculateReachableHexes demoEngine 1 100).map (fun g =>
      (HexMap.keys g.reachableHexes).filter
        (fun h => decide (hexDistance h (demoEngine.objects 0).coord = 1))) =
      some [⟨1, 0⟩, ⟨0, 1⟩] ∧
    nearestTargetOf demoEngine 1 [0] = some (0, 2) ∧
    (findBestAction demoSim 1 [0] 100).map (fun x => x.1) =
      some (some (Action.move 1 ⟨0, 1⟩)) := by
  decide!

/-- C30, the failing run: from the demo engine blue ends its turn and the first
two timers of the AI turn fire (start of `runAI`, the pass of the red unit, whose
MOVE registers the follow-up attack); `runAI` has then called `endTurn`: blue is
to play on turn 2 and the follow-up attack is still pending. When it fires,
`resolveCombat` is applied to the red attacker with blue to play: the blue unit
loses 5 hp. -/
theorem followUp_attack_in_blue_turn :
    (((hostEndTurn hitSim 100).bind (fun s => s.fireTimers 100 2)).map
      (fun s => (s.engine.currentPlayer, s.engine.turn, s.timers))) =
      some (Faction.blue, 2, [(950, Task.followUp (Action.attack 1 0))]) ∧
    (((hostEndTurn hitSim 100).bind (fun s => s.fireTimers 100 2)).map
      (fun s => ((s.engine.objects 1).faction, (s.engine.objects 0).stats.hp))) =
      some (Faction.red, 10) ∧
    (((hostEndTurn hitSim 100).bind (fun s => s.fireTimers 100 3)).map
      (fun s => (s.engine.currentPlayer, s.engine.turn, s.timers))) =
      some (Faction.blue, 2, []) ∧
    (((hostEndTurn hitSim 100).bind (fun s => s.fireTimers 100 3)).map
      (fun s => ((s.engine.objects 0).stats.hp, (s.engine.objects 1).status))) =
      some (5, { moved := true, acted := true }) := by
  decide!

theorem adjacentTargets_distance (g : GameEngine) (unit : Nat) (targets : List Nat) (t : Nat)
    (h : t ∈ adjacentTargets g unit targets) :
    hexDistance (g.objects unit).coord (g.objects t).coord = 1 := by
  unfold adjacentTargets at h
  rw [List.mem_filterMap] at h
  obtain ⟨n, hn, hm⟩ := h
  cases hu : getUnitAt g n.q n.r with
  | none => simp [hu] at hm
  | some w =>
    simp only [hu] at hm
    split at hm
    · simp only [Option.some.injEq] at hm
      subst hm
      obtain ⟨_, hc⟩ := getUnitAt_some g n w hu
      rw [hc]
      exact hexDistance_neighbor _ _ hn
    · cases hm

theorem sortByHp_head_mem (g : GameEngine) (l : List Nat) (t : Nat) (rest : List Nat)
    (h : sortByHp g l = t :: rest) : t ∈ l := by
  have hp : (sortByHp g l).Perm l := List.perm_insertionSort _ l
  exact hp.mem_iff.1 (by rw [h]; exact List.mem_cons_self _ _)

/-- A unit that has already moved gets no MOVE from `findBestAction`: the
decision is an ATTACK on an adjacent target, a WAIT or no action, it needs no
search, and it leaves the engine, the clock and the timers as they are. -/
theorem findBestAction_moved (s : Sim) (unit : Nat) (targets : List Nat) (fuel : Nat)
    (hm : (s.engine.objects unit).status.moved = true) :
    ∃ a s1, findBestAction s unit targets fuel = some (a, s1) ∧
      s1.engine = s.engine ∧ s1.timers = s.timers ∧ s1.now = s.now ∧
      (a = none ∨ a = some (Action.wait unit) ∨
        ∃ t, a = some (Action.attack unit t) ∧
          hexDistance (s.engine.objects unit).coord (s.engine.objects t).coord = 1) := by
  unfold findBestAction
  split
  · exact ⟨_, _, rfl, rfl, rfl, rfl, Or.inl rfl⟩
  · simp only
    split
    · rename_i bestAttack sx heq
      have hsx : sx.engine = s.engine ∧ sx.timers = s.timers ∧ sx.now = s.now ∧
          ∃ t, bestAttack = Action.attack unit t ∧
            hexDistance (s.engine.objects unit).coord (s.engine.objects t).coord = 1 := by
        split at heq
        · cases heq
        · rename_i target rest hsort
          split at heq
          · simp only [Prod.mk.injEq, Option.some.injEq] at heq
            obtain ⟨h1, h2⟩ := heq
            subst h1; subst h2
            exact ⟨rfl, rfl, rfl, target, rfl,
              adjacentTargets_distance s.engine unit targets target
                (sortByHp_head_mem s.engine _ target rest hsort)⟩
          · cases heq
      obtain ⟨e1, e2, e3, t, rfl, hd⟩ := hsx
      split
      · exact ⟨_, _, rfl, e1, e2, e3, Or.inr (Or.inl rfl)⟩
      · exact ⟨_, _, rfl, e1, e2, e3, Or.inr (Or.inr ⟨t, rfl, hd⟩)⟩
    · rename_i sx heq
      have hsx : sx.engine = s.engine ∧ sx.timers = s.timers ∧ sx.now = s.now := by
        split at heq
        · simp only [Prod.mk.injEq] at heq
          rw [← heq.2]
          exact ⟨rfl, rfl, rfl⟩
        · split at heq
          · cases heq
          · simp only [Prod.mk.injEq] at heq
            rw [← heq.2]
            exact ⟨rfl, rfl, rfl⟩
      rw [if_pos hm]
      exact ⟨_, _, rfl, hsx.1, hsx.2.1, hsx.2.2, Or.inl rfl⟩

/-- Running an ATTACK action registers no timer; it leaves the attacker with
`{moved: true, acted: true}` when the attack is accepted (not yet acted, target
within distance 1) and also when the attacker had already moved and acted. -/
theorem executeAction_attack (s : Sim) (unit t : Nat) (fuel : Nat)
    (h : ((s.engine.objects unit).status.acted = false ∧
        hexDistance (s.engine.objects unit).coord (s.engine.objects t).coord ≤ 1) ∨
      ((s.engine.objects unit).status.acted = true ∧
        (s.engine.objects unit).status.moved = true)) :
    ∃ s3, executeAction s (Action.attack unit t) fuel = some s3 ∧ s3.timers = s.timers ∧
      (s3.engine.objects unit).status = { moved := true, acted := true } := by
  unfold executeAction hostResolveCombat
  simp only
  rcases h with ⟨ha, hd⟩ | ⟨ha, hmv⟩
  · obtain ⟨g3, g', hr, hobj, _⟩ :=
      resolveCombat_accepted s.engine unit t (s.rand s.drawn) (s.rand (s.drawn + 1)) fuel ha hd
    rw [hr]
    simp only
    have hst : (g'.objects unit).status = { moved := true, acted := true } := by
      rw [hobj]; simp
    split
    · exact ⟨_, rfl, rfl, hst⟩
    · exact ⟨_, rfl, rfl, hst⟩
  · rw [resolveCombat_of_rejected s.engine unit t _ _ fuel (Or.inl ha)]
    simp only
    have hst : (s.engine.objects unit).status = { moved := true, acted := true } := by
      cases hs : (s.engine.objects unit).status with
      | mk m a =>
        rw [hs] at ha hmv
        simp only at ha hmv
        rw [ha, hmv]
    split
    · exact ⟨_, rfl, rfl, hst⟩
    · exact ⟨_, rfl, rfl, hst⟩

/-- C28: the re-decision of the AI after a MOVE is capped at one follow-up
action. In every state, `executeAction` of a MOVE returns (whatever the budget);
the unit is then marked as moved, and either no timer was registered and the
unit is marked as acted, or exactly one follow-up was registered, an ATTACK of
the unit on a target next to it. Running that follow-up registers no further
timer and leaves the unit with `{moved: true, acted: true}`, both in the state
the MOVE produced and in every later state in which the unit has not acted and
is within distance 1 of the target. The re-evaluation by `findBestAction` for a
unit marked as moved yields ATTACK, WAIT or no action, never a MOVE. -/
theorem executeAction_move_one_followUp (s : Sim) (unit : Nat) (hex : Coord) (fuel : Nat) :
    (∃ s2, executeAction s (Action.move unit hex) fuel = some s2 ∧
      (s2.engine.objects unit).status.moved = true ∧
      ((s2.timers = s.timers ∧ (s2.engine.objects unit).status.acted = true) ∨
        ∃ t, s2.timers = s.timers ++ [(s.now + 250, Task.followUp (Action.attack unit t))] ∧
          hexDistance (s2.engine.objects unit).coord (s2.engine.objects t).coord = 1 ∧
          (∃ s3, runTask s2 (Task.followUp (Action.attack unit t)) fuel = some s3 ∧
            s3.timers = s2.timers ∧
            (s3.engine.objects unit).status = { moved := true, acted := true }) ∧
          ∀ (s' : Sim) (fuel' : Nat), (s'.engine.objects unit).status.acted = false →
            hexDistance (s'.engine.objects unit).coord (s'.engine.objects t).coord ≤ 1 →
            ∃ s3, runTask s' (Task.followUp (Action.attack unit t)) fuel' = some s3 ∧
              s3.timers = s'.timers ∧
              (s3.engine.objects unit).status = { moved := true, acted := true })) ∧
    (∀ (s0 : Sim) (targets : List Nat) (a : Option Action) (s1 : Sim),
      (s0.engine.objects unit).status.moved = true →
      findBestAction s0 unit targets fuel = some (a, s1) →
      a = none ∨ a = some (Action.wait unit) ∨ ∃ t, a = some (Action.attack unit t)) := by
  constructor
  · have hm : (({ s with engine := (setObject (moveUnit s.engine unit hex) unit
        { (moveUnit s.engine unit hex).objects unit with
          status := { ((moveUnit s.engine unit hex).objects unit).status with
            moved := true } }) } : Sim).engine.objects unit).status.moved = true := by
      simp [setObject]
    obtain ⟨a, s1, hf, he, ht, hn, ha⟩ := findBestAction_moved _ unit
      (getUnitsByFaction (setObject (moveUnit s.engine unit hex) unit
        { (moveUnit s.engine unit hex).objects unit with
          status := { ((moveUnit s.engine unit hex).objects unit).status with
            moved := true } }) Faction.blue) fuel hm
    unfold executeAction
    simp only
    rw [hf]
    have hmv1 : (s1.engine.objects unit).status.moved = true := by rw [he]; exact hm
    rcases ha with rfl | rfl | ⟨t, rfl, hd⟩
    · refine ⟨_, rfl, by simp [setObject, hmv1], Or.inl ⟨ht, by simp [setObject]⟩⟩
    · refine ⟨_, rfl, by simp [setObject, hmv1], Or.inl ⟨ht, by simp [setObject]⟩⟩
    · refine ⟨_, rfl, ?_, Or.inr ⟨t, ?_, ?_, ?_, ?_⟩⟩
      · exact hmv1
      · simp only [Sim.setTimeout, ht, hn]
      · show hexDistance (s1.engine.objects unit).coord (s1.engine.objects t).coord = 1
        rw [he]; exact hd
      · show ∃ s3, executeAction (s1.setTimeout (Task.followUp (Action.attack unit t)) 250)
            (Action.attack unit t) fuel = some s3 ∧ _
        apply executeAction_attack
        show ((s1.engine.objects unit).status.acted = false ∧
            hexDistance (s1.engine.objects unit).coord (s1.engine.objects t).coord ≤ 1) ∨
          ((s1.engine.objects unit).status.acted = true ∧
            (s1.engine.objects unit).status.moved = true)
        cases hacted : (s1.engine.objects unit).status.acted
        · left
          refine ⟨rfl, ?_⟩
          rw [he, hd]
        · right
          exact ⟨rfl, hmv1⟩
      · intro s' fuel' hacted hdist
        exact executeAction_attack s' unit t fuel' (Or.inl ⟨hacted, hdist⟩)
  · intro s0 targets a s1 hm hf
    obtain ⟨a', s1', hf', _, _, _, ha⟩ := findBestAction_moved s0 unit targets fuel hm
    rw [hf'] at hf
    simp only [Option.some.injEq, Prod.mk.injEq] at hf
    rw [← hf.1]
    rcases ha with h | h | ⟨t, h, _⟩
    · exact Or.inl h
    · exact Or.inr (Or.inl h)
    · exact Or.inr (Or.inr ⟨t, h⟩)

end QDWSS
